import Mathlib

/-!
# Door locker

A shallow embedding of `Control/Main_App_Control.c` and of the verify path of
`HMI/Main_App_HMI.c`. The globals and the function-local statics of the
Control node are the fields of one record, `Control`; every handler
(`passStoreCheck`, `doorHandler`, `alarmStage`) and the tick callback
`timerCallBackRuntime` is a function on that record. The serial link is a
list of bytes still to be received together with a log of the bytes sent; a
blocking receive on an empty link never returns, which is the result `none`.
The external store, the actuator, the alarm signal and the diagnostic pin are
fields of the record as well.

Handlers are atomic: the timer interrupt is taken between two handler calls,
never inside one. Bytes are natural numbers; `uint8` arithmetic is written
with an explicit `% 256`.

The HMI node is the record `HMI` with the handlers `phaseOne` (cut at its
blocking receive into `phaseOneEntry` and `phaseOneAwait`), `phaseTwo`,
`phaseThree`, `phaseFour` and `phaseFive` and the dispatch of its main loop,
`hmiIteration`; the keypad is the list of values its successive reads
return. `Sys` puts the two nodes on the two directions of the link.

Of the drivers, `UART_receiveString` of UART.c is a function on the inbound
bytes and a buffer, and the callback pointers, interrupt handlers and
`Timer_setCallBack` of Timer.c are functions over an arbitrary program
state.

The file has three parts: the definitions, the lemmas about them, and the
statements for the claims of the specification.
-/

namespace DoorLocker

/-! ## Types and constants of the source -/

/-- The enum `doorState` of Main_App_Control.c (values 0, 1, 2, 3). -/
inductive doorState where
  | OPENING_DOOR
  | WAITING_FOR_PEOPLE
  | CLOSING_DOOR
  | Done
  deriving DecidableEq, Repr

/-- Numeric value of a `doorState` constant, as passed to `UART_sendByte`. -/
def doorState.toByte : doorState → Nat
  | .OPENING_DOOR => 0
  | .WAITING_FOR_PEOPLE => 1
  | .CLOSING_DOOR => 2
  | .Done => 3

/-- The enum `DcMotor_State` of motor.h. -/
inductive DcMotor_State where
  | CW
  | A_CW
  | STOP
  deriving DecidableEq, Repr

/-- `OPEN_BYTE = 'a'`. -/
def OPEN_BYTE : Nat := 97

/-- `WAIT_BYTE = 'b'`. -/
def WAIT_BYTE : Nat := 98

/-- `CLOSE_BYTE = 'c'`. -/
def CLOSE_BYTE : Nat := 99

/-- `Alarm_Byte = 'd'`. -/
def Alarm_Byte : Nat := 100

/-- The request byte `'F'` (verify). -/
def BYTE_F : Nat := 70

/-- The request byte `'S'` (store). -/
def BYTE_S : Nat := 83

/-- The outcome byte `'X'` (verify succeeded). -/
def BYTE_X : Nat := 88

/-- The outcome byte `'Z'` (verify mismatched). -/
def BYTE_Z : Nat := 90

/-- The blank marker `' '`. -/
def BLANK : Nat := 32

/-- Modelled from the spec: `LOGIC_LOW` of std_types.h, which is not among
the sources; it is the "clear" reading of the occupancy sensor. -/
def LOGIC_LOW : Nat := 0

/-- The state of the Control node.

* `seconds`, `g_error`, `phaseSwitches`, `timerState`, `alarmState` are the
  globals of Main_App_Control.c;
* `compareByte` is the static of `passStoreCheck` that `EEPROM_readByte`
  fills (the other statics of that function, `storedByte`, `storeLimit` and
  `RByte`, are assigned before they are read in every call);
* `motorState`, `doorByteSent` are the statics of `doorHandler`,
  `alarmByteSent` the static of `alarmStage`;
* `eeprom` is the content of the external store, `tx` the bytes given to
  `UART_sendByte` (oldest first), `motorCmds` the calls of `DcMotor_Rotate`
  (oldest first, the last one is what the actuator does now), `buzzer` the
  alarm signal, `diagPin` PORTA pin 0, `iBit` bit 7 of SREG. -/
structure Control where
  seconds : Nat
  g_error : Nat
  phaseSwitches : Nat
  timerState : doorState
  alarmState : Nat
  compareByte : Nat
  motorState : doorState
  doorByteSent : Nat
  alarmByteSent : Nat
  eeprom : Nat → Nat
  tx : List Nat
  motorCmds : List (DcMotor_State × Nat)
  buzzer : Bool
  diagPin : Bool
  iBit : Bool

/-- The Control node after reset, over a store holding `mem`: the
initialisers of the globals and statics, nothing sent, interrupts masked. -/
def boot (mem : Nat → Nat) : Control :=
  { seconds := 0
    g_error := 0
    phaseSwitches := 1
    timerState := .OPENING_DOOR
    alarmState := 0
    compareByte := 0
    motorState := .OPENING_DOOR
    doorByteSent := 0
    alarmByteSent := 0
    eeprom := mem
    tx := []
    motorCmds := []
    buzzer := false
    diagPin := false
    iBit := false }

/-! ## External collaborators -/

/-- `UART_sendByte`: the byte is appended to the log of sent bytes. -/
def UART_sendByte (b : Nat) (c : Control) : Control :=
  { c with tx := c.tx ++ [b] }

/-- `DcMotor_Rotate(state, speed)`: the command is appended to the log. -/
def DcMotor_Rotate (st : DcMotor_State) (speed : Nat) (c : Control) : Control :=
  { c with motorCmds := c.motorCmds ++ [(st, speed)] }

/-- What the actuator is doing: the state of the last `DcMotor_Rotate`. -/
def actuator (c : Control) : Option DcMotor_State :=
  (c.motorCmds.getLast?).map Prod.fst

/-- Modelled from the spec: `EEPROM_readByte(addr, &compareByte)` of
external_eeprom.c, which is not among the sources. `read(address) -> byte |
Fault`: without a fault the byte at `addr` is stored in `compareByte` and the
call succeeds; with a fault the call reports `ERROR` (the returned flag is
`true`) and `compareByte` keeps the byte it held. -/
def EEPROM_readByte (fault : Bool) (addr : Nat) (c : Control) : Bool × Control :=
  if fault then (true, c) else (false, { c with compareByte := c.eeprom addr })

/-- Modelled from the spec: `EEPROM_writeByte(addr, byte)` of
external_eeprom.c, which is not among the sources: `write(address, byte)`
replaces the byte at `addr`. -/
def EEPROM_writeByte (addr : Nat) (b : Nat) (c : Control) : Control :=
  { c with eeprom := fun a => if a = addr then b else c.eeprom a }

/-! ## timerCallBackRuntime -/

/-- The tick callback `timerCallBackRuntime`. -/
def timerCallBackRuntime (c : Control) : Control :=
  let c1 : Control :=
    match c.timerState with
    | .OPENING_DOOR => { c with seconds := (c.seconds + 1) % 256 }
    | .WAITING_FOR_PEOPLE => { c with seconds := 0 }
    | .CLOSING_DOOR => { c with seconds := (c.seconds + 1) % 256 }
    | .Done => { c with seconds := 0, timerState := .OPENING_DOOR }
  if c1.alarmState = 255 then { c1 with seconds := (c1.seconds + 1) % 256 } else c1

/-! ## passStoreCheck -/

/-- The body of `if (storedByte != compareByte)` in `passStoreCheck`, up to
its `break`: the error count goes up by one and, when it is 3, the alarm is
raised and the alarm byte sent; otherwise `'Z'` is sent. -/
def mismatchBranch (c1 : Control) : Control :=
  let c2 : Control := { c1 with g_error := (c1.g_error + 1) % 256 }
  if c2.g_error = 3 then
    UART_sendByte Alarm_Byte { c2 with alarmState := 255, phaseSwitches := 3, g_error := 0 }
  else
    UART_sendByte BYTE_Z c2

/-- The comparison loop of `passStoreCheck` (`while (storeLimit < 5)` of the
`'F'` branch). `rx` is what the serial link still delivers, `fault i` tells
whether the read of address `0x0001 + i` faults. The result is the state, the
local `flag` and the bytes not yet received; `none` when the link runs dry,
where the blocking receive never returns. -/
def verifyLoop (fault : Nat → Bool) :
    List Nat → Nat → Control → Option (Control × Nat × List Nat)
  | [], storeLimit, c => if storeLimit < 5 then none else some (c, 0, [])
  | storedByte :: rest, storeLimit, c =>
    if storeLimit < 5 then
      if storedByte ≠ BLANK then
        let r := EEPROM_readByte (fault storeLimit) (1 + storeLimit) c
        let c1 : Control := if r.1 then { r.2 with diagPin := true } else r.2
        if storedByte ≠ c1.compareByte then
          some (mismatchBranch c1, 1, rest)
        else verifyLoop fault rest (storeLimit + 1) c1
      else verifyLoop fault rest storeLimit c
    else some (c, 0, storedByte :: rest)

/-- The storing loop of `passStoreCheck` (`while (storeLimit < 5)` of the
`'S'` branch). -/
def storeLoop : List Nat → Nat → Control → Option (Control × List Nat)
  | [], storeLimit, c => if storeLimit < 5 then none else some (c, [])
  | storedByte :: rest, storeLimit, c =>
    if storeLimit < 5 then
      if storedByte ≠ BLANK then
        storeLoop rest (storeLimit + 1) (EEPROM_writeByte (1 + storeLimit) storedByte c)
      else storeLoop rest storeLimit c
    else some (c, storedByte :: rest)

/-- The handler `passStoreCheck`: one request byte is received, then the
branch for `'F'` or `'S'` runs; any other byte is dropped. -/
def passStoreCheck (fault : Nat → Bool) (c : Control) (rx : List Nat) :
    Option (Control × List Nat) :=
  match rx with
  | [] => none
  | RByte :: rest =>
    if RByte = BYTE_F then
      match verifyLoop fault rest 0 c with
      | none => none
      | some (c1, flag, rest1) =>
        if flag = 0 then
          some ({ UART_sendByte BYTE_X c1 with phaseSwitches := 2 }, rest1)
        else some (c1, rest1)
    else if RByte = BYTE_S then
      storeLoop rest 0 c
    else some (c, rest)

/-! ## doorHandler -/

/-- The handler `doorHandler`; `pir` is what `PIR_getState()` returns if the
call reads the sensor. -/
def doorHandler (pir : Nat) (c : Control) : Control :=
  match c.motorState with
  | .OPENING_DOOR =>
    let c1 : Control :=
      if c.doorByteSent = 0 then { UART_sendByte OPEN_BYTE c with doorByteSent := 1 } else c
    let c2 := DcMotor_Rotate .CW 100 c1
    if c2.seconds > 15 then
      { DcMotor_Rotate .STOP 0 c2 with
          motorState := .WAITING_FOR_PEOPLE
          doorByteSent := 0
          timerState := .WAITING_FOR_PEOPLE }
    else c2
  | .WAITING_FOR_PEOPLE =>
    let c1 := DcMotor_Rotate .STOP 0 c
    let c2 : Control :=
      if c1.doorByteSent = 0 then { UART_sendByte WAIT_BYTE c1 with doorByteSent := 1 } else c1
    if pir = LOGIC_LOW then
      { c2 with
          motorState := .CLOSING_DOOR
          doorByteSent := 0
          timerState := .CLOSING_DOOR }
    else c2
  | .CLOSING_DOOR =>
    let c1 : Control :=
      if c.doorByteSent = 0 then { UART_sendByte CLOSE_BYTE c with doorByteSent := 1 } else c
    let c2 := DcMotor_Rotate .A_CW 100 c1
    if c2.seconds > 15 then
      UART_sendByte doorState.Done.toByte
        { DcMotor_Rotate .STOP 0 c2 with
            motorState := .OPENING_DOOR
            phaseSwitches := 1
            doorByteSent := 0
            timerState := .Done }
    else c2
  | .Done => c

/-! ## alarmStage -/

/-- The handler `alarmStage`. -/
def alarmStage (c : Control) : Control :=
  if c.seconds < 60 then { c with buzzer := true }
  else
    let c1 : Control :=
      if c.alarmByteSent = 0 then { UART_sendByte OPEN_BYTE c with alarmByteSent := 1 } else c
    { c1 with buzzer := false, alarmByteSent := 0, alarmState := 0, phaseSwitches := 1 }

/-! ## main -/

/-- One pass through the body of `while (1)` in `main`: the handler of the
current phase runs, after the interrupt bit is cleared (phase 1) or set
(phases 2 and 3). `fault` and `pir` are the answers of the store and of the
sensor to that handler. No handler runs for another phase value. -/
def mainIteration (fault : Nat → Bool) (pir : Nat) (c : Control) (rx : List Nat) :
    Option (Control × List Nat) :=
  if c.phaseSwitches = 1 then passStoreCheck fault { c with iBit := false } rx
  else if c.phaseSwitches = 2 then some (doorHandler pir { c with iBit := true }, rx)
  else if c.phaseSwitches = 3 then some (alarmStage { c with iBit := true }, rx)
  else some (c, rx)

/-- What can happen to the Control node between two handler boundaries: the
timer interrupt invokes the registered callback, or the main loop makes one
pass. -/
inductive Event where
  | tick
  | iter (fault : Nat → Bool) (pir : Nat)

/-- One step of the Control node together with its inbound link. A tick
step is not held back by `iBit`, so the steps include every delivery the
hardware makes: a tick raised while phase 1 masks interrupts is delivered
once the next pass sets the bit, before its handler reads the state, which
is a tick step right before that pass. -/
def step : Event → Control × List Nat → Option (Control × List Nat)
  | .tick, (c, rx) => some (timerCallBackRuntime c, rx)
  | .iter fault pir, (c, rx) => mainIteration fault pir c rx

/-- Runs a sequence of events; `none` when a blocking receive finds the link
empty. -/
def run : List Event → Control × List Nat → Option (Control × List Nat)
  | [], s => some s
  | e :: es, s =>
    match step e s with
    | none => none
    | some s1 => run es s1

/-- The read pattern without faults. -/
def noFault : Nat → Bool := fun _ => false

/-! ## The phases of the design -/

/-- The states of the ControlPhaseMachine as the specification names them. -/
inductive Phase where
  | CREDENTIAL_CHECK
  | DOOR_OPENING
  | DOOR_WAITING
  | DOOR_CLOSING
  | ALARM
  deriving DecidableEq, Repr

/-- The phase a Control state is in: `phaseSwitches` selects the handler and,
in the door phase, `motorState` selects the part of the door cycle. There is
no phase for another value of `phaseSwitches` or for `motorState = Done`. -/
def phaseOf (c : Control) : Option Phase :=
  if c.phaseSwitches = 1 then some .CREDENTIAL_CHECK
  else if c.phaseSwitches = 2 then
    match c.motorState with
    | .OPENING_DOOR => some .DOOR_OPENING
    | .WAITING_FOR_PEOPLE => some .DOOR_WAITING
    | .CLOSING_DOOR => some .DOOR_CLOSING
    | .Done => none
  else if c.phaseSwitches = 3 then some .ALARM
  else none

/-- The stored credential: the bytes at addresses `0x0001 .. 0x0005`. -/
def credential (c : Control) : List Nat :=
  [c.eeprom 1, c.eeprom 2, c.eeprom 3, c.eeprom 4, c.eeprom 5]

/-- The bytes of a stream that are not the blank marker, in order. -/
def nonBlank (rx : List Nat) : List Nat :=
  rx.filter fun b => b ≠ BLANK

/-- The transitions the specification draws between the phases: the door
cycle, the alarm and back, and staying where one is. -/
def allowedTransition : Phase → Phase → Bool
  | .CREDENTIAL_CHECK, .DOOR_OPENING => true
  | .DOOR_OPENING, .DOOR_WAITING => true
  | .DOOR_WAITING, .DOOR_CLOSING => true
  | .DOOR_CLOSING, .CREDENTIAL_CHECK => true
  | .CREDENTIAL_CHECK, .ALARM => true
  | .ALARM, .CREDENTIAL_CHECK => true
  | p, q => decide (p = q)

/-- What holds of the Control node at every handler boundary: a handler is
selected, and outside the door phase the door cycle rests at its start. -/
def PhaseInv (c : Control) : Prop :=
  (c.phaseSwitches = 1 ∨ c.phaseSwitches = 2 ∨ c.phaseSwitches = 3)
  ∧ (c.phaseSwitches ≠ 2 → c.motorState = .OPENING_DOOR)
  ∧ c.motorState ≠ .Done

/-- The bytes of one request as the HMI sends them: five digit values
0..9 (phaseOne keeps only keys that are at most 9). -/
def isDigitMessage (m : List Nat) : Prop :=
  m.length = 5 ∧ ∀ b ∈ m, b ≤ 9

/-- The event list of `n` passes of the main loop with the same answers of
the store and of the sensor. -/
def passes (n : Nat) (fault : Nat → Bool) (pir : Nat) : List Event :=
  List.replicate n (.iter fault pir)

/-- The event list of `n` ticks. -/
def tickEvents (n : Nat) : List Event :=
  List.replicate n .tick

/-- What is read off a Control state when a run is evaluated. -/
structure Observation where
  tx : List Nat
  g_error : Nat
  phase : Option Phase
  alarmState : Nat
  seconds : Nat
  timerState : doorState
  motorCmds : List (DcMotor_State × Nat)
  buzzer : Bool
  deriving DecidableEq, Repr

/-- The observation of the state a run ends in; `none` when the run blocks. -/
def observe (r : Option (Control × List Nat)) : Option Observation :=
  r.map fun s =>
    { tx := s.1.tx
      g_error := s.1.g_error
      phase := phaseOf s.1
      alarmState := s.1.alarmState
      seconds := s.1.seconds
      timerState := s.1.timerState
      motorCmds := s.1.motorCmds
      buzzer := s.1.buzzer }

/-- The events of a regular door cycle after a matching verify: a first door
pass, 16 ticks, the pass that ends the opening, one tick, a pass that reads
the sensor clear, 16 ticks and the pass that ends the closing. -/
def doorCycleEvents : List Event :=
  passes 1 noFault 1 ++ tickEvents 16 ++ passes 1 noFault 1 ++ tickEvents 1
    ++ passes 1 noFault LOGIC_LOW ++ tickEvents 16 ++ passes 1 noFault LOGIC_LOW

/-- Three Verify requests with the digits 9, 9, 9, 9, 9. -/
def threeWrong : List Nat :=
  [70, 9, 9, 9, 9, 9, 70, 9, 9, 9, 9, 9, 70, 9, 9, 9, 9, 9]

/-- The events of a first lockout after reset on `threeWrong`: the 11 passes
that take the three requests (the unread digits of the first two included),
one alarm pass, `n` ticks and one more alarm pass. -/
def lockoutEvents (n : Nat) : List Event :=
  passes 11 noFault 1 ++ passes 1 noFault 1 ++ tickEvents n ++ passes 1 noFault 1

/-- The number of ticks in an event list. -/
def tickCount : List Event → Nat
  | [] => 0
  | .tick :: es => tickCount es + 1
  | .iter _ _ :: es => tickCount es

/-- Every pass in the event list reads the sensor as not clear. -/
def presentOnly : List Event → Bool
  | [] => true
  | .tick :: es => presentOnly es
  | .iter _ pir :: es => decide (pir ≠ LOGIC_LOW) && presentOnly es

/-- What holds of the Control node at every handler boundary besides
`PhaseInv`: the byte-sent flag of `alarmStage` is clear, in phase 3 the error
count is 0 and the alarm flag is 0xFF, and outside the door phase the
byte-sent flag of `doorHandler` is clear. -/
def BoundaryInv (c : Control) : Prop :=
  PhaseInv c
  ∧ c.alarmByteSent = 0
  ∧ (c.phaseSwitches = 3 → c.g_error = 0 ∧ c.alarmState = 255)
  ∧ (c.phaseSwitches ≠ 2 → c.doorByteSent = 0)

/-- The state right after the third of three mismatching verifies from
reset, over the store holding 1, 2, 3, 4, 5 (used to instantiate
statements). -/
def sampleAlarmState : Control :=
  { boot (fun a => a) with
      compareByte := 1
      alarmState := 255
      phaseSwitches := 3
      tx := [90, 90, 100] }

/-- A state in DOOR_CLOSING with 16 on the elapsed counter (used to
instantiate statements). -/
def sampleClosingState : Control :=
  { boot (fun a => a) with
      phaseSwitches := 2
      motorState := .CLOSING_DOOR
      timerState := .CLOSING_DOOR
      seconds := 16 }

/-- The status bytes of the current door cycle that `doorHandler` has sent
so far, read off its door state and its byte-sent flag. -/
def doorSent (c : Control) : List Nat :=
  match c.motorState with
  | .OPENING_DOOR => if c.doorByteSent = 0 then [] else [OPEN_BYTE]
  | .WAITING_FOR_PEOPLE =>
    if c.doorByteSent = 0 then [OPEN_BYTE] else [OPEN_BYTE, WAIT_BYTE]
  | .CLOSING_DOOR =>
    if c.doorByteSent = 0 then [OPEN_BYTE, WAIT_BYTE]
    else [OPEN_BYTE, WAIT_BYTE, CLOSE_BYTE]
  | .Done => []

/-- The run of `es` from `s` does not block and every state before one of
its events is in the door phase (the state after the last event is not
constrained). -/
def staysInDoorPhase : List Event → Control × List Nat → Bool
  | [], _ => true
  | e :: es, s =>
    decide (s.1.phaseSwitches = 2) &&
      match step e s with
      | none => false
      | some s1 => staysInDoorPhase es s1

/-- In the door phase, with the sent log equal to `tx0` followed by the
status bytes of the cycle so far. -/
def DoorInv (tx0 : List Nat) (c : Control) : Prop :=
  c.phaseSwitches = 2 ∧ c.motorState ≠ .Done ∧ c.tx = tx0 ++ doorSent c

/-- The state right after a matching verify from reset, over the store
holding 1, 2, 3, 4, 5 (used to instantiate statements). -/
def sampleDoorEntryState : Control :=
  { boot (fun a => a) with
      compareByte := 5
      phaseSwitches := 2
      tx := [88] }

/-- The events of a door cycle in which the sensor reads clear on the first
poll: a door pass, 16 ticks, the pass that ends the opening, the pass that
reads the sensor clear and the pass that ends the closing. -/
def shortCycleEvents : List Event :=
  passes 1 noFault 1 ++ tickEvents 16 ++ passes 1 noFault 1
    ++ passes 1 noFault LOGIC_LOW ++ passes 1 noFault LOGIC_LOW

/-- The state at the end of `shortCycleEvents` run from
`sampleDoorEntryState` (used to instantiate statements). -/
def sampleCycleEndState : Control :=
  { boot (fun a => a) with
      compareByte := 5
      phaseSwitches := 1
      seconds := 16
      timerState := .Done
      iBit := true
      motorCmds := [(.CW, 100), (.CW, 100), (.STOP, 0), (.STOP, 0), (.A_CW, 100), (.STOP, 0)]
      tx := [88, 97, 98, 99, 3] }

/-- The writes of the storing loop for the bytes `bs` from position `sl` on,
one after the other: `bs[0]` to address `0x0001 + sl`, then `bs[1]` to the
next address, and so on. -/
def writeFrom : Nat → List Nat → Control → Control
  | _, [], c => c
  | sl, b :: bs, c => writeFrom (sl + 1) bs (EEPROM_writeByte (1 + sl) b c)

/-- The read of position `sl` in the comparison loop of `passStoreCheck`:
`EEPROM_readByte(0x0001 + storeLimit, &compareByte)` and, when it reports
`ERROR`, the diagnostic pin driven high. -/
def afterRead (fault : Nat → Bool) (sl : Nat) (c : Control) : Control :=
  let r := EEPROM_readByte (fault sl) (1 + sl) c
  if r.1 then { r.2 with diagPin := true } else r.2

/-- The state after `n` reads of the comparison loop in a row, the first
one at position `sl`. -/
def afterReads (fault : Nat → Bool) : Nat → Nat → Control → Control
  | _, 0, c => c
  | sl, n + 1, c => afterReads fault (sl + 1) n (afterRead fault sl c)

/-- The byte the compare variable holds after the read of position `i`,
the reads of the positions before it having been made: the stored byte, or
after a faulting read the byte held before. -/
def heldByte (fault : Nat → Bool) (c : Control) : Nat → Nat
  | 0 => if fault 0 then c.compareByte else c.eeprom 1
  | i + 1 => if fault (i + 1) then heldByte fault c i else c.eeprom (1 + (i + 1))

/-- Five writes to the store in a row: `b0` to address 0x0001, then `b1` to
0x0002, `b2` to 0x0003, `b3` to 0x0004 and last `b4` to 0x0005. -/
def writeFive (b0 b1 b2 b3 b4 : Nat) (c : Control) : Control :=
  EEPROM_writeByte 5 b4 (EEPROM_writeByte 4 b3 (EEPROM_writeByte 3 b2
    (EEPROM_writeByte 2 b1 (EEPROM_writeByte 1 b0 c))))

/-! ## The HMI node (Main_App_HMI.c) -/

/-- The key value `'='` that `KEYPAD_getPressedKey` returns for the submit
key. -/
def KEY_EQ : Nat := 61

/-- `Alarm_BYTE = 'd'` of the HMI's enum `UARTDoorState`. -/
def Alarm_BYTE : Nat := 100

/-- The state of the HMI node: the globals `PhasesSwitch`, `passSetArr` and
`passCompareArr` of Main_App_HMI.c (an array is a function of the index),
the static `initialPassLimit` of `phaseOne`, the bytes given to
`UART_sendByte` (oldest first) and bit 0 of PORTA. The statics `passDigit`
are assigned before they are read in every call; the display is left out. -/
structure HMI where
  PhasesSwitch : Nat
  passSetArr : Nat → Nat
  passCompareArr : Nat → Nat
  initialPassLimit : Nat
  tx : List Nat
  portA0 : Bool

/-- The HMI node after reset: the initialisers of the globals and statics,
nothing sent. -/
def hmiBoot : HMI :=
  { PhasesSwitch := 1
    passSetArr := fun _ => 0
    passCompareArr := fun _ => 0
    initialPassLimit := 0
    tx := []
    portA0 := false }

/-- `UART_sendByte` on the HMI node. -/
def hmiSendByte (b : Nat) (h : HMI) : HMI :=
  { h with tx := h.tx ++ [b] }

/-- The entry loop of `phaseOne`,
`while (KEYPAD_getPressedKey() != '=' || initialPassLimit < 5)`. `keys` are
the values the successive calls of `KEYPAD_getPressedKey` return: one call
in the loop condition and one in the loop body. The result is the state and
the key values not yet read; `none` when the keys run out, where the
blocking read never returns. -/
def phaseOneLoop : List Nat → HMI → Option (HMI × List Nat)
  | [], _ => none
  | [k], h => if k ≠ KEY_EQ ∨ h.initialPassLimit < 5 then none else some (h, [])
  | k :: passDigit :: ks, h =>
    if k ≠ KEY_EQ ∨ h.initialPassLimit < 5 then
      if passDigit ≤ 9 ∧ h.initialPassLimit < 5 then
        phaseOneLoop ks
          { h with
              passSetArr := fun i => if i = h.initialPassLimit then passDigit else h.passSetArr i
              initialPassLimit := (h.initialPassLimit + 1) % 256 }
      else phaseOneLoop ks h
    else some (h, passDigit :: ks)

/-- The sends of the verify path of `phaseOne`: `'F'` and then
`passSetArr[0] .. passSetArr[4]`. -/
def sendVerifyMessage (h : HMI) : HMI :=
  hmiSendByte (h.passSetArr 4) (hmiSendByte (h.passSetArr 3) (hmiSendByte (h.passSetArr 2)
    (hmiSendByte (h.passSetArr 1) (hmiSendByte (h.passSetArr 0) (hmiSendByte BYTE_F h)))))

/-- The part of `phaseOne` before its blocking receive: the entry loop, the
test of the submit key and, in verify mode (`PhasesSwitch == 6`), the sends.
The flag tells whether the call goes on to wait for the outcome byte. -/
def phaseOneEntry (h : HMI) (keys : List Nat) : Option (HMI × List Nat × Bool) :=
  match phaseOneLoop keys h with
  | none => none
  | some (_, []) => none
  | some (h1, k :: ks) =>
    if k = KEY_EQ ∧ h1.initialPassLimit = 5 then
      if h1.PhasesSwitch = 6 then some (sendVerifyMessage h1, ks, true)
      else some ({ h1 with initialPassLimit := 0, PhasesSwitch := 2 }, ks, false)
    else some (h1, ks, false)

/-- The receive loop `while (1)` of `phaseOne`: bytes are received until one
of `'Z'`, `'X'`, `Alarm_BYTE` arrives. -/
def awaitOutcome : List Nat → HMI → Option (HMI × List Nat)
  | [], _ => none
  | temp :: rx, h =>
    if temp = BYTE_Z then some (h, rx)
    else if temp = BYTE_X then some ({ h with initialPassLimit := 0, PhasesSwitch := 4 }, rx)
    else if temp = Alarm_BYTE then
      some ({ h with initialPassLimit := 0, PhasesSwitch := 5 }, rx)
    else awaitOutcome rx h

/-- The part of `phaseOne` from its blocking receive on: the receive loop
and the reset of `initialPassLimit` after it. -/
def phaseOneAwait (h : HMI) (rx : List Nat) : Option (HMI × List Nat) :=
  match awaitOutcome rx h with
  | none => none
  | some (h1, rx1) => some ({ h1 with initialPassLimit := 0 }, rx1)

/-- The handler `phaseOne`: `keys` are the key values still to be read, `rx`
the bytes the link still delivers. -/
def phaseOne (h : HMI) (keys rx : List Nat) : Option (HMI × List Nat × List Nat) :=
  match phaseOneEntry h keys with
  | none => none
  | some (h1, ks, true) =>
    match phaseOneAwait h1 rx with
    | none => none
    | some (h2, rx2) => some (h2, ks, rx2)
  | some (h1, ks, false) => some (h1, ks, rx)

/-- The states of the HMIPhaseMachine as the specification names them. -/
inductive HMIPhase where
  | SET_OR_REENTER
  | CONFIRM
  | MENU
  | DOOR_STATUS
  | LOCKOUT
  deriving DecidableEq, Repr

/-- The phase an HMI state is in, by the dispatch of `main`: `phaseOne` runs
for `PhasesSwitch` 1 and 6, `phaseTwo` for 2, `phaseThree` for 3, `phaseFour`
for 4 and `phaseFive` for 5. -/
def hmiPhaseOf (h : HMI) : Option HMIPhase :=
  if h.PhasesSwitch = 1 ∨ h.PhasesSwitch = 6 then some .SET_OR_REENTER
  else if h.PhasesSwitch = 2 then some .CONFIRM
  else if h.PhasesSwitch = 3 then some .MENU
  else if h.PhasesSwitch = 4 then some .DOOR_STATUS
  else if h.PhasesSwitch = 5 then some .LOCKOUT
  else none

/-! ## The two nodes on the serial link -/

/-- The two nodes and the two directions of the link: `toCtl` holds the
bytes the HMI has sent and Control has not received yet, `toHmi` the bytes
Control has sent and the HMI has not received yet, oldest first. -/
structure Sys where
  hmi : HMI
  ctl : Control
  toCtl : List Nat
  toHmi : List Nat

/-- The HMI runs `phaseOne` up to its blocking receive; what it sends goes
onto the link towards Control. -/
def hmiEnter (keys : List Nat) (s : Sys) : Option (Sys × List Nat × Bool) :=
  match phaseOneEntry s.hmi keys with
  | none => none
  | some (h1, ks, w) =>
    some ({ s with hmi := h1, toCtl := s.toCtl ++ h1.tx.drop s.hmi.tx.length }, ks, w)

/-- Control takes the events `es`, receiving from the link; what it sends
goes onto the link towards the HMI. -/
def ctlRun (es : List Event) (s : Sys) : Option Sys :=
  match run es (s.ctl, s.toCtl) with
  | none => none
  | some (c1, rest) =>
    some { s with ctl := c1, toCtl := rest, toHmi := s.toHmi ++ c1.tx.drop s.ctl.tx.length }

/-- The HMI, blocked in the receive of `phaseOne`, goes on with the bytes on
the link. -/
def hmiAwait (s : Sys) : Option Sys :=
  match phaseOneAwait s.hmi s.toHmi with
  | none => none
  | some (h1, rest) => some { s with hmi := h1, toHmi := rest }

/-- The five digits an HMI state holds in `passSetArr`. -/
def hmiDigits (h : HMI) : List Nat :=
  [h.passSetArr 0, h.passSetArr 1, h.passSetArr 2, h.passSetArr 3, h.passSetArr 4]

/-- The HMI in verify mode with nothing entered yet: the state of a witness. -/
def sampleVerifyHMI : HMI :=
  { hmiBoot with PhasesSwitch := 6 }

/-- The state after two mismatching verifies from reset over the store
`fun a => a`, the first with a faulting read, and a tick in between (used to
instantiate statements). -/
def sampleTwoMismatches : Control :=
  { boot (fun a => a) with
      g_error := 2
      tx := [90, 90]
      compareByte := 1
      diagPin := true
      seconds := 1 }

/-! ## The other handlers of the HMI node -/

/-- The key value `'+'`, also the byte `phaseThree` sends for it. -/
def KEY_PLUS : Nat := 43

/-- The key value `'-'`, also the byte `phaseThree` sends for it. -/
def KEY_MINUS : Nat := 45

/-- The entry loop of `phaseTwo`,
`while (KEYPAD_getPressedKey() != '=' || passLimit < 5)`, with the local
`passLimit` as an argument. `keys` are the values the successive calls of
`KEYPAD_getPressedKey` return, as in `phaseOneLoop`. -/
def phaseTwoLoop : List Nat → Nat → HMI → Option (HMI × Nat × List Nat)
  | [], _, _ => none
  | [k], passLimit, h => if k ≠ KEY_EQ ∨ passLimit < 5 then none else some (h, passLimit, [])
  | k :: passDigit :: ks, passLimit, h =>
    if k ≠ KEY_EQ ∨ passLimit < 5 then
      if passDigit ≤ 9 ∧ passLimit < 5 then
        phaseTwoLoop ks ((passLimit + 1) % 256)
          { h with
              passCompareArr := fun i =>
                if i = passLimit then passDigit else h.passCompareArr i }
      else phaseTwoLoop ks passLimit h
    else some (h, passLimit, passDigit :: ks)

/-- The comparison `for (var = 0; var < 5; ++var)` of `phaseTwo`: the value
of the local `wrongPass` after it. -/
def comparePass (h : HMI) : Nat :=
  (List.range 5).foldl
    (fun wrongPass var => if h.passSetArr var ≠ h.passCompareArr var then 1 else wrongPass) 0

/-- The sends of the matching branch of `phaseTwo`: `'S'` and then
`passSetArr[0] .. passSetArr[4]`. -/
def sendStoreMessage (h : HMI) : HMI :=
  hmiSendByte (h.passSetArr 4) (hmiSendByte (h.passSetArr 3) (hmiSendByte (h.passSetArr 2)
    (hmiSendByte (h.passSetArr 1) (hmiSendByte (h.passSetArr 0) (hmiSendByte BYTE_S h)))))

/-- The handler `phaseTwo`: the entry loop from `passLimit = 0`, the test of
the submit key, the comparison of the two arrays and the branch on
`wrongPass`. -/
def phaseTwo (h : HMI) (keys : List Nat) : Option (HMI × List Nat) :=
  match phaseTwoLoop keys 0 h with
  | none => none
  | some (_, _, []) => none
  | some (h1, passLimit, k :: ks) =>
    if k = KEY_EQ ∧ passLimit = 5 then
      if comparePass h1 = 1 then some ({ h1 with PhasesSwitch := 1 }, ks)
      else some ({ sendStoreMessage h1 with PhasesSwitch := 3 }, ks)
    else some (h1, ks)

/-- The handler `phaseThree`: the keypad is read once for the test against
`'+'` and, when that fails, once more for the test against `'-'`. -/
def phaseThree (h : HMI) (keys : List Nat) : Option (HMI × List Nat) :=
  match keys with
  | [] => none
  | k :: ks =>
    if k = KEY_PLUS then some (hmiSendByte KEY_PLUS { h with PhasesSwitch := 6 }, ks)
    else
      match ks with
      | [] => none
      | k2 :: ks2 =>
        if k2 = KEY_MINUS then some (hmiSendByte KEY_MINUS { h with PhasesSwitch := 1 }, ks2)
        else some (h, ks2)

/-- The handler `phaseFour`: one byte is received; the cases `OPEN_BYTE`,
`WAIT_BYTE` and `CLOSE_BYTE` of the switch change the display only, the
default case sets `PhasesSwitch = 3`. -/
def phaseFour (h : HMI) (rx : List Nat) : Option (HMI × List Nat) :=
  match rx with
  | [] => none
  | doorState :: rest =>
    if doorState = OPEN_BYTE then some (h, rest)
    else if doorState = WAIT_BYTE then some (h, rest)
    else if doorState = CLOSE_BYTE then some (h, rest)
    else some ({ h with PhasesSwitch := 3 }, rest)

/-- Modelled from the spec: `TOGGLE_BIT(PORTA, 0)` of common_macros.h, which
is not among the sources: the visual indicator, bit 0 of PORTA, is
inverted. -/
def TOGGLE_BIT_PORTA0 (h : HMI) : HMI :=
  { h with portA0 := !h.portA0 }

/-- The handler `phaseFive`: the indicator bit is toggled, then one byte is
received; `OPEN_BYTE` sets `PhasesSwitch = 3`. -/
def phaseFive (h : HMI) (rx : List Nat) : Option (HMI × List Nat) :=
  let h1 := TOGGLE_BIT_PORTA0 h
  match rx with
  | [] => none
  | alarmState :: rest =>
    if alarmState = OPEN_BYTE then some ({ h1 with PhasesSwitch := 3 }, rest)
    else some (h1, rest)

/-- One pass through the body of `while(1)` in `main` of the HMI node: the
handler of the current value of `PhasesSwitch` runs; no handler runs for
another value. The state carries the key values still to be read and the
bytes the link still delivers. -/
def hmiIteration (h : HMI) (keys rx : List Nat) : Option (HMI × List Nat × List Nat) :=
  if h.PhasesSwitch = 1 ∨ h.PhasesSwitch = 6 then phaseOne h keys rx
  else if h.PhasesSwitch = 2 then
    match phaseTwo h keys with
    | none => none
    | some (h1, ks) => some (h1, ks, rx)
  else if h.PhasesSwitch = 3 then
    match phaseThree h keys with
    | none => none
    | some (h1, ks) => some (h1, ks, rx)
  else if h.PhasesSwitch = 4 then
    match phaseFour h rx with
    | none => none
    | some (h1, rest) => some (h1, keys, rest)
  else if h.PhasesSwitch = 5 then
    match phaseFive h rx with
    | none => none
    | some (h1, rest) => some (h1, keys, rest)
  else some (h, keys, rx)

/-- Runs `n` passes of the main loop of the HMI node; `none` when a blocking
read of the keypad or of the link never returns. -/
def hmiRun : Nat → HMI × List Nat × List Nat → Option (HMI × List Nat × List Nat)
  | 0, s => some s
  | n + 1, s =>
    match hmiIteration s.1 s.2.1 s.2.2 with
    | none => none
    | some s1 => hmiRun n s1

/-- The key values of a sequence of turns of an entry loop: each turn is the
value read in the loop condition and the value read in the loop body. -/
def turnKeys : List (Nat × Nat) → List Nat
  | [] => []
  | (k, passDigit) :: ts => k :: passDigit :: turnKeys ts

/-- The digits among the values read in the loop bodies of a sequence of
turns, in order. -/
def turnDigits (ts : List (Nat × Nat)) : List Nat :=
  (ts.map Prod.snd).filter fun d => d ≤ 9

/-- The five cells `passCompareArr[0] .. passCompareArr[4]`. -/
def hmiCompareDigits (h : HMI) : List Nat :=
  [h.passCompareArr 0, h.passCompareArr 1, h.passCompareArr 2, h.passCompareArr 3,
    h.passCompareArr 4]

/-- The array `arr` after the digits `ds` are written from index `n` on. -/
def writeDigits (arr : Nat → Nat) : Nat → List Nat → Nat → Nat
  | _, [] => arr
  | n, d :: ds => writeDigits (fun i => if i = n then d else arr i) (n + 1) ds

/-- What holds of the HMI node between two handler calls: the persistent
entry count of `phaseOne` is at most 5 and the cells of the two entry
buffers hold values that are at most 9. -/
def HMIInv (h : HMI) : Prop :=
  h.initialPassLimit ≤ 5 ∧ (∀ i, h.passSetArr i ≤ 9) ∧ (∀ i, h.passCompareArr i ≤ 9)

/-- The byte sequences one handler call of the HMI node may send: nothing,
the byte `'+'`, the byte `'-'`, or `'F'` or `'S'` followed by five bytes that
are at most 9. -/
def hmiMessage (m : List Nat) : Prop :=
  m = [] ∨ m = [KEY_PLUS] ∨ m = [KEY_MINUS]
  ∨ ∃ ds, isDigitMessage ds ∧ (m = BYTE_F :: ds ∨ m = BYTE_S :: ds)

/-- What one handler call of the HMI node does to a state `h` that satisfies
`HMIInv`, as far as the entry buffers and the link are concerned: `HMIInv`
holds again, what was sent is one of the sequences of `hmiMessage`, and the
cells of the two arrays from index 5 on are as they were. -/
def HMIStep (h h1 : HMI) : Prop :=
  HMIInv h1
  ∧ (∃ m, h1.tx = h.tx ++ m ∧ hmiMessage m)
  ∧ (∀ i, 5 ≤ i → h1.passSetArr i = h.passSetArr i ∧ h1.passCompareArr i = h.passCompareArr i)

/-- The HMI in CONFIRM with the first entry 1, 2, 3, 4, 5 held: what
`phaseOne` leaves from `hmiBoot` over those keys (used to instantiate
statements). -/
def sampleConfirmHMI : HMI :=
  { hmiBoot with
      PhasesSwitch := 2
      passSetArr := writeDigits hmiBoot.passSetArr 0 [1, 2, 3, 4, 5] }

/-- The HMI in MENU with nothing entered and nothing sent (used to
instantiate statements). -/
def sampleMenuHMI : HMI :=
  { hmiBoot with PhasesSwitch := 3 }

/-- The HMI in DOOR_STATUS (used to instantiate statements). -/
def sampleDoorStatusHMI : HMI :=
  { hmiBoot with PhasesSwitch := 4 }

/-- The HMI in LOCKOUT (used to instantiate statements). -/
def sampleLockoutHMI : HMI :=
  { hmiBoot with PhasesSwitch := 5 }

/-- The HMI after the entry 1, 2, 3, 4, 5 was set and confirmed from reset:
in MENU, the `'S'` message sent (used to instantiate statements). -/
def sampleStoredHMI : HMI :=
  { hmiBoot with
      PhasesSwitch := 3
      passSetArr := writeDigits hmiBoot.passSetArr 0 [1, 2, 3, 4, 5]
      passCompareArr := writeDigits hmiBoot.passCompareArr 0 [1, 2, 3, 4, 5]
      tx := [83, 1, 2, 3, 4, 5] }

/-! ## UART_receiveString (UART.c) -/

/-- The delimiter `'#'`. -/
def BYTE_HASH : Nat := 35

/-- The assignment `Str[i] = b`: the buffer is a function of the offset from
the pointer `Str`. -/
def storeAt (Str : Nat → Nat) (i b : Nat) : Nat → Nat :=
  fun j => if j = i then b else Str j

/-- The loop `while (Str[i] != '#') { i++; Str[i] = UART_recieveByte(); }` of
`UART_receiveString`, with the `uint8` index `i`. The result is the buffer,
the index and the bytes not yet received; `none` when the link runs dry. -/
def receiveLoop : List Nat → Nat → (Nat → Nat) → Option ((Nat → Nat) × Nat × List Nat)
  | [], i, Str => if Str i ≠ BYTE_HASH then none else some (Str, i, [])
  | b :: rest, i, Str =>
    if Str i ≠ BYTE_HASH then receiveLoop rest ((i + 1) % 256) (storeAt Str ((i + 1) % 256) b)
    else some (Str, i, b :: rest)

/-- `UART_receiveString(Str)`: the first byte is received into `Str[0]`, the
loop runs, and `Str[i]` is overwritten with `'\0'`. The result is the buffer
and the bytes not yet received. -/
def UART_receiveString (rx : List Nat) (Str : Nat → Nat) : Option ((Nat → Nat) × List Nat) :=
  match rx with
  | [] => none
  | b :: rest =>
    match receiveLoop rest 0 (storeAt Str 0 b) with
    | none => none
    | some (Str1, i, rest1) => some (storeAt Str1 i 0, rest1)

/-- The buffer after the bytes `bs` are stored from offset `n` on. -/
def storeFrom (Str : Nat → Nat) : Nat → List Nat → Nat → Nat
  | _, [] => Str
  | n, b :: bs => storeFrom (storeAt Str n b) (n + 1) bs

/-- What a call of `UART_receiveString` leaves, reduced to what an
evaluation can compare: the cells 0, 1, 255 and 256 of the buffer and the
bytes not yet received. -/
def receiveSummary (r : Option ((Nat → Nat) × List Nat)) :
    Option (Nat × Nat × Nat × Nat × List Nat) :=
  r.map fun p => (p.1 0, p.1 1, p.1 255, p.1 256, p.2)

/-! ## The timer callbacks (Timer.c) -/

/-- The three callback pointers of Timer.c over a program state `σ`: a
callback is a function on the state, `none` is `NULL_PTR`. -/
structure Timers (σ : Type) where
  g_CallBackTimer0 : Option (σ → σ)
  g_CallBackTimer1 : Option (σ → σ)
  g_CallBackTimer2 : Option (σ → σ)

/-- The initialisers of the three pointers: `NULL_PTR`. -/
def Timers.reset (σ : Type) : Timers σ :=
  { g_CallBackTimer0 := none, g_CallBackTimer1 := none, g_CallBackTimer2 := none }

/-- The values of the enum `Timer_ID_Type`. -/
def Timer_0 : Nat := 0

def Timer_1 : Nat := 1

def Timer_2 : Nat := 2

/-- `ISR(TIMER0_OVF_vect)`. -/
def TIMER0_OVF_vect {σ : Type} (t : Timers σ) (s : σ) : σ :=
  match t.g_CallBackTimer0 with
  | some f => f s
  | none => s

/-- `ISR(TIMER0_COMP_vect)`. -/
def TIMER0_COMP_vect {σ : Type} (t : Timers σ) (s : σ) : σ :=
  match t.g_CallBackTimer0 with
  | some f => f s
  | none => s

/-- `ISR(TIMER1_OVF_vect)`. -/
def TIMER1_OVF_vect {σ : Type} (t : Timers σ) (s : σ) : σ :=
  match t.g_CallBackTimer1 with
  | some f => f s
  | none => s

/-- `ISR(TIMER1_COMPA_vect)`. -/
def TIMER1_COMPA_vect {σ : Type} (t : Timers σ) (s : σ) : σ :=
  match t.g_CallBackTimer1 with
  | some f => f s
  | none => s

/-- `ISR(TIMER2_OVF_vect)`. -/
def TIMER2_OVF_vect {σ : Type} (t : Timers σ) (s : σ) : σ :=
  match t.g_CallBackTimer2 with
  | some f => f s
  | none => s

/-- `ISR(TIMER2_COMP_vect)`. -/
def TIMER2_COMP_vect {σ : Type} (t : Timers σ) (s : σ) : σ :=
  match t.g_CallBackTimer2 with
  | some f => f s
  | none => s

/-- `Timer_setCallBack(a_ptr, a_timer_ID)`: the switch has the three cases
and no default. -/
def Timer_setCallBack {σ : Type} (a_ptr : Option (σ → σ)) (a_timer_ID : Nat)
    (t : Timers σ) : Timers σ :=
  if a_timer_ID = Timer_0 then { t with g_CallBackTimer0 := a_ptr }
  else if a_timer_ID = Timer_1 then { t with g_CallBackTimer1 := a_ptr }
  else if a_timer_ID = Timer_2 then { t with g_CallBackTimer2 := a_ptr }
  else t

/-- What holds of the alarm flag and of the timer context at every handler
boundary: outside phase 3 the alarm flag is 0, and outside the door phase
the timer context is `OPENING_DOOR` or `Done`. -/
def AlarmInv (c : Control) : Prop :=
  (c.phaseSwitches ≠ 3 → c.alarmState = 0)
  ∧ (c.phaseSwitches ≠ 2 → c.timerState = .OPENING_DOOR ∨ c.timerState = .Done)

/-- The HMI makes `n` passes of its main loop over the key values `keys`,
receiving from the link; what it sends goes onto the link towards Control.
The result carries the key values not yet read. -/
def hmiPasses (n : Nat) (keys : List Nat) (s : Sys) : Option (Sys × List Nat) :=
  match hmiRun n (s.hmi, keys, s.toHmi) with
  | none => none
  | some (h1, ks, rx1) =>
    some ({ s with hmi := h1, toHmi := rx1,
                   toCtl := s.toCtl ++ h1.tx.drop s.hmi.tx.length }, ks)

/-- One verify exchange on the link: the HMI runs `phaseOne` over `keys` up
to its blocking receive, Control takes `n` passes of its main loop
(fault-free reads, sensor answer `pir`), and the receive loop of the HMI
takes the outcome. `none` when the HMI does not reach the receive or a
blocking read never returns. -/
def exchange (keys : List Nat) (n : Nat) (pir : Nat) (s : Sys) : Option Sys :=
  match hmiEnter keys s with
  | none => none
  | some (_, _, false) => none
  | some (s1, _, true) =>
    match ctlRun (passes n noFault pir) s1 with
    | none => none
    | some s2 => hmiAwait s2

/-- What is read off the two nodes and the link when a run of both is
evaluated. -/
structure SysObservation where
  hmiPhase : Option HMIPhase
  PhasesSwitch : Nat
  ctlPhase : Option Phase
  g_error : Nat
  stored : List Nat
  hmiSent : List Nat
  ctlSent : List Nat
  toCtl : List Nat
  toHmi : List Nat
  deriving DecidableEq, Repr

/-- The observation of the state a run of both nodes ends in; `none` when
the run blocks. -/
def observeSys (r : Option Sys) : Option SysObservation :=
  r.map fun s =>
    { hmiPhase := hmiPhaseOf s.hmi
      PhasesSwitch := s.hmi.PhasesSwitch
      ctlPhase := phaseOf s.ctl
      g_error := s.ctl.g_error
      stored := credential s.ctl
      hmiSent := s.hmi.tx
      ctlSent := s.ctl.tx
      toCtl := s.toCtl
      toHmi := s.toHmi }

/-- The key values of the entry 1, 2, 3, 4, 5 and the submit key, each key
read by the loop condition and by the loop body. -/
def keysRight : List Nat :=
  [1, 1, 2, 2, 3, 3, 4, 4, 5, 5, 61, 61]

/-- The key values of the entry 9, 9, 9, 9, 9 and the submit key. -/
def keysWrong : List Nat :=
  [9, 9, 9, 9, 9, 9, 9, 9, 9, 9, 61, 61]

/-- Both nodes from reset, the store blank: the operator sets and confirms
the entry 1, 2, 3, 4, 5 and presses the plus key (three passes of the HMI),
and Control takes the `'S'` request and the `'+'` (two passes). -/
def traceSetup : Option Sys :=
  match hmiPasses 3 (keysRight ++ keysRight ++ [43])
      { hmi := hmiBoot, ctl := boot fun _ => 255, toCtl := [], toHmi := [] } with
  | none => none
  | some (s, _) => ctlRun (passes 2 noFault 1) s

/-- After `traceSetup`, a verify exchange with the wrong entry: Control
takes the request and its four unread digits (five passes). -/
def traceFirstMismatch : Option Sys :=
  traceSetup.bind (exchange keysWrong 5 1)

/-- After `traceFirstMismatch`, a verify exchange with the right entry. -/
def traceMatch : Option Sys :=
  traceFirstMismatch.bind (exchange keysRight 1 1)

/-- After `traceMatch`, the door cycle on the Control node, the four passes
in which the HMI receives its bytes, the plus key in MENU, and the pass in
which Control takes the `'+'`. -/
def traceDoorCycle : Option Sys :=
  match traceMatch.bind (ctlRun doorCycleEvents) with
  | none => none
  | some s =>
    match hmiPasses 5 [43] s with
    | none => none
    | some (s1, _) => ctlRun (passes 1 noFault 1) s1

/-- After `traceDoorCycle`, a verify exchange with the wrong entry, the
first mismatch after the match: Control takes the request and its four
unread digits (five passes). -/
def traceMismatchAfterMatch : Option Sys :=
  traceDoorCycle.bind (exchange keysWrong 5 1)

/-- After `traceMismatchAfterMatch`, one more verify exchange with the wrong
entry: the second mismatch in a row. -/
def traceSecondInRow : Option Sys :=
  traceMismatchAfterMatch.bind (exchange keysWrong 1 1)

/-! ## Lemmas on the comparison loop -/

theorem verifyLoop_full (fault : Nat → Bool) (rx : List Nat) (c : Control) :
    verifyLoop fault rx 5 c = some (c, 0, rx) := by
  cases rx <;> simp [verifyLoop]

theorem verifyLoop_blank (fault : Nat → Bool) (rest : List Nat) (sl : Nat) (c : Control)
    (h : sl < 5) : verifyLoop fault (BLANK :: rest) sl c = verifyLoop fault rest sl c := by
  simp [verifyLoop, h]

theorem verifyLoop_match (b : Nat) (rest : List Nat) (sl : Nat) (c : Control)
    (h : sl < 5) (hb : b ≠ BLANK) (e : b = c.eeprom (1 + sl)) :
    verifyLoop noFault (b :: rest) sl c
      = verifyLoop noFault rest (sl + 1) { c with compareByte := c.eeprom (1 + sl) } := by
  rw [verifyLoop]
  simp only [h, if_true, noFault, EEPROM_readByte, ne_eq, hb, not_false_eq_true]
  simp [e]

theorem verifyLoop_mismatch (b : Nat) (rest : List Nat) (sl : Nat) (c : Control)
    (h : sl < 5) (hb : b ≠ BLANK) (e : b ≠ c.eeprom (1 + sl)) :
    verifyLoop noFault (b :: rest) sl c
      = some (mismatchBranch { c with compareByte := c.eeprom (1 + sl) }, 1, rest) := by
  rw [verifyLoop]
  simp only [h, if_true, noFault, EEPROM_readByte, ne_eq, hb, not_false_eq_true]
  simp [e]

theorem mismatchBranch_tx (c : Control) :
    ∃ b, (b = BYTE_Z ∨ b = Alarm_Byte) ∧ (mismatchBranch c).tx = c.tx ++ [b] := by
  unfold mismatchBranch
  by_cases h : (c.g_error + 1) % 256 = 3
  · exact ⟨Alarm_Byte, Or.inr rfl, by simp [h, UART_sendByte]⟩
  · exact ⟨BYTE_Z, Or.inl rfl, by simp [h, UART_sendByte]⟩

theorem mismatchBranch_phase (c : Control) :
    (mismatchBranch c).phaseSwitches = c.phaseSwitches
      ∨ (mismatchBranch c).phaseSwitches = 3 := by
  unfold mismatchBranch
  by_cases h : (c.g_error + 1) % 256 = 3
  · right; simp [h, UART_sendByte]
  · left; simp [h, UART_sendByte]

theorem passStoreCheck_F (fault : Nat → Bool) (c : Control) (rest : List Nat) :
    passStoreCheck fault c (BYTE_F :: rest)
      = match verifyLoop fault rest 0 c with
        | none => none
        | some (c1, flag, rest1) =>
          if flag = 0 then
            some ({ UART_sendByte BYTE_X c1 with phaseSwitches := 2 }, rest1)
          else some (c1, rest1) := by
  simp [passStoreCheck]


theorem credential_drop (c : Control) (sl : Nat) (h : sl < 5) :
    (credential c).drop sl = c.eeprom (1 + sl) :: (credential c).drop (sl + 1) := by
  interval_cases sl <;> rfl

theorem verifyLoop_digits (ds : List Nat) (rest : List Nat) :
    ∀ (sl : Nat) (c : Control), sl + ds.length = 5 → (∀ b ∈ ds, b ≠ BLANK) →
      (ds = (credential c).drop sl →
        ∃ cb, verifyLoop noFault (ds ++ rest) sl c
          = some ({ c with compareByte := cb }, 0, rest))
      ∧ (ds ≠ (credential c).drop sl →
        ∃ cb k, k < ds.length ∧ verifyLoop noFault (ds ++ rest) sl c
          = some (mismatchBranch { c with compareByte := cb }, 1, ds.drop (k + 1) ++ rest)) := by
  induction ds with
  | nil =>
    intro sl c hlen _
    have hsl : sl = 5 := by simpa using hlen
    subst hsl
    refine ⟨fun _ => ⟨c.compareByte, ?_⟩, fun h => absurd rfl h⟩
    simp [verifyLoop_full]
  | cons b ds ih =>
    intro sl c hlen hnb
    have hsl : sl < 5 := by simp at hlen; omega
    have hb : b ≠ BLANK := hnb b (by simp)
    have hnb2 : ∀ x ∈ ds, x ≠ BLANK := fun x hx => hnb x (by simp [hx])
    rw [credential_drop c sl hsl]
    by_cases e : b = c.eeprom (1 + sl)
    · have hrec := ih (sl + 1) { c with compareByte := c.eeprom (1 + sl) }
        (by simp at hlen; omega) hnb2
      constructor
      · intro hds
        have hds2 : ds = (credential c).drop (sl + 1) := by
          simpa [e] using hds
        obtain ⟨cb, hcb⟩ := hrec.1 hds2
        exact ⟨cb, by rw [List.cons_append, verifyLoop_match b _ sl c hsl hb e, hcb]⟩
      · intro hds
        have hds2 : ds ≠ (credential c).drop (sl + 1) := by
          intro h
          exact hds (by rw [e, h])
        obtain ⟨cb, k, hk, hcb⟩ := hrec.2 hds2
        refine ⟨cb, k + 1, by simpa using hk, ?_⟩
        rw [List.cons_append, verifyLoop_match b _ sl c hsl hb e, hcb]
        rfl
    · constructor
      · intro hds
        exact absurd (by simpa using (List.cons.inj hds).1) e
      · intro _
        refine ⟨c.eeprom (1 + sl), 0, by simp, ?_⟩
        rw [List.cons_append, verifyLoop_mismatch b _ sl c hsl hb e]
        rfl


theorem credential_eq_iff (c : Control) (d0 d1 d2 d3 d4 : Nat) :
    [d0, d1, d2, d3, d4] = credential c ↔
      (d0 = c.eeprom 1 ∧ d1 = c.eeprom 2 ∧ d2 = c.eeprom 3 ∧ d3 = c.eeprom 4
        ∧ d4 = c.eeprom 5) := by
  simp [credential]

/-! ## What the handlers can change -/

theorem verifyLoop_shape (fault : Nat → Bool) (rx : List Nat) :
    ∀ (sl : Nat) (c c1 : Control) (flag : Nat) (rest : List Nat),
      verifyLoop fault rx sl c = some (c1, flag, rest) →
      ∃ cb dp,
        (flag = 0 ∧ c1 = { c with compareByte := cb, diagPin := dp })
        ∨ (flag = 1 ∧ c1 = mismatchBranch { c with compareByte := cb, diagPin := dp }) := by
  induction rx with
  | nil =>
    intro sl c c1 flag rest h
    rw [verifyLoop] at h
    split_ifs at h
    simp only [Option.some.injEq, Prod.mk.injEq] at h
    exact ⟨c.compareByte, c.diagPin, Or.inl ⟨h.2.1.symm, h.1.symm⟩⟩
  | cons b rx ih =>
    intro sl c c1 flag rest h
    rw [verifyLoop] at h
    by_cases hsl : sl < 5
    · by_cases hb : b = BLANK
      · simp only [hsl, if_true, hb, ne_eq, not_true_eq_false, if_false] at h
        exact ih sl c c1 flag rest h
      · by_cases hf : fault sl = true
        · simp only [hsl, if_true, hb, ne_eq, not_false_eq_true, EEPROM_readByte, hf] at h
          by_cases hc : b = c.compareByte
          · simp only [hc, not_true_eq_false, if_false] at h
            obtain ⟨cb, dp, hh⟩ := ih (sl + 1) { c with diagPin := true } c1 flag rest h
            exact ⟨cb, dp, hh⟩
          · simp only [hc, not_false_eq_true, if_true, Option.some.injEq,
              Prod.mk.injEq] at h
            exact ⟨c.compareByte, true, Or.inr ⟨h.2.1.symm, h.1.symm⟩⟩
        · simp only [hsl, if_true, hb, ne_eq, not_false_eq_true, EEPROM_readByte, hf] at h
          by_cases hc : b = c.eeprom (1 + sl)
          · simp only [hc, not_true_eq_false, if_false, Bool.false_eq_true] at h
            obtain ⟨cb, dp, hh⟩ :=
              ih (sl + 1) { c with compareByte := c.eeprom (1 + sl) } c1 flag rest h
            exact ⟨cb, dp, hh⟩
          · simp only [hc, not_false_eq_true, if_true, Option.some.injEq,
              Prod.mk.injEq, Bool.false_eq_true, if_false] at h
            exact ⟨c.eeprom (1 + sl), c.diagPin, Or.inr ⟨h.2.1.symm, h.1.symm⟩⟩
    · simp only [hsl, if_false, Option.some.injEq, Prod.mk.injEq] at h
      exact ⟨c.compareByte, c.diagPin, Or.inl ⟨h.2.1.symm, h.1.symm⟩⟩

theorem storeLoop_shape (rx : List Nat) :
    ∀ (sl : Nat) (c c1 : Control) (rest : List Nat),
      storeLoop rx sl c = some (c1, rest) → ∃ mem, c1 = { c with eeprom := mem } := by
  induction rx with
  | nil =>
    intro sl c c1 rest h
    rw [storeLoop] at h
    split_ifs at h
    simp only [Option.some.injEq, Prod.mk.injEq] at h
    exact ⟨c.eeprom, h.1.symm⟩
  | cons b rx ih =>
    intro sl c c1 rest h
    rw [storeLoop] at h
    by_cases hsl : sl < 5
    · by_cases hb : b = BLANK
      · simp only [hsl, if_true, hb, ne_eq, not_true_eq_false, if_false] at h
        exact ih sl c c1 rest h
      · simp only [hsl, if_true, hb, ne_eq, not_false_eq_true] at h
        obtain ⟨mem, hm⟩ := ih (sl + 1) (EEPROM_writeByte (1 + sl) b c) c1 rest h
        exact ⟨mem, hm⟩
    · simp only [hsl, if_false, Option.some.injEq, Prod.mk.injEq] at h
      exact ⟨c.eeprom, h.1.symm⟩

/-- The four ways `passStoreCheck` can return: a dropped byte or a store
(only the store content changes), a successful verify, a failed verify. -/
theorem passStoreCheck_shape (fault : Nat → Bool) (c c1 : Control) (rx rest : List Nat)
    (h : passStoreCheck fault c rx = some (c1, rest)) :
    (∃ mem, c1 = { c with eeprom := mem })
    ∨ (∃ cb dp, c1 = { c with compareByte := cb, diagPin := dp,
                              tx := c.tx ++ [BYTE_X], phaseSwitches := 2 })
    ∨ (∃ cb dp, c1 = mismatchBranch { c with compareByte := cb, diagPin := dp }) := by
  cases rx with
  | nil => simp [passStoreCheck] at h
  | cons r rx =>
    by_cases hF : r = BYTE_F
    · subst hF
      rw [passStoreCheck_F] at h
      cases hv : verifyLoop fault rx 0 c with
      | none => simp [hv] at h
      | some res =>
        obtain ⟨c2, flag, rest2⟩ := res
        simp only [hv] at h
        obtain ⟨cb, dp, hh⟩ := verifyLoop_shape fault rx 0 c c2 flag rest2 hv
        rcases hh with ⟨hfl, hc2⟩ | ⟨hfl, hc2⟩
        · subst hfl
          simp only [if_true, Option.some.injEq, Prod.mk.injEq] at h
          right; left
          refine ⟨cb, dp, ?_⟩
          rw [← h.1, hc2]
          rfl
        · subst hfl
          simp only [one_ne_zero, if_false, Option.some.injEq, Prod.mk.injEq] at h
          right; right
          exact ⟨cb, dp, by rw [← h.1, hc2]⟩
    · by_cases hS : r = BYTE_S
      · subst hS
        simp only [passStoreCheck, hF, if_false, if_true] at h
        left
        exact storeLoop_shape rx 0 c c1 rest h
      · simp only [passStoreCheck, hF, hS, if_false, Option.some.injEq, Prod.mk.injEq] at h
        left
        exact ⟨c.eeprom, h.1.symm⟩

theorem mismatchBranch_motorState (c : Control) :
    (mismatchBranch c).motorState = c.motorState := by
  unfold mismatchBranch
  by_cases h : (c.g_error + 1) % 256 = 3 <;> simp [h, UART_sendByte]

theorem verifyLoop_success_digits (fault : Nat → Bool) (hf : ∀ i, fault i = false)
    (rx : List Nat) :
    ∀ (sl : Nat) (c c1 : Control) (rest : List Nat),
      verifyLoop fault rx sl c = some (c1, 0, rest) →
      (nonBlank rx).take (5 - sl) = (credential c).drop sl := by
  induction rx with
  | nil =>
    intro sl c c1 rest h
    rw [verifyLoop] at h
    split_ifs at h with hsl
    have : 5 ≤ sl := by omega
    simp [nonBlank, credential, this]
  | cons b rx ih =>
    intro sl c c1 rest h
    rw [verifyLoop] at h
    by_cases hsl : sl < 5
    · by_cases hb : b = BLANK
      · simp only [hsl, if_true, hb, ne_eq, not_true_eq_false, if_false] at h
        have := ih sl c c1 rest h
        simpa [nonBlank, hb] using this
      · simp only [hsl, if_true, hb, ne_eq, not_false_eq_true, EEPROM_readByte, hf sl,
          Bool.false_eq_true, if_false] at h
        by_cases hc : b = c.eeprom (1 + sl)
        · simp only [hc, not_true_eq_false, if_false] at h
          have hrec := ih (sl + 1) { c with compareByte := c.eeprom (1 + sl) } c1 rest h
          have hcred : credential { c with compareByte := c.eeprom (1 + sl) } = credential c :=
            rfl
          rw [hcred] at hrec
          rw [credential_drop c sl hsl, ← hrec]
          have h5 : 5 - sl = (5 - (sl + 1)) + 1 := by omega
          have hnb : nonBlank (b :: rx) = b :: nonBlank rx := by
            simp [nonBlank, hb]
          rw [hnb, h5, List.take_succ_cons, hc]
        · simp only [hc, not_false_eq_true, if_true, Option.some.injEq, Prod.mk.injEq,
            one_ne_zero, false_and, and_false] at h
    · have : 5 ≤ sl := by omega
      simp [credential, this]

/-- A call of `passStoreCheck` in the credential phase that ends in the door
phase received `'F'`, found no mismatch in its comparison loop and sent
`'X'`. -/
theorem passStoreCheck_success (fault : Nat → Bool) (c c1 : Control) (rx rest : List Nat)
    (h : passStoreCheck fault c rx = some (c1, rest)) (hp : c.phaseSwitches = 1)
    (h2 : c1.phaseSwitches = 2) :
    ∃ rx1 c2, rx = BYTE_F :: rx1 ∧ verifyLoop fault rx1 0 c = some (c2, 0, rest)
      ∧ c1.tx = c.tx ++ [BYTE_X] := by
  cases rx with
  | nil => simp [passStoreCheck] at h
  | cons r rx =>
    by_cases hF : r = BYTE_F
    · subst hF
      rw [passStoreCheck_F] at h
      cases hv : verifyLoop fault rx 0 c with
      | none => simp [hv] at h
      | some res =>
        obtain ⟨c2, flag, rest2⟩ := res
        simp only [hv] at h
        obtain ⟨cb, dp, hh⟩ := verifyLoop_shape fault rx 0 c c2 flag rest2 hv
        rcases hh with ⟨hfl, hc2⟩ | ⟨hfl, hc2⟩
        · subst hfl
          simp only [if_true, Option.some.injEq, Prod.mk.injEq] at h
          refine ⟨rx, c2, rfl, by rw [← h.2]; exact hv, ?_⟩
          rw [← h.1, hc2]
          rfl
        · subst hfl
          simp only [one_ne_zero, if_false, Option.some.injEq, Prod.mk.injEq] at h
          exfalso
          rw [← h.1, hc2] at h2
          rcases mismatchBranch_phase { c with compareByte := cb, diagPin := dp } with e | e
          · rw [e] at h2
            simp [hp] at h2
          · rw [e] at h2
            simp at h2
    · exfalso
      have hsame : c1.phaseSwitches = c.phaseSwitches := by
        by_cases hS : r = BYTE_S
        · subst hS
          simp only [passStoreCheck, hF, if_false, if_true] at h
          obtain ⟨mem, hm⟩ := storeLoop_shape rx 0 c c1 rest h
          rw [hm]
        · simp only [passStoreCheck, hF, hS, if_false, Option.some.injEq, Prod.mk.injEq] at h
          rw [← h.1]
      rw [hsame, hp] at h2
      simp at h2

/-! ## Phases along a run -/

theorem phaseOf_congr (c c1 : Control) (hp : c1.phaseSwitches = c.phaseSwitches)
    (hm : c1.motorState = c.motorState) : phaseOf c1 = phaseOf c := by
  simp [phaseOf, hp, hm]

theorem allowedTransition_self (p : Phase) : allowedTransition p p = true := by
  cases p <;> rfl

theorem timerCallBackRuntime_phaseSwitches (c : Control) :
    (timerCallBackRuntime c).phaseSwitches = c.phaseSwitches := by
  unfold timerCallBackRuntime
  cases c.timerState <;> by_cases h : c.alarmState = 255 <;> simp [h]

theorem timerCallBackRuntime_motorState (c : Control) :
    (timerCallBackRuntime c).motorState = c.motorState := by
  unfold timerCallBackRuntime
  cases c.timerState <;> by_cases h : c.alarmState = 255 <;> simp [h]

theorem phaseOf_credential (c : Control) (hp : c.phaseSwitches = 1) :
    phaseOf c = some .CREDENTIAL_CHECK := by
  simp [phaseOf, hp]

theorem phaseOf_alarm (c : Control) (hp : c.phaseSwitches = 3) :
    phaseOf c = some .ALARM := by
  simp [phaseOf, hp]

theorem phaseOf_door (c : Control) (hp : c.phaseSwitches = 2) :
    phaseOf c = match c.motorState with
      | .OPENING_DOOR => some .DOOR_OPENING
      | .WAITING_FOR_PEOPLE => some .DOOR_WAITING
      | .CLOSING_DOOR => some .DOOR_CLOSING
      | .Done => none := by
  simp [phaseOf, hp]

theorem boot_PhaseInv (mem : Nat → Nat) : PhaseInv (boot mem) := by
  simp [PhaseInv, boot]

/-- One door pass from a state of the door phase: the invariant is kept and
the phase moves along the door cycle or stays. -/
theorem doorHandler_phase (pir : Nat) (c : Control) (hinv : PhaseInv c)
    (hp : c.phaseSwitches = 2) :
    PhaseInv (doorHandler pir c)
    ∧ ∃ p q, phaseOf c = some p ∧ phaseOf (doorHandler pir c) = some q
        ∧ allowedTransition p q = true ∧ p ≠ .CREDENTIAL_CHECK ∧ q ≠ .ALARM := by
  obtain ⟨_, _, hD⟩ := hinv
  cases hm : c.motorState with
  | OPENING_DOOR =>
    by_cases hs : c.seconds > 15 <;> by_cases hb : c.doorByteSent = 0 <;>
      simp [doorHandler, hm, hs, hb, PhaseInv, phaseOf, hp, UART_sendByte, DcMotor_Rotate,
        allowedTransition]
  | WAITING_FOR_PEOPLE =>
    by_cases hs : pir = LOGIC_LOW <;> by_cases hb : c.doorByteSent = 0 <;>
      simp [doorHandler, hm, hs, hb, PhaseInv, phaseOf, hp, UART_sendByte, DcMotor_Rotate,
        allowedTransition]
  | CLOSING_DOOR =>
    by_cases hs : c.seconds > 15 <;> by_cases hb : c.doorByteSent = 0 <;>
      simp [doorHandler, hm, hs, hb, PhaseInv, phaseOf, hp, UART_sendByte, DcMotor_Rotate,
        allowedTransition]
  | Done => exact absurd hm hD

/-- One alarm pass: the phase stays ALARM or returns to the credential
phase. -/
theorem alarmStage_phase (c : Control) (hinv : PhaseInv c) (hp : c.phaseSwitches = 3) :
    PhaseInv (alarmStage c)
    ∧ ∃ q, phaseOf (alarmStage c) = some q ∧ allowedTransition .ALARM q = true
        ∧ q ≠ .DOOR_OPENING := by
  obtain ⟨_, hO, hD⟩ := hinv
  have hms : c.motorState = .OPENING_DOOR := hO (by rw [hp]; decide)
  by_cases hs : c.seconds < 60 <;> by_cases hb : c.alarmByteSent = 0 <;>
    simp [alarmStage, hs, hb, PhaseInv, phaseOf, hp, UART_sendByte, allowedTransition, hms]

/-- One credential pass that returns: the phase stays, or becomes the start
of the door cycle, or becomes ALARM. -/
theorem passStoreCheck_phase (fault : Nat → Bool) (c c1 : Control) (rx rest : List Nat)
    (hinv : PhaseInv c) (hp : c.phaseSwitches = 1)
    (h : passStoreCheck fault c rx = some (c1, rest)) :
    PhaseInv c1
    ∧ ∃ q, phaseOf c1 = some q ∧ allowedTransition .CREDENTIAL_CHECK q = true := by
  obtain ⟨_, hO, hD⟩ := hinv
  have hms : c.motorState = .OPENING_DOOR := hO (by rw [hp]; decide)
  rcases passStoreCheck_shape fault c c1 rx rest h with ⟨mem, e⟩ | ⟨cb, dp, e⟩ | ⟨cb, dp, e⟩
  · subst e
    simp [PhaseInv, phaseOf, hp, hms, allowedTransition]
  · subst e
    simp [PhaseInv, phaseOf, hms, allowedTransition]
  · have hm2 : c1.motorState = .OPENING_DOOR := by
      rw [e, mismatchBranch_motorState]; exact hms
    rcases mismatchBranch_phase { c with compareByte := cb, diagPin := dp } with e2 | e2
    · have hp1 : c1.phaseSwitches = 1 := by rw [e, e2]; exact hp
      simp [PhaseInv, phaseOf, hp1, hm2, allowedTransition]
    · have hp1 : c1.phaseSwitches = 3 := by rw [e, e2]
      simp [PhaseInv, phaseOf, hp1, hm2, allowedTransition]

/-- Every step keeps the invariant and takes an allowed transition. -/
theorem step_phase (e : Event) (c c1 : Control) (rx rx1 : List Nat) (hinv : PhaseInv c)
    (h : step e (c, rx) = some (c1, rx1)) :
    PhaseInv c1
    ∧ ∃ p q, phaseOf c = some p ∧ phaseOf c1 = some q ∧ allowedTransition p q = true := by
  cases e with
  | tick =>
    simp only [step, Option.some.injEq, Prod.mk.injEq] at h
    obtain ⟨h1, _⟩ := h
    subst h1
    have hp := timerCallBackRuntime_phaseSwitches c
    have hm := timerCallBackRuntime_motorState c
    have hph := phaseOf_congr c (timerCallBackRuntime c) hp hm
    refine ⟨?_, ?_⟩
    · simpa [PhaseInv, hp, hm] using hinv
    · obtain ⟨h123, hO, hD⟩ := hinv
      rcases h123 with h1 | h2 | h3
      · exact ⟨_, _, phaseOf_credential c h1, by rw [hph]; exact phaseOf_credential c h1,
          allowedTransition_self _⟩
      · cases hms : c.motorState with
        | Done => exact absurd hms hD
        | OPENING_DOOR =>
          have : phaseOf c = some .DOOR_OPENING := by rw [phaseOf_door c h2, hms]
          exact ⟨_, _, this, by rw [hph]; exact this, allowedTransition_self _⟩
        | WAITING_FOR_PEOPLE =>
          have : phaseOf c = some .DOOR_WAITING := by rw [phaseOf_door c h2, hms]
          exact ⟨_, _, this, by rw [hph]; exact this, allowedTransition_self _⟩
        | CLOSING_DOOR =>
          have : phaseOf c = some .DOOR_CLOSING := by rw [phaseOf_door c h2, hms]
          exact ⟨_, _, this, by rw [hph]; exact this, allowedTransition_self _⟩
      · exact ⟨_, _, phaseOf_alarm c h3, by rw [hph]; exact phaseOf_alarm c h3,
          allowedTransition_self _⟩
  | iter fault pir =>
    simp only [step, mainIteration] at h
    have hinv0 := hinv
    obtain ⟨h123, hO, hD⟩ := hinv
    rcases h123 with h1 | h2 | h3
    · rw [if_pos h1] at h
      have hinvI : PhaseInv { c with iBit := false } := hinv0
      obtain ⟨hi, q, hq, ha⟩ :=
        passStoreCheck_phase fault { c with iBit := false } c1 rx rx1 hinvI h1 h
      exact ⟨hi, _, q, phaseOf_credential c h1, hq, ha⟩
    · rw [if_neg (by rw [h2]; decide), if_pos h2] at h
      simp only [Option.some.injEq, Prod.mk.injEq] at h
      obtain ⟨hc1, _⟩ := h
      subst hc1
      have hinvI : PhaseInv { c with iBit := true } := hinv0
      obtain ⟨hi, p, q, hp, hq, ha, _⟩ := doorHandler_phase pir { c with iBit := true } hinvI h2
      exact ⟨hi, p, q, hp, hq, ha⟩
    · rw [if_neg (by rw [h3]; decide), if_neg (by rw [h3]; decide), if_pos h3] at h
      simp only [Option.some.injEq, Prod.mk.injEq] at h
      obtain ⟨hc1, _⟩ := h
      subst hc1
      have hinvI : PhaseInv { c with iBit := true } := hinv0
      obtain ⟨hi, q, hq, ha, _⟩ := alarmStage_phase { c with iBit := true } hinvI h3
      exact ⟨hi, _, q, phaseOf_alarm c h3, hq, ha⟩

/-- The invariant holds along every run that starts with it. -/
theorem run_PhaseInv (es : List Event) :
    ∀ (s s1 : Control × List Nat), PhaseInv s.1 → run es s = some s1 → PhaseInv s1.1 := by
  induction es with
  | nil =>
    intro s s1 hinv h
    simp only [run, Option.some.injEq] at h
    rw [← h]; exact hinv
  | cons e es ih =>
    intro s s1 hinv h
    rw [run] at h
    cases hs : step e s with
    | none => simp [hs] at h
    | some s2 =>
      simp only [hs] at h
      obtain ⟨c, rx⟩ := s
      obtain ⟨c2, rx2⟩ := s2
      exact ih (c2, rx2) s1 (step_phase e c c2 rx rx2 hinv hs).1 h

/-! ## The storing loop -/

theorem storeLoop_cons (b : Nat) (rest : List Nat) (sl : Nat) (c : Control)
    (h : sl < 5) (hb : b ≠ BLANK) :
    storeLoop (b :: rest) sl c
      = storeLoop rest (sl + 1) (EEPROM_writeByte (1 + sl) b c) := by
  rw [storeLoop]
  simp [h, hb]

theorem storeLoop_full (rx : List Nat) (c : Control) : storeLoop rx 5 c = some (c, rx) := by
  cases rx <;> simp [storeLoop]

/-- Storing the non-blank bytes `ds` from position `sl` on: the loop returns,
the bytes sit at the addresses `0x0001 + sl ..` and every other address keeps
its content. -/
theorem storeLoop_digits (ds : List Nat) (rest : List Nat) :
    ∀ (sl : Nat) (c : Control), sl + ds.length = 5 → (∀ b ∈ ds, b ≠ BLANK) →
      ∃ mem, storeLoop (ds ++ rest) sl c = some ({ c with eeprom := mem }, rest)
        ∧ (∀ i, i < ds.length → ds[i]? = some (mem (1 + sl + i)))
        ∧ (∀ a, (a < 1 + sl ∨ 1 + sl + ds.length ≤ a) → mem a = c.eeprom a) := by
  induction ds with
  | nil =>
    intro sl c hlen _
    have hsl : sl = 5 := by simpa using hlen
    subst hsl
    exact ⟨c.eeprom, by simp [storeLoop_full], by simp, fun _ _ => rfl⟩
  | cons b ds ih =>
    intro sl c hlen hnb
    have hsl : sl < 5 := by simp at hlen; omega
    have hb : b ≠ BLANK := hnb b (by simp)
    have hnb2 : ∀ x ∈ ds, x ≠ BLANK := fun x hx => hnb x (by simp [hx])
    obtain ⟨mem, hrun, hget, hframe⟩ :=
      ih (sl + 1) (EEPROM_writeByte (1 + sl) b c) (by simp at hlen; omega) hnb2
    refine ⟨mem, ?_, ?_, ?_⟩
    · rw [List.cons_append, storeLoop_cons b _ sl c hsl hb, hrun]
      rfl
    · intro i hi
      cases i with
      | zero =>
        have := hframe (1 + sl) (Or.inl (by omega))
        simp [this, EEPROM_writeByte]
      | succ j =>
        have hj : j < ds.length := by simpa using hi
        have := hget j hj
        have e : 1 + (sl + 1) + j = 1 + sl + (j + 1) := by omega
        rw [e] at this
        simpa using this
    · intro a ha
      have hlen2 : (b :: ds).length = ds.length + 1 := by simp
      rw [hlen2] at ha
      have h1 := hframe a (by omega)
      rw [h1]
      have hne : a ≠ 1 + sl := by omega
      simp [EEPROM_writeByte, hne]

/-- A Store request with five non-blank bytes: `passStoreCheck` returns, the
bytes become the stored credential and nothing else of the state changes. -/
theorem passStoreCheck_store (fault : Nat → Bool) (c : Control) (d0 d1 d2 d3 d4 : Nat)
    (rest : List Nat) (h0 : d0 ≠ BLANK) (h1 : d1 ≠ BLANK) (h2 : d2 ≠ BLANK)
    (h3 : d3 ≠ BLANK) (h4 : d4 ≠ BLANK) :
    ∃ mem, passStoreCheck fault c (BYTE_S :: d0 :: d1 :: d2 :: d3 :: d4 :: rest)
        = some ({ c with eeprom := mem }, rest)
      ∧ [mem 1, mem 2, mem 3, mem 4, mem 5] = [d0, d1, d2, d3, d4] := by
  have hnb : ∀ b ∈ [d0, d1, d2, d3, d4], b ≠ BLANK := by
    intro b hb
    simp at hb
    rcases hb with rfl | rfl | rfl | rfl | rfl <;> assumption
  obtain ⟨mem, hrun, hget, -⟩ := storeLoop_digits [d0, d1, d2, d3, d4] rest 0 c rfl hnb
  refine ⟨mem, ?_, ?_⟩
  · have hSF : BYTE_S ≠ BYTE_F := by decide
    simp only [passStoreCheck, hSF, if_false, if_true]
    exact hrun
  · have g0 := hget 0 (by simp)
    have g1 := hget 1 (by simp)
    have g2 := hget 2 (by simp)
    have g3 := hget 3 (by simp)
    have g4 := hget 4 (by simp)
    simp at g0 g1 g2 g3 g4
    simp [g0, g1, g2, g3, g4]

/-! ## Whole verify requests -/

/-- A fault-free Verify request whose five non-blank bytes are the stored
credential. -/
theorem passStoreCheck_verify_match (c : Control) (ds rest : List Nat)
    (hlen : ds.length = 5) (hnb : ∀ b ∈ ds, b ≠ BLANK) (hm : ds = credential c) :
    ∃ cb, passStoreCheck noFault c (BYTE_F :: (ds ++ rest))
      = some ({ c with compareByte := cb, tx := c.tx ++ [BYTE_X], phaseSwitches := 2 },
          rest) := by
  obtain ⟨cb, hcb⟩ := (verifyLoop_digits ds rest 0 c (by omega) hnb).1 (by simpa using hm)
  refine ⟨cb, ?_⟩
  rw [passStoreCheck_F, hcb]
  rfl

/-- A fault-free Verify request whose five non-blank bytes differ from the
stored credential: the call ends at the first differing byte and leaves the
bytes after it on the link. -/
theorem passStoreCheck_verify_mismatch (c : Control) (ds rest : List Nat)
    (hlen : ds.length = 5) (hnb : ∀ b ∈ ds, b ≠ BLANK) (hm : ds ≠ credential c) :
    ∃ cb k, k < 5 ∧ passStoreCheck noFault c (BYTE_F :: (ds ++ rest))
      = some (mismatchBranch { c with compareByte := cb }, ds.drop (k + 1) ++ rest) := by
  obtain ⟨cb, k, hk, hcb⟩ :=
    (verifyLoop_digits ds rest 0 c (by omega) hnb).2 (by simpa using hm)
  refine ⟨cb, k, by omega, ?_⟩
  rw [passStoreCheck_F, hcb]
  rfl

theorem phaseOf_credential_inv (c : Control) (h : phaseOf c = some .CREDENTIAL_CHECK) :
    c.phaseSwitches = 1 := by
  unfold phaseOf at h
  by_cases h1 : c.phaseSwitches = 1
  · exact h1
  · by_cases h2 : c.phaseSwitches = 2
    · cases hm : c.motorState <;> simp [h1, h2, hm] at h
    · by_cases h3 : c.phaseSwitches = 3 <;> simp [h1, h2, h3] at h

theorem nonBlank_five (d0 d1 d2 d3 d4 : Nat) (h0 : d0 ≠ BLANK) (h1 : d1 ≠ BLANK)
    (h2 : d2 ≠ BLANK) (h3 : d3 ≠ BLANK) (h4 : d4 ≠ BLANK) :
    ∀ b ∈ [d0, d1, d2, d3, d4], b ≠ BLANK := by
  intro b hb
  simp at hb
  rcases hb with rfl | rfl | rfl | rfl | rfl <;> assumption

/-! ## Requests on the link -/

theorem passStoreCheck_other (fault : Nat → Bool) (c : Control) (b : Nat) (rest : List Nat)
    (hF : b ≠ BYTE_F) (hS : b ≠ BYTE_S) :
    passStoreCheck fault c (b :: rest) = some (c, rest) := by
  simp [passStoreCheck, hF, hS]

theorem passes_succ (n : Nat) (fault : Nat → Bool) (pir : Nat) :
    passes (n + 1) fault pir = .iter fault pir :: passes n fault pir := by
  simp [passes, List.replicate_succ]

theorem run_cons (e : Event) (es : List Event) (s s1 : Control × List Nat)
    (h : step e s = some s1) : run (e :: es) s = run es s1 := by
  simp [run, h]

/-- In the credential phase with interrupts masked, bytes that are neither
`'F'` nor `'S'` are taken off the link one per pass and change nothing. -/
theorem run_passes_other (fault : Nat → Bool) (pir : Nat) (l : List Nat) :
    ∀ (c : Control) (rest : List Nat), c.phaseSwitches = 1 → c.iBit = false →
      (∀ b ∈ l, b ≠ BYTE_F ∧ b ≠ BYTE_S) →
      run (passes l.length fault pir) (c, l ++ rest) = some (c, rest) := by
  induction l with
  | nil => intro c rest _ _ _; rfl
  | cons b l ih =>
    intro c rest hp hi hl
    have hb := hl b (by simp)
    have hstep : step (.iter fault pir) (c, (b :: l) ++ rest) = some (c, l ++ rest) := by
      simp only [step, mainIteration]
      rw [if_pos hp]
      have hc : { c with iBit := false } = c := by
        cases c; simp at hi; simp [hi]
      rw [hc]
      exact passStoreCheck_other fault c b (l ++ rest) hb.1 hb.2
    rw [List.length_cons, passes_succ, run_cons _ _ _ _ hstep]
    exact ih c rest hp hi (fun x hx => hl x (by simp [hx]))

theorem isDigitMessage_nonBlank (m : List Nat) (h : isDigitMessage m) :
    ∀ b ∈ m, b ≠ BLANK := by
  intro b hb
  have := h.2 b hb
  simp only [BLANK]
  omega

theorem isDigitMessage_drop_other (m : List Nat) (h : isDigitMessage m) (k : Nat) :
    ∀ b ∈ m.drop k, b ≠ BYTE_F ∧ b ≠ BYTE_S := by
  intro b hb
  have := h.2 b (List.mem_of_mem_drop hb)
  simp only [BYTE_F, BYTE_S]
  omega

/-- A mismatching Verify request below the threshold, with the passes that
take its unread digits off the link: `'Z'` is sent, the error count goes up
by one and nothing else changes but the compare byte and the interrupt
bit. -/
theorem run_mismatch_request (c : Control) (m rest : List Nat) (pir : Nat)
    (hp : c.phaseSwitches = 1) (hmsg : isDigitMessage m) (hm : m ≠ credential c)
    (hg : (c.g_error + 1) % 256 ≠ 3) :
    ∃ n cb, run (passes n noFault pir) (c, BYTE_F :: (m ++ rest))
      = some ({ c with iBit := false, compareByte := cb,
                       g_error := (c.g_error + 1) % 256, tx := c.tx ++ [BYTE_Z] }, rest) := by
  obtain ⟨cb, k, _, hv⟩ := passStoreCheck_verify_mismatch { c with iBit := false } m rest
    hmsg.1 (isDigitMessage_nonBlank m hmsg) hm
  have hmb : mismatchBranch { c with iBit := false, compareByte := cb }
      = { c with iBit := false, compareByte := cb,
                 g_error := (c.g_error + 1) % 256, tx := c.tx ++ [BYTE_Z] } := by
    simp [mismatchBranch, hg, UART_sendByte]
  have hv2 : passStoreCheck noFault { c with iBit := false } (BYTE_F :: (m ++ rest))
      = some ({ c with iBit := false, compareByte := cb,
                       g_error := (c.g_error + 1) % 256, tx := c.tx ++ [BYTE_Z] },
              m.drop (k + 1) ++ rest) := by
    rw [hv]
    exact congrArg (fun x => some (x, m.drop (k + 1) ++ rest)) hmb
  have hstep : step (.iter noFault pir) (c, BYTE_F :: (m ++ rest))
      = some ({ c with iBit := false, compareByte := cb,
                       g_error := (c.g_error + 1) % 256, tx := c.tx ++ [BYTE_Z] },
              m.drop (k + 1) ++ rest) := by
    simp only [step, mainIteration]
    rw [if_pos hp]
    exact hv2
  refine ⟨(m.drop (k + 1)).length + 1, cb, ?_⟩
  rw [passes_succ, run_cons _ _ _ _ hstep]
  exact run_passes_other noFault pir (m.drop (k + 1)) _ rest hp rfl
    (isDigitMessage_drop_other m hmsg (k + 1))

/-- A mismatching Verify request that reaches the threshold: the alarm byte
is sent, the error count is cleared, the alarm flag set and the phase is 3. -/
theorem step_alarm_request (c : Control) (m rest : List Nat) (pir : Nat)
    (hp : c.phaseSwitches = 1) (hmsg : isDigitMessage m) (hm : m ≠ credential c)
    (hg : (c.g_error + 1) % 256 = 3) :
    ∃ cb k, step (.iter noFault pir) (c, BYTE_F :: (m ++ rest))
      = some ({ c with iBit := false, compareByte := cb, g_error := 0, alarmState := 255,
                       phaseSwitches := 3, tx := c.tx ++ [Alarm_Byte] },
              m.drop (k + 1) ++ rest) := by
  obtain ⟨cb, k, _, hv⟩ := passStoreCheck_verify_mismatch { c with iBit := false } m rest
    hmsg.1 (isDigitMessage_nonBlank m hmsg) hm
  have hmb : mismatchBranch { c with iBit := false, compareByte := cb }
      = { c with iBit := false, compareByte := cb, g_error := 0, alarmState := 255,
                 phaseSwitches := 3, tx := c.tx ++ [Alarm_Byte] } := by
    simp [mismatchBranch, hg, UART_sendByte]
  refine ⟨cb, k, ?_⟩
  simp only [step, mainIteration]
  rw [if_pos hp, hv]
  exact congrArg (fun x => some (x, m.drop (k + 1) ++ rest)) hmb

theorem phaseOf_door_opening_inv (c : Control) (h : phaseOf c = some .DOOR_OPENING) :
    c.phaseSwitches = 2 := by
  unfold phaseOf at h
  by_cases h1 : c.phaseSwitches = 1
  · simp [h1] at h
  · by_cases h2 : c.phaseSwitches = 2
    · exact h2
    · by_cases h3 : c.phaseSwitches = 3 <;> simp [h1, h2, h3] at h

/-- A step from the credential phase into DOOR_OPENING is a pass of the main
loop that received `'F'`, sent `'X'` and, when no read faulted, compared five
non-blank bytes equal to the stored credential. -/
theorem step_into_door (e : Event) (c c1 : Control) (rx rx1 : List Nat)
    (h : step e (c, rx) = some (c1, rx1))
    (hp : phaseOf c = some .CREDENTIAL_CHECK) (hq : phaseOf c1 = some .DOOR_OPENING) :
    ∃ fault pir rest, e = .iter fault pir ∧ rx = BYTE_F :: rest
      ∧ c1.tx = c.tx ++ [BYTE_X]
      ∧ ((∀ i, fault i = false) → (nonBlank rest).take 5 = credential c) := by
  have hp1 := phaseOf_credential_inv c hp
  have hq2 := phaseOf_door_opening_inv c1 hq
  cases e with
  | tick =>
    exfalso
    simp only [step, Option.some.injEq, Prod.mk.injEq] at h
    rw [← h.1, timerCallBackRuntime_phaseSwitches, hp1] at hq2
    simp at hq2
  | iter fault pir =>
    simp only [step, mainIteration] at h
    rw [if_pos hp1] at h
    obtain ⟨rest, c2, hrx, hv, htx⟩ :=
      passStoreCheck_success fault { c with iBit := false } c1 rx rx1 h hp1 hq2
    refine ⟨fault, pir, rest, rfl, hrx, htx, fun hf => ?_⟩
    have := verifyLoop_success_digits fault hf rest 0 { c with iBit := false } c2 rx1 hv
    simpa using this

/-! ## The door cycle -/

theorem actuator_concat (c : Control) (l : List (DcMotor_State × Nat)) (st : DcMotor_State)
    (n : Nat) (h : c.motorCmds = l ++ [(st, n)]) : actuator c = some st := by
  simp [actuator, h]

/-- One call of `doorHandler` in `OPENING_DOOR` with at most 15 on the
elapsed counter. -/
theorem doorHandler_opening_le (pir : Nat) (c : Control)
    (hm : c.motorState = .OPENING_DOOR) (hs : c.seconds ≤ 15) :
    (doorHandler pir c).motorCmds = c.motorCmds ++ [(.CW, 100)]
    ∧ (doorHandler pir c).motorState = .OPENING_DOOR
    ∧ (doorHandler pir c).timerState = c.timerState
    ∧ (doorHandler pir c).phaseSwitches = c.phaseSwitches
    ∧ (doorHandler pir c).seconds = c.seconds
    ∧ (doorHandler pir c).alarmState = c.alarmState := by
  have hs2 : ¬ c.seconds > 15 := by omega
  by_cases hb : c.doorByteSent = 0 <;>
    simp [doorHandler, hm, hs2, hb, UART_sendByte, DcMotor_Rotate]

/-- One call of `doorHandler` in `OPENING_DOOR` with more than 15 on the
elapsed counter. -/
theorem doorHandler_opening_gt (pir : Nat) (c : Control)
    (hm : c.motorState = .OPENING_DOOR) (hs : c.seconds > 15) :
    (doorHandler pir c).motorCmds = c.motorCmds ++ [(.CW, 100), (.STOP, 0)]
    ∧ (doorHandler pir c).motorState = .WAITING_FOR_PEOPLE
    ∧ (doorHandler pir c).timerState = .WAITING_FOR_PEOPLE
    ∧ (doorHandler pir c).phaseSwitches = c.phaseSwitches
    ∧ (doorHandler pir c).seconds = c.seconds := by
  by_cases hb : c.doorByteSent = 0 <;>
    simp [doorHandler, hm, hs, hb, UART_sendByte, DcMotor_Rotate]

/-- A tick while the timer context is `OPENING_DOOR`, the alarm flag is not
set and the counter is below 255 adds one to the counter. -/
theorem timerCallBackRuntime_opening (c : Control) (ht : c.timerState = .OPENING_DOOR)
    (ha : c.alarmState ≠ 255) (hs : c.seconds < 255) :
    (timerCallBackRuntime c).seconds = c.seconds + 1
    ∧ (timerCallBackRuntime c).timerState = .OPENING_DOOR
    ∧ (timerCallBackRuntime c).alarmState = c.alarmState := by
  have hmod : (c.seconds + 1) % 256 = c.seconds + 1 := Nat.mod_eq_of_lt (by omega)
  simp [timerCallBackRuntime, ht, ha, hmod]

/-- While the door opens, ticks and passes in any order, with at most 15 on
the counter at the end, leave the node in DOOR_OPENING and the counter at the
number of ticks. -/
theorem run_opening (es : List Event) :
    ∀ (c : Control) (rx : List Nat), c.phaseSwitches = 2 → c.motorState = .OPENING_DOOR →
      c.timerState = .OPENING_DOOR → c.alarmState ≠ 255 → c.seconds + tickCount es ≤ 15 →
      ∃ c1, run es (c, rx) = some (c1, rx) ∧ c1.phaseSwitches = 2
        ∧ c1.motorState = .OPENING_DOOR ∧ c1.timerState = .OPENING_DOOR
        ∧ c1.alarmState ≠ 255 ∧ c1.seconds = c.seconds + tickCount es := by
  induction es with
  | nil =>
    intro c rx hp hm ht ha _
    exact ⟨c, rfl, hp, hm, ht, ha, by simp [tickCount]⟩
  | cons e es ih =>
    intro c rx hp hm ht ha hs
    cases e with
    | tick =>
      simp only [tickCount] at hs
      obtain ⟨h1, h2, h3⟩ := timerCallBackRuntime_opening c ht ha (by omega)
      obtain ⟨c1, hr, g1, g2, g3, g4, g5⟩ := ih (timerCallBackRuntime c) rx
        (by rw [timerCallBackRuntime_phaseSwitches]; exact hp)
        (by rw [timerCallBackRuntime_motorState]; exact hm) h2 (by rw [h3]; exact ha)
        (by rw [h1]; omega)
      refine ⟨c1, ?_, g1, g2, g3, g4, ?_⟩
      · rw [run_cons .tick es (c, rx) (timerCallBackRuntime c, rx) rfl]; exact hr
      · rw [g5, h1]; simp only [tickCount]; omega
    | iter fault pir =>
      simp only [tickCount] at hs
      have hd := doorHandler_opening_le pir { c with iBit := true } hm (by simp; omega)
      obtain ⟨d1, d2, d3, d4, d5, d6⟩ := hd
      have hstep : step (.iter fault pir) (c, rx)
          = some (doorHandler pir { c with iBit := true }, rx) := by
        simp only [step, mainIteration]
        rw [if_neg (by rw [hp]; decide), if_pos hp]
      obtain ⟨c1, hr, g1, g2, g3, g4, g5⟩ := ih (doorHandler pir { c with iBit := true }) rx
        (by rw [d4]; exact hp) d2 (by rw [d3]; exact ht) (by rw [d6]; exact ha)
        (by rw [d5]; exact hs)
      refine ⟨c1, ?_, g1, g2, g3, g4, ?_⟩
      · rw [run_cons _ _ _ _ hstep]; exact hr
      · rw [g5, d5]; simp [tickCount]

/-- While the node waits, ticks and passes that read the sensor as not
clear, in any order and number, leave it waiting. -/
theorem run_waiting (es : List Event) :
    ∀ (c : Control) (rx : List Nat), c.phaseSwitches = 2 →
      c.motorState = .WAITING_FOR_PEOPLE → presentOnly es = true →
      ∃ c1, run es (c, rx) = some (c1, rx) ∧ c1.phaseSwitches = 2
        ∧ c1.motorState = .WAITING_FOR_PEOPLE := by
  induction es with
  | nil =>
    intro c rx hp hm _
    exact ⟨c, rfl, hp, hm⟩
  | cons e es ih =>
    intro c rx hp hm hes
    cases e with
    | tick =>
      simp only [presentOnly] at hes
      obtain ⟨c1, hr, g1, g2⟩ := ih (timerCallBackRuntime c) rx
        (by rw [timerCallBackRuntime_phaseSwitches]; exact hp)
        (by rw [timerCallBackRuntime_motorState]; exact hm) hes
      exact ⟨c1, by rw [run_cons .tick es (c, rx) (timerCallBackRuntime c, rx) rfl]; exact hr, g1, g2⟩
    | iter fault pir =>
      simp only [presentOnly, Bool.and_eq_true, decide_eq_true_eq] at hes
      have hstep : step (.iter fault pir) (c, rx)
          = some (doorHandler pir { c with iBit := true }, rx) := by
        simp only [step, mainIteration]
        rw [if_neg (by rw [hp]; decide), if_pos hp]
      have hd : (doorHandler pir { c with iBit := true }).phaseSwitches = 2
          ∧ (doorHandler pir { c with iBit := true }).motorState = .WAITING_FOR_PEOPLE := by
        by_cases hb : c.doorByteSent = 0 <;>
          simp [doorHandler, hm, hes.1, hb, UART_sendByte, DcMotor_Rotate, hp]
      obtain ⟨c1, hr, g1, g2⟩ := ih (doorHandler pir { c with iBit := true }) rx hd.1 hd.2
        hes.2
      exact ⟨c1, by rw [run_cons _ _ _ _ hstep]; exact hr, g1, g2⟩

/-! ## The state at handler boundaries -/

/-- The tick callback changes the elapsed counter and the timer context
only. -/
theorem timerCallBackRuntime_shape (c : Control) :
    ∃ s t, timerCallBackRuntime c = { c with seconds := s, timerState := t } := by
  unfold timerCallBackRuntime
  cases ht : c.timerState <;> by_cases h : c.alarmState = 255 <;> simp [h]

/-- The two ways the mismatch branch ends. -/
theorem mismatchBranch_shape (c : Control) :
    ((c.g_error + 1) % 256 ≠ 3
      ∧ mismatchBranch c = { c with g_error := (c.g_error + 1) % 256, tx := c.tx ++ [BYTE_Z] })
    ∨ ((c.g_error + 1) % 256 = 3
      ∧ mismatchBranch c = { c with g_error := 0, alarmState := 255, phaseSwitches := 3,
                                    tx := c.tx ++ [Alarm_Byte] }) := by
  by_cases h : (c.g_error + 1) % 256 = 3
  · right; exact ⟨h, by simp [mismatchBranch, h, UART_sendByte]⟩
  · left; exact ⟨h, by simp [mismatchBranch, h, UART_sendByte]⟩

theorem boot_BoundaryInv (mem : Nat → Nat) : BoundaryInv (boot mem) := by
  refine ⟨boot_PhaseInv mem, rfl, ?_, fun _ => rfl⟩
  intro h
  simp [boot] at h

/-- Every step keeps the boundary invariant. -/
theorem step_BoundaryInv (e : Event) (c c1 : Control) (rx rx1 : List Nat)
    (hinv : BoundaryInv c) (h : step e (c, rx) = some (c1, rx1)) : BoundaryInv c1 := by
  obtain ⟨hP, hA, h3, hD⟩ := hinv
  refine ⟨(step_phase e c c1 rx rx1 hP h).1, ?_⟩
  cases e with
  | tick =>
    simp only [step, Option.some.injEq, Prod.mk.injEq] at h
    obtain ⟨s, t, hs⟩ := timerCallBackRuntime_shape c
    rw [← h.1, hs]
    exact ⟨hA, h3, hD⟩
  | iter fault pir =>
    simp only [step, mainIteration] at h
    obtain ⟨h123, hO, hDone⟩ := hP
    rcases h123 with h1 | h2 | h3'
    · rw [if_pos h1] at h
      have hd0 : c.doorByteSent = 0 := hD (by rw [h1]; decide)
      rcases passStoreCheck_shape fault { c with iBit := false } c1 rx rx1 h with
        ⟨mem, e⟩ | ⟨cb, dp, e⟩ | ⟨cb, dp, e⟩
      · subst e
        refine ⟨hA, ?_, fun _ => hd0⟩
        intro h'
        have h'' : c.phaseSwitches = 3 := h'
        rw [h1] at h''
        exact absurd h'' (by decide)
      · subst e
        refine ⟨hA, ?_, ?_⟩
        · intro h'
          have h'' : (2 : Nat) = 3 := h'
          exact absurd h'' (by decide)
        · intro h'
          exact absurd rfl h'
      · rcases mismatchBranch_shape { c with iBit := false, compareByte := cb, diagPin := dp }
          with ⟨_, e2⟩ | ⟨_, e2⟩
        · rw [e, e2]
          refine ⟨hA, ?_, fun _ => hd0⟩
          intro h'
          have h'' : c.phaseSwitches = 3 := h'
          rw [h1] at h''
          exact absurd h'' (by decide)
        · rw [e, e2]
          exact ⟨hA, fun _ => ⟨rfl, rfl⟩, fun _ => hd0⟩
    · rw [if_neg (by rw [h2]; decide), if_pos h2] at h
      simp only [Option.some.injEq, Prod.mk.injEq] at h
      rw [← h.1]
      cases hm : c.motorState with
      | OPENING_DOOR =>
        by_cases hs : c.seconds > 15 <;> by_cases hb : c.doorByteSent = 0 <;>
          simp [doorHandler, hm, hs, hb, UART_sendByte, DcMotor_Rotate, hA, h2]
      | WAITING_FOR_PEOPLE =>
        by_cases hs : pir = LOGIC_LOW <;> by_cases hb : c.doorByteSent = 0 <;>
          simp [doorHandler, hm, hs, hb, UART_sendByte, DcMotor_Rotate, hA, h2]
      | CLOSING_DOOR =>
        by_cases hs : c.seconds > 15 <;> by_cases hb : c.doorByteSent = 0 <;>
          simp [doorHandler, hm, hs, hb, UART_sendByte, DcMotor_Rotate, hA, h2]
      | Done => exact absurd hm hDone
    · rw [if_neg (by rw [h3']; decide), if_neg (by rw [h3']; decide), if_pos h3'] at h
      simp only [Option.some.injEq, Prod.mk.injEq] at h
      rw [← h.1]
      have hd0 : c.doorByteSent = 0 := hD (by rw [h3']; decide)
      obtain ⟨hg, ha⟩ := h3 h3'
      by_cases hs : c.seconds < 60
      · simp [alarmStage, hs, hA, hg, ha, hd0]
      · simp [alarmStage, hs, hA, hd0, UART_sendByte]

/-- The boundary invariant holds along every run that starts with it. -/
theorem run_BoundaryInv (es : List Event) :
    ∀ (s s1 : Control × List Nat), BoundaryInv s.1 → run es s = some s1 →
      BoundaryInv s1.1 := by
  induction es with
  | nil =>
    intro s s1 hinv h
    simp only [run, Option.some.injEq] at h
    rw [← h]; exact hinv
  | cons e es ih =>
    intro s s1 hinv h
    rw [run] at h
    cases hs : step e s with
    | none => simp [hs] at h
    | some s2 =>
      simp only [hs] at h
      obtain ⟨c, rx⟩ := s
      obtain ⟨c2, rx2⟩ := s2
      exact ih (c2, rx2) s1 (step_BoundaryInv e c c2 rx rx2 hinv hs) h

/-- Every state reached from reset satisfies the boundary invariant. -/
theorem reachable_BoundaryInv (mem : Nat → Nat) (rx0 : List Nat) (es : List Event)
    (c : Control) (rx : List Nat) (h : run es (boot mem, rx0) = some (c, rx)) :
    BoundaryInv c :=
  run_BoundaryInv es (boot mem, rx0) (c, rx) (boot_BoundaryInv mem) h


theorem phaseOf_alarm_inv (c : Control) (h : phaseOf c = some .ALARM) :
    c.phaseSwitches = 3 := by
  unfold phaseOf at h
  by_cases h1 : c.phaseSwitches = 1
  · simp [h1] at h
  · by_cases h2 : c.phaseSwitches = 2
    · cases hm : c.motorState <;> simp [h1, h2, hm] at h
    · by_cases h3 : c.phaseSwitches = 3
      · exact h3
      · simp [h1, h2, h3] at h


/-! ## The bytes of a door cycle -/

/-- One door pass sends the next status byte of the cycle at most once, or
ends the cycle with the cycle-complete byte. -/
theorem doorHandler_DoorInv (tx0 : List Nat) (pir : Nat) (c : Control)
    (h : DoorInv tx0 c) :
    DoorInv tx0 (doorHandler pir c)
    ∨ ((doorHandler pir c).phaseSwitches = 1
        ∧ (doorHandler pir c).tx
            = tx0 ++ [OPEN_BYTE, WAIT_BYTE, CLOSE_BYTE, doorState.Done.toByte]) := by
  obtain ⟨hp, hD, htx⟩ := h
  cases hm : c.motorState with
  | OPENING_DOOR =>
    left
    by_cases hs : c.seconds > 15 <;> by_cases hb : c.doorByteSent = 0 <;>
      simp [doorSent, hm, hb] at htx <;>
      simp [doorHandler, hm, hs, hb, UART_sendByte, DcMotor_Rotate, DoorInv, doorSent, hp, htx]
  | WAITING_FOR_PEOPLE =>
    left
    by_cases hs : pir = LOGIC_LOW <;> by_cases hb : c.doorByteSent = 0 <;>
      simp [doorSent, hm, hb] at htx <;>
      simp [doorHandler, hm, hs, hb, UART_sendByte, DcMotor_Rotate, DoorInv, doorSent, hp, htx]
  | CLOSING_DOOR =>
    by_cases hs : c.seconds > 15
    · right
      by_cases hb : c.doorByteSent = 0 <;>
        simp [doorSent, hm, hb] at htx <;>
        simp [doorHandler, hm, hs, hb, UART_sendByte, DcMotor_Rotate, htx]
    · left
      by_cases hb : c.doorByteSent = 0 <;>
        simp [doorSent, hm, hb] at htx <;>
        simp [doorHandler, hm, hs, hb, UART_sendByte, DcMotor_Rotate, DoorInv, doorSent, hp,
          htx]
  | Done => exact absurd hm hD

/-- One step from a state of the door phase. -/
theorem step_DoorInv (tx0 : List Nat) (e : Event) (c c1 : Control) (rx rx1 : List Nat)
    (h : DoorInv tx0 c) (hstep : step e (c, rx) = some (c1, rx1)) :
    DoorInv tx0 c1
    ∨ (c1.phaseSwitches = 1
        ∧ c1.tx = tx0 ++ [OPEN_BYTE, WAIT_BYTE, CLOSE_BYTE, doorState.Done.toByte]) := by
  cases e with
  | tick =>
    left
    simp only [step, Option.some.injEq, Prod.mk.injEq] at hstep
    obtain ⟨s, t, hs⟩ := timerCallBackRuntime_shape c
    rw [← hstep.1, hs]
    exact h
  | iter fault pir =>
    simp only [step, mainIteration] at hstep
    rw [if_neg (by rw [h.1]; decide), if_pos h.1] at hstep
    simp only [Option.some.injEq, Prod.mk.injEq] at hstep
    rw [← hstep.1]
    exact doorHandler_DoorInv tx0 pir { c with iBit := true } h

/-- A run that stays in the door phase until its last event. -/
theorem run_DoorInv (tx0 : List Nat) (es : List Event) :
    ∀ (c c1 : Control) (rx rx1 : List Nat), DoorInv tx0 c →
      staysInDoorPhase es (c, rx) = true → run es (c, rx) = some (c1, rx1) →
      DoorInv tx0 c1
      ∨ (c1.phaseSwitches = 1
          ∧ c1.tx = tx0 ++ [OPEN_BYTE, WAIT_BYTE, CLOSE_BYTE, doorState.Done.toByte]) := by
  induction es with
  | nil =>
    intro c c1 rx rx1 h _ hrun
    simp only [run, Option.some.injEq, Prod.mk.injEq] at hrun
    rw [← hrun.1]
    exact Or.inl h
  | cons e es ih =>
    intro c c1 rx rx1 h hin hrun
    rw [run] at hrun
    rw [staysInDoorPhase] at hin
    cases hs : step e (c, rx) with
    | none => simp [hs] at hrun
    | some s2 =>
      obtain ⟨c2, rx2⟩ := s2
      simp only [hs] at hrun hin
      simp only [Bool.and_eq_true, decide_eq_true_eq] at hin
      rcases step_DoorInv tx0 e c c2 rx rx2 h hs with h2 | h2
      · exact ih c2 c1 rx2 rx1 h2 hin.2 hrun
      · cases es with
        | nil =>
          simp only [run, Option.some.injEq, Prod.mk.injEq] at hrun
          rw [← hrun.1]
          exact Or.inr h2
        | cons e2 es2 =>
          exfalso
          have := hin.2
          rw [staysInDoorPhase] at this
          simp only [Bool.and_eq_true, decide_eq_true_eq] at this
          rw [h2.1] at this
          exact absurd this.1 (by decide)

/-- The pass that enters the door phase leaves the statics of `doorHandler`
as they were. -/
theorem step_enter_door (e : Event) (c c1 : Control) (rx rx1 : List Nat)
    (h : step e (c, rx) = some (c1, rx1)) (hp : c.phaseSwitches = 1)
    (hq : c1.phaseSwitches = 2) :
    c1.doorByteSent = c.doorByteSent ∧ c1.motorState = c.motorState := by
  cases e with
  | tick =>
    exfalso
    simp only [step, Option.some.injEq, Prod.mk.injEq] at h
    rw [← h.1, timerCallBackRuntime_phaseSwitches, hp] at hq
    exact absurd hq (by decide)
  | iter fault pir =>
    simp only [step, mainIteration] at h
    rw [if_pos hp] at h
    rcases passStoreCheck_shape fault { c with iBit := false } c1 rx rx1 h with
      ⟨mem, e⟩ | ⟨cb, dp, e⟩ | ⟨cb, dp, e⟩
    · rw [e]; exact ⟨rfl, rfl⟩
    · rw [e]; exact ⟨rfl, rfl⟩
    · rcases mismatchBranch_shape { c with iBit := false, compareByte := cb, diagPin := dp }
        with ⟨_, e2⟩ | ⟨_, e2⟩
      · rw [e, e2]; exact ⟨rfl, rfl⟩
      · rw [e, e2]; exact ⟨rfl, rfl⟩


/-! ## Blank bytes -/

theorem nonBlank_cons_blank (rx : List Nat) : nonBlank (BLANK :: rx) = nonBlank rx := by
  simp [nonBlank]

theorem nonBlank_cons_of_ne (b : Nat) (rx : List Nat) (hb : b ≠ BLANK) :
    nonBlank (b :: rx) = b :: nonBlank rx := by
  simp [nonBlank, hb]

theorem storeLoop_ge (rx : List Nat) (sl : Nat) (c : Control) (h : 5 ≤ sl) :
    storeLoop rx sl c = some (c, rx) := by
  have : ¬ sl < 5 := by omega
  cases rx <;> simp [storeLoop, this]

theorem verifyLoop_ge (fault : Nat → Bool) (rx : List Nat) (sl : Nat) (c : Control)
    (h : 5 ≤ sl) : verifyLoop fault rx sl c = some (c, 0, rx) := by
  have : ¬ sl < 5 := by omega
  cases rx <;> simp [verifyLoop, this]

/-- The storing loop on any stream with enough non-blank bytes: it returns,
it has consumed the shortest prefix holding the bytes it needs, and the
state is the one after writing those bytes in order. -/
theorem storeLoop_stream (rx : List Nat) :
    ∀ (sl : Nat) (c : Control), sl ≤ 5 → 5 - sl ≤ (nonBlank rx).length →
      ∃ pre rest, rx = pre ++ rest ∧ nonBlank pre = (nonBlank rx).take (5 - sl)
        ∧ storeLoop rx sl c = some (writeFrom sl ((nonBlank rx).take (5 - sl)) c, rest) := by
  induction rx with
  | nil =>
    intro sl c hsl hlen
    have h5 : sl = 5 := by simp [nonBlank] at hlen; omega
    subst h5
    exact ⟨[], [], rfl, by simp [nonBlank], by simp [storeLoop, writeFrom]⟩
  | cons b rx ih =>
    intro sl c hsl hlen
    by_cases h5 : sl = 5
    · subst h5
      refine ⟨[], b :: rx, rfl, by simp [nonBlank], ?_⟩
      rw [storeLoop_ge _ _ _ (le_refl 5)]
      simp [writeFrom]
    · have hlt : sl < 5 := by omega
      by_cases hb : b = BLANK
      · subst hb
        rw [nonBlank_cons_blank] at hlen ⊢
        obtain ⟨pre, rest, hrx, hpre, hrun⟩ := ih sl c hsl hlen
        refine ⟨BLANK :: pre, rest, by rw [hrx]; rfl, by rw [nonBlank_cons_blank]; exact hpre, ?_⟩
        rw [storeLoop]
        simp only [hlt, if_true, ne_eq, not_true_eq_false, if_false]
        exact hrun
      · rw [nonBlank_cons_of_ne b rx hb] at hlen ⊢
        have hlen2 : 5 - (sl + 1) ≤ (nonBlank rx).length := by
          simp only [List.length_cons] at hlen; omega
        obtain ⟨pre, rest, hrx, hpre, hrun⟩ :=
          ih (sl + 1) (EEPROM_writeByte (1 + sl) b c) (by omega) hlen2
        have h5s : 5 - sl = (5 - (sl + 1)) + 1 := by omega
        refine ⟨b :: pre, rest, by rw [hrx]; rfl, ?_, ?_⟩
        · rw [nonBlank_cons_of_ne b pre hb, hpre, h5s, List.take_succ_cons]
        · rw [storeLoop_cons b rx sl c hlt hb, hrun, h5s, List.take_succ_cons]
          rfl

/-- The storing loop sees a stream only through its non-blank bytes, as far
as the resulting state goes. -/
theorem storeLoop_nonBlank (rx : List Nat) :
    ∀ (sl : Nat) (c : Control),
      (storeLoop rx sl c).map Prod.fst = (storeLoop (nonBlank rx) sl c).map Prod.fst := by
  induction rx with
  | nil => intro sl c; rfl
  | cons b rx ih =>
    intro sl c
    by_cases hlt : sl < 5
    · by_cases hb : b = BLANK
      · subst hb
        rw [nonBlank_cons_blank, ← ih sl c, storeLoop]
        simp [hlt]
      · rw [nonBlank_cons_of_ne b rx hb, storeLoop_cons b rx sl c hlt hb,
          storeLoop_cons b (nonBlank rx) sl c hlt hb]
        exact ih (sl + 1) _
    · rw [storeLoop_ge _ _ _ (by omega), storeLoop_ge _ _ _ (by omega)]
      rfl

/-- One turn of the comparison loop on a non-blank byte. -/
theorem verifyLoop_cons_read (fault : Nat → Bool) (b : Nat) (rest : List Nat) (sl : Nat)
    (c : Control) (hlt : sl < 5) (hb : b ≠ BLANK) :
    verifyLoop fault (b :: rest) sl c
      = if b ≠ (afterRead fault sl c).compareByte then
          some (mismatchBranch (afterRead fault sl c), 1, rest)
        else verifyLoop fault rest (sl + 1) (afterRead fault sl c) := by
  rw [verifyLoop]
  simp only [hlt, if_true, ne_eq, hb, not_false_eq_true]
  rfl

/-- The comparison loop sees a stream only through its non-blank bytes, as
far as the resulting state and flag go. -/
theorem verifyLoop_nonBlank (fault : Nat → Bool) (rx : List Nat) :
    ∀ (sl : Nat) (c : Control),
      (verifyLoop fault rx sl c).map (fun r => (r.1, r.2.1))
        = (verifyLoop fault (nonBlank rx) sl c).map (fun r => (r.1, r.2.1)) := by
  induction rx with
  | nil => intro sl c; rfl
  | cons b rx ih =>
    intro sl c
    by_cases hlt : sl < 5
    · by_cases hb : b = BLANK
      · subst hb
        rw [nonBlank_cons_blank, ← ih sl c, verifyLoop]
        simp [hlt]
      · rw [nonBlank_cons_of_ne b rx hb, verifyLoop_cons_read fault b rx sl c hlt hb,
          verifyLoop_cons_read fault b (nonBlank rx) sl c hlt hb]
        by_cases hc : b = (afterRead fault sl c).compareByte
        · simp only [hc, ne_eq, not_true_eq_false, if_false]
          exact ih (sl + 1) _
        · simp only [ne_eq, hc, not_false_eq_true, if_true]
          rfl
    · rw [verifyLoop_ge _ _ _ _ (by omega), verifyLoop_ge _ _ _ _ (by omega)]
      rfl


/-! ## What a verify request consumes -/

theorem getLast?_cons_of_ne_nil (x : Nat) (l : List Nat) (h : l ≠ []) :
    (x :: l).getLast? = l.getLast? := by
  cases l with
  | nil => exact absurd rfl h
  | cons y ys => simp [List.getLast?_cons_cons]

/-- The fault-free comparison loop on any stream with enough non-blank
bytes: it returns after consuming a prefix `pre`; either no byte differed
and `pre` holds exactly the rest of the stored credential, or `pre` ends at
the first byte that differs from the stored one. -/
theorem verifyLoop_stream (rx : List Nat) :
    ∀ (sl : Nat) (c : Control), sl ≤ 5 → 5 - sl ≤ (nonBlank rx).length →
      ∃ pre rest cb, rx = pre ++ rest
        ∧ ((verifyLoop noFault rx sl c = some ({ c with compareByte := cb }, 0, rest)
            ∧ nonBlank pre = (credential c).drop sl)
          ∨ (∃ k b, sl + k < 5
              ∧ nonBlank pre = ((credential c).drop sl).take k ++ [b]
              ∧ b ≠ c.eeprom (1 + (sl + k))
              ∧ pre.getLast? = some b
              ∧ verifyLoop noFault rx sl c
                  = some (mismatchBranch { c with compareByte := cb }, 1, rest))) := by
  induction rx with
  | nil =>
    intro sl c hsl hlen
    have h5 : sl = 5 := by simp [nonBlank] at hlen; omega
    subst h5
    exact ⟨[], [], c.compareByte, rfl, Or.inl ⟨by simp [verifyLoop], by simp [nonBlank, credential]⟩⟩
  | cons x rx ih =>
    intro sl c hsl hlen
    by_cases h5 : sl = 5
    · subst h5
      exact ⟨[], x :: rx, c.compareByte, rfl,
        Or.inl ⟨by rw [verifyLoop_ge _ _ _ _ (le_refl 5)], by simp [nonBlank, credential]⟩⟩
    · have hlt : sl < 5 := by omega
      by_cases hx : x = BLANK
      · subst hx
        rw [nonBlank_cons_blank] at hlen
        obtain ⟨pre, rest, cb, hrx, hcase⟩ := ih sl c hsl hlen
        refine ⟨BLANK :: pre, rest, cb, by rw [hrx]; rfl, ?_⟩
        rw [verifyLoop_blank noFault rx sl c hlt, nonBlank_cons_blank]
        rcases hcase with ⟨hv, hp⟩ | ⟨k, b, hk, hp, hb, hl, hv⟩
        · exact Or.inl ⟨hv, hp⟩
        · refine Or.inr ⟨k, b, hk, hp, hb, ?_, hv⟩
          have hne : pre ≠ [] := by
            intro h0
            rw [h0] at hp
            simp [nonBlank] at hp
          rw [getLast?_cons_of_ne_nil _ _ hne]
          exact hl
      · rw [nonBlank_cons_of_ne x rx hx] at hlen
        by_cases he : x = c.eeprom (1 + sl)
        · have hlen2 : 5 - (sl + 1) ≤ (nonBlank rx).length := by
            simp only [List.length_cons] at hlen; omega
          obtain ⟨pre, rest, cb, hrx, hcase⟩ :=
            ih (sl + 1) { c with compareByte := c.eeprom (1 + sl) } (by omega) hlen2
          have hcred : credential { c with compareByte := c.eeprom (1 + sl) } = credential c :=
            rfl
          rw [hcred] at hcase
          refine ⟨x :: pre, rest, cb, by rw [hrx]; rfl, ?_⟩
          rw [verifyLoop_match x rx sl c hlt hx he, nonBlank_cons_of_ne x pre hx,
            credential_drop c sl hlt]
          rcases hcase with ⟨hv, hp⟩ | ⟨k, b, hk, hp, hb, hl, hv⟩
          · exact Or.inl ⟨hv, by rw [hp, he]⟩
          · refine Or.inr ⟨k + 1, b, by omega, by rw [hp, he]; rfl, ?_, ?_, hv⟩
            · have e : 1 + (sl + (k + 1)) = 1 + (sl + 1 + k) := by omega
              rw [e]
              exact hb
            · have hne : pre ≠ [] := by
                intro h0
                rw [h0] at hp
                simp [nonBlank] at hp
              rw [getLast?_cons_of_ne_nil _ _ hne]
              exact hl
        · refine ⟨[x], rx, c.eeprom (1 + sl), rfl, Or.inr ⟨0, x, by omega, ?_, he, rfl, ?_⟩⟩
          · simp [nonBlank, hx]
          · exact verifyLoop_mismatch x rx sl c hlt hx he


/-! ## Read faults -/

/-- One read changes the compare variable and the diagnostic pin only. -/
theorem afterRead_eq (fault : Nat → Bool) (sl : Nat) (c : Control) :
    afterRead fault sl c
      = { c with compareByte := if fault sl then c.compareByte else c.eeprom (1 + sl),
                 diagPin := c.diagPin || fault sl } := by
  by_cases hf : fault sl = true
  · simp [afterRead, EEPROM_readByte, hf]
  · have hf2 : fault sl = false := by simpa using hf
    simp [afterRead, EEPROM_readByte, hf2]

theorem afterReads_succ_last (fault : Nat → Bool) (n : Nat) :
    ∀ (sl : Nat) (c : Control),
      afterReads fault sl (n + 1) c = afterRead fault (sl + n) (afterReads fault sl n c) := by
  induction n with
  | zero => intro sl c; rfl
  | succ n ih =>
    intro sl c
    have e : sl + (n + 1) = sl + 1 + n := by omega
    rw [afterReads, ih (sl + 1) (afterRead fault sl c), e]
    rfl

/-- Reads change the compare variable and the diagnostic pin only. -/
theorem afterReads_shape (fault : Nat → Bool) (n : Nat) :
    ∀ (sl : Nat) (c : Control),
      ∃ cb dp, afterReads fault sl n c = { c with compareByte := cb, diagPin := dp } := by
  induction n with
  | zero => intro sl c; exact ⟨c.compareByte, c.diagPin, rfl⟩
  | succ n ih =>
    intro sl c
    obtain ⟨cb, dp, h⟩ := ih (sl + 1) (afterRead fault sl c)
    rw [afterReads, h, afterRead_eq]
    exact ⟨cb, dp, rfl⟩

theorem afterReads_eeprom (fault : Nat → Bool) (sl n : Nat) (c : Control) :
    (afterReads fault sl n c).eeprom = c.eeprom := by
  obtain ⟨cb, dp, h⟩ := afterReads_shape fault n sl c
  rw [h]

/-- After `n` reads from position 0 the pin is high when it was high before
or one of the `n` reads faulted. -/
theorem afterReads_diagPin (fault : Nat → Bool) (c : Control) (n : Nat) :
    (afterReads fault 0 n c).diagPin = (c.diagPin || (List.range n).any fault) := by
  induction n with
  | zero => simp [afterReads]
  | succ n ih =>
    rw [afterReads_succ_last, afterRead_eq]
    simp only [Nat.zero_add]
    rw [ih, List.range_succ, List.any_append]
    simp [Bool.or_assoc]

/-- After the read of position `i` the compare variable holds `heldByte`. -/
theorem afterReads_compareByte (fault : Nat → Bool) (c : Control) (i : Nat) :
    (afterReads fault 0 (i + 1) c).compareByte = heldByte fault c i := by
  induction i with
  | zero =>
    rw [afterReads_succ_last, afterRead_eq]
    simp [afterReads, heldByte]
  | succ i ih =>
    rw [afterReads_succ_last, afterRead_eq]
    simp only [Nat.zero_add]
    rw [ih, afterReads_eeprom, heldByte]

/-- The comparison loop on non-blank bytes under any fault pattern: it stops
at the first byte that differs from the compare variable, or compares them
all. -/
theorem verifyLoop_reads (fault : Nat → Bool) (ds rest : List Nat) :
    ∀ (sl : Nat) (c : Control), sl + ds.length = 5 → (∀ b ∈ ds, b ≠ BLANK) →
      (∃ n, n < ds.length
        ∧ (∀ i, i < n → ds[i]? = some (afterReads fault sl (i + 1) c).compareByte)
        ∧ ds[n]? ≠ some (afterReads fault sl (n + 1) c).compareByte
        ∧ verifyLoop fault (ds ++ rest) sl c
            = some (mismatchBranch (afterReads fault sl (n + 1) c), 1,
                ds.drop (n + 1) ++ rest))
      ∨ ((∀ i, i < ds.length → ds[i]? = some (afterReads fault sl (i + 1) c).compareByte)
        ∧ verifyLoop fault (ds ++ rest) sl c
            = some (afterReads fault sl ds.length c, 0, rest)) := by
  induction ds with
  | nil =>
    intro sl c hlen _
    have h5 : sl = 5 := by simpa using hlen
    subst h5
    right
    exact ⟨fun i hi => absurd hi (by simp), by simp [verifyLoop_full, afterReads]⟩
  | cons b ds ih =>
    intro sl c hlen hnb
    have hlt : sl < 5 := by simp at hlen; omega
    have hb : b ≠ BLANK := hnb b (by simp)
    have hnb2 : ∀ x ∈ ds, x ≠ BLANK := fun x hx => hnb x (by simp [hx])
    rw [List.cons_append, verifyLoop_cons_read fault b (ds ++ rest) sl c hlt hb]
    by_cases hc : b = (afterRead fault sl c).compareByte
    · simp only [hc, ne_eq, not_true_eq_false, if_false]
      rcases ih (sl + 1) (afterRead fault sl c) (by simp at hlen; omega) hnb2 with
        ⟨n, hn, hall, hne, hv⟩ | ⟨hall, hv⟩
      · left
        refine ⟨n + 1, by simpa using hn, ?_, ?_, ?_⟩
        · intro i hi
          cases i with
          | zero => simp [afterReads, hc]
          | succ j =>
            have := hall j (by omega)
            simpa [afterReads] using this
        · simpa [afterReads] using hne
        · rw [hv]
          rfl
      · right
        refine ⟨?_, ?_⟩
        · intro i hi
          cases i with
          | zero => simp [afterReads, hc]
          | succ j =>
            have := hall j (by simpa using hi)
            simpa [afterReads] using this
        · rw [hv]
          rfl
    · simp only [ne_eq, hc, not_false_eq_true, if_true]
      left
      refine ⟨0, by simp, fun i hi => absurd hi (by simp), ?_, rfl⟩
      simpa [afterReads] using hc

theorem mismatchBranch_diagPin (c : Control) :
    (mismatchBranch c).diagPin = c.diagPin := by
  rcases mismatchBranch_shape c with ⟨_, e⟩ | ⟨_, e⟩ <;> rw [e]

/-- The comparison loop never drives the diagnostic pin low. -/
theorem verifyLoop_diagPin (fault : Nat → Bool) (rx : List Nat) :
    ∀ (sl : Nat) (c c1 : Control) (flag : Nat) (rest : List Nat),
      verifyLoop fault rx sl c = some (c1, flag, rest) → c.diagPin = true →
      c1.diagPin = true := by
  induction rx with
  | nil =>
    intro sl c c1 flag rest h hd
    rw [verifyLoop] at h
    split_ifs at h
    simp only [Option.some.injEq, Prod.mk.injEq] at h
    rw [← h.1]; exact hd
  | cons b rx ih =>
    intro sl c c1 flag rest h hd
    by_cases hlt : sl < 5
    · by_cases hb : b = BLANK
      · subst hb
        rw [verifyLoop_blank fault rx sl c hlt] at h
        exact ih sl c c1 flag rest h hd
      · rw [verifyLoop_cons_read fault b rx sl c hlt hb] at h
        have hd2 : (afterRead fault sl c).diagPin = true := by
          rw [afterRead_eq]; simp [hd]
        by_cases hc : b = (afterRead fault sl c).compareByte
        · simp only [hc, ne_eq, not_true_eq_false, if_false] at h
          exact ih (sl + 1) _ c1 flag rest h hd2
        · simp only [ne_eq, hc, not_false_eq_true, if_true, Option.some.injEq,
            Prod.mk.injEq] at h
          rw [← h.1, mismatchBranch_diagPin]
          exact hd2
    · rw [verifyLoop_ge fault _ sl c (by omega)] at h
      simp only [Option.some.injEq, Prod.mk.injEq] at h
      rw [← h.1]; exact hd

theorem doorHandler_diagPin (pir : Nat) (c : Control) :
    (doorHandler pir c).diagPin = c.diagPin := by
  cases hm : c.motorState with
  | OPENING_DOOR =>
    by_cases hs : c.seconds > 15 <;> by_cases hb : c.doorByteSent = 0 <;>
      simp [doorHandler, hm, hs, hb, UART_sendByte, DcMotor_Rotate]
  | WAITING_FOR_PEOPLE =>
    by_cases hs : pir = LOGIC_LOW <;> by_cases hb : c.doorByteSent = 0 <;>
      simp [doorHandler, hm, hs, hb, UART_sendByte, DcMotor_Rotate]
  | CLOSING_DOOR =>
    by_cases hs : c.seconds > 15 <;> by_cases hb : c.doorByteSent = 0 <;>
      simp [doorHandler, hm, hs, hb, UART_sendByte, DcMotor_Rotate]
  | Done => simp [doorHandler, hm]

theorem alarmStage_diagPin (c : Control) : (alarmStage c).diagPin = c.diagPin := by
  by_cases hs : c.seconds < 60 <;> by_cases hb : c.alarmByteSent = 0 <;>
    simp [alarmStage, hs, hb, UART_sendByte]

/-- `passStoreCheck` never drives the diagnostic pin low. -/
theorem passStoreCheck_diagPin (fault : Nat → Bool) (c c1 : Control) (rx rest : List Nat)
    (h : passStoreCheck fault c rx = some (c1, rest)) (hd : c.diagPin = true) :
    c1.diagPin = true := by
  cases rx with
  | nil => simp [passStoreCheck] at h
  | cons r rx =>
    by_cases hF : r = BYTE_F
    · subst hF
      rw [passStoreCheck_F] at h
      cases hv : verifyLoop fault rx 0 c with
      | none => simp [hv] at h
      | some res =>
        obtain ⟨c2, flag, rest2⟩ := res
        simp only [hv] at h
        have hd2 := verifyLoop_diagPin fault rx 0 c c2 flag rest2 hv hd
        by_cases hfl : flag = 0
        · simp only [hfl, if_true, Option.some.injEq, Prod.mk.injEq] at h
          rw [← h.1]
          exact hd2
        · simp only [hfl, if_false, Option.some.injEq, Prod.mk.injEq] at h
          rw [← h.1]
          exact hd2
    · by_cases hS : r = BYTE_S
      · subst hS
        simp only [passStoreCheck, hF, if_false, if_true] at h
        obtain ⟨mem, hm⟩ := storeLoop_shape rx 0 c c1 rest h
        rw [hm]; exact hd
      · simp only [passStoreCheck, hF, hS, if_false, Option.some.injEq, Prod.mk.injEq] at h
        rw [← h.1]; exact hd

/-- No step drives the diagnostic pin low. -/
theorem step_diagPin (e : Event) (c c1 : Control) (rx rx1 : List Nat)
    (h : step e (c, rx) = some (c1, rx1)) (hd : c.diagPin = true) : c1.diagPin = true := by
  cases e with
  | tick =>
    simp only [step, Option.some.injEq, Prod.mk.injEq] at h
    obtain ⟨s, t, hs⟩ := timerCallBackRuntime_shape c
    rw [← h.1, hs]; exact hd
  | iter fault pir =>
    simp only [step, mainIteration] at h
    by_cases h1 : c.phaseSwitches = 1
    · rw [if_pos h1] at h
      exact passStoreCheck_diagPin fault { c with iBit := false } c1 rx rx1 h hd
    · rw [if_neg h1] at h
      by_cases h2 : c.phaseSwitches = 2
      · rw [if_pos h2] at h
        simp only [Option.some.injEq, Prod.mk.injEq] at h
        rw [← h.1, doorHandler_diagPin]; exact hd
      · rw [if_neg h2] at h
        by_cases h3 : c.phaseSwitches = 3
        · rw [if_pos h3] at h
          simp only [Option.some.injEq, Prod.mk.injEq] at h
          rw [← h.1, alarmStage_diagPin]; exact hd
        · rw [if_neg h3] at h
          simp only [Option.some.injEq, Prod.mk.injEq] at h
          rw [← h.1]; exact hd

/-- No run drives the diagnostic pin low. -/
theorem run_diagPin (es : List Event) :
    ∀ (s s1 : Control × List Nat), run es s = some s1 → s.1.diagPin = true →
      s1.1.diagPin = true := by
  induction es with
  | nil =>
    intro s s1 h hd
    simp only [run, Option.some.injEq] at h
    rw [← h]; exact hd
  | cons e es ih =>
    intro s s1 h hd
    rw [run] at h
    cases hs : step e s with
    | none => simp [hs] at h
    | some s2 =>
      simp only [hs] at h
      obtain ⟨c, rx⟩ := s
      obtain ⟨c2, rx2⟩ := s2
      exact ih (c2, rx2) s1 h (step_diagPin e c c2 rx rx2 hs hd)


/-! ## The verify exchange between the two nodes -/

/-- The entry loop of `phaseOne` sends nothing, keeps `PhasesSwitch`, and
stores only key values that are at most 9. -/
theorem phaseOneLoop_frame (keys : List Nat) (h : HMI) :
    ∀ (h1 : HMI) (ks : List Nat), phaseOneLoop keys h = some (h1, ks) →
      h1.PhasesSwitch = h.PhasesSwitch ∧ h1.tx = h.tx
      ∧ ((∀ i, h.passSetArr i ≤ 9) → ∀ i, h1.passSetArr i ≤ 9) := by
  induction keys, h using phaseOneLoop.induct with
  | case1 h =>
    intro h1 ks hl
    simp [phaseOneLoop] at hl
  | case2 k h hc =>
    intro h1 ks hl
    simp [phaseOneLoop, hc] at hl
  | case3 k h hc =>
    intro h1 ks hl
    simp only [phaseOneLoop, hc, if_false, Option.some.injEq, Prod.mk.injEq] at hl
    rw [← hl.1]
    exact ⟨rfl, rfl, fun hd => hd⟩
  | case4 k passDigit ks0 h hc hd ih =>
    intro h1 ks hl
    rw [phaseOneLoop, if_pos hc, if_pos hd] at hl
    obtain ⟨g1, g2, g3⟩ := ih h1 ks hl
    refine ⟨g1, g2, fun hall => g3 ?_⟩
    intro i
    by_cases hi : i = h.initialPassLimit
    · simp [hi, hd.1]
    · simp [hi, hall i]
  | case5 k passDigit ks0 h hc hd ih =>
    intro h1 ks hl
    rw [phaseOneLoop, if_pos hc, if_neg hd] at hl
    exact ih h1 ks hl
  | case6 k passDigit ks0 h hc =>
    intro h1 ks hl
    rw [phaseOneLoop, if_neg hc] at hl
    simp only [Option.some.injEq, Prod.mk.injEq] at hl
    rw [← hl.1]
    exact ⟨rfl, rfl, fun hd => hd⟩

theorem sendVerifyMessage_tx (h : HMI) :
    (sendVerifyMessage h).tx = h.tx ++ BYTE_F :: hmiDigits h := by
  simp [sendVerifyMessage, hmiSendByte, hmiDigits]

/-- A call of `phaseOne` in verify mode that goes on to wait for the outcome
has sent `'F'` and its five digits, each at most 9, and nothing else. -/
theorem phaseOneEntry_verify (h h1 : HMI) (keys ks : List Nat)
    (hp : h.PhasesSwitch = 6) (hd : ∀ i, h.passSetArr i ≤ 9)
    (he : phaseOneEntry h keys = some (h1, ks, true)) :
    h1.PhasesSwitch = 6 ∧ h1.tx = h.tx ++ BYTE_F :: hmiDigits h1
    ∧ isDigitMessage (hmiDigits h1) := by
  unfold phaseOneEntry at he
  cases hl : phaseOneLoop keys h with
  | none => simp [hl] at he
  | some r =>
    obtain ⟨h0, ks0⟩ := r
    obtain ⟨g1, g2, g3⟩ := phaseOneLoop_frame keys h h0 ks0 hl
    cases ks0 with
    | nil => simp [hl] at he
    | cons k ks1 =>
      simp only [hl] at he
      by_cases hk : k = KEY_EQ ∧ h0.initialPassLimit = 5
      · rw [if_pos hk, if_pos (by rw [g1]; exact hp)] at he
        simp only [Option.some.injEq, Prod.mk.injEq, and_true] at he
        rw [← he.1]
        refine ⟨by rw [← hp, ← g1]; rfl, ?_, rfl, ?_⟩
        · rw [sendVerifyMessage_tx, g2]
          rfl
        · intro b hb
          have hall := g3 hd
          simp only [hmiDigits, sendVerifyMessage, hmiSendByte, List.mem_cons,
            List.mem_singleton, List.not_mem_nil, or_false] at hb
          rcases hb with e | e | e | e | e <;> rw [e] <;> exact hall _
      · rw [if_neg hk] at he
        simp at he

theorem phaseOneAwait_Z (h : HMI) :
    phaseOneAwait h [BYTE_Z] = some ({ h with initialPassLimit := 0 }, []) := by
  simp [phaseOneAwait, awaitOutcome]

theorem phaseOneAwait_X (h : HMI) :
    phaseOneAwait h [BYTE_X]
      = some ({ h with initialPassLimit := 0, PhasesSwitch := 4 }, []) := by
  have h1 : BYTE_X ≠ BYTE_Z := by decide
  simp [phaseOneAwait, awaitOutcome, h1]

theorem phaseOneAwait_alarm (h : HMI) :
    phaseOneAwait h [Alarm_Byte]
      = some ({ h with initialPassLimit := 0, PhasesSwitch := 5 }, []) := by
  simp [phaseOneAwait, awaitOutcome, Alarm_Byte, Alarm_BYTE, BYTE_Z, BYTE_X]

theorem ctlRun_of_run (es : List Event) (s : Sys) (c1 : Control) (rest bs : List Nat)
    (hr : run es (s.ctl, s.toCtl) = some (c1, rest)) (htx : c1.tx = s.ctl.tx ++ bs) :
    ctlRun es s = some { s with ctl := c1, toCtl := rest, toHmi := s.toHmi ++ bs } := by
  simp [ctlRun, hr, htx]

theorem hmiAwait_of_await (s : Sys) (h1 : HMI) (rest : List Nat)
    (ha : phaseOneAwait s.hmi s.toHmi = some (h1, rest)) :
    hmiAwait s = some { s with hmi := h1, toHmi := rest } := by
  simp [hmiAwait, ha]

theorem run_passes_one (fault : Nat → Bool) (pir : Nat) (s s1 : Control × List Nat)
    (h : step (.iter fault pir) s = some s1) : run (passes 1 fault pir) s = some s1 := by
  have e : passes 1 fault pir = [.iter fault pir] := rfl
  rw [e, run_cons _ _ _ _ h]
  rfl


/-! ## The error count -/

theorem doorHandler_g_error (pir : Nat) (c : Control) :
    (doorHandler pir c).g_error = c.g_error := by
  unfold doorHandler
  cases hm : c.motorState with
  | OPENING_DOOR =>
    by_cases hs : c.seconds > 15 <;> by_cases hb : c.doorByteSent = 0 <;>
      simp [hs, hb, UART_sendByte, DcMotor_Rotate]
  | WAITING_FOR_PEOPLE =>
    by_cases hs : pir = LOGIC_LOW <;> by_cases hb : c.doorByteSent = 0 <;>
      simp [hs, hb, UART_sendByte, DcMotor_Rotate]
  | CLOSING_DOOR =>
    by_cases hs : c.seconds > 15 <;> by_cases hb : c.doorByteSent = 0 <;>
      simp [hs, hb, UART_sendByte, DcMotor_Rotate]
  | Done => rfl

theorem alarmStage_g_error (c : Control) : (alarmStage c).g_error = c.g_error := by
  unfold alarmStage
  by_cases hs : c.seconds < 60 <;> by_cases hb : c.alarmByteSent = 0 <;>
    simp [hs, hb, UART_sendByte]

/-- The mismatch branch keeps an error count of at most 2 at most 2. -/
theorem mismatchBranch_g_error (c : Control) (h : c.g_error ≤ 2) :
    (mismatchBranch c).g_error ≤ 2 := by
  rcases mismatchBranch_shape c with ⟨hne, e⟩ | ⟨_, e⟩
  · rw [e]
    have h1 : (c.g_error + 1) % 256 = c.g_error + 1 := Nat.mod_eq_of_lt (by omega)
    rw [h1] at hne
    show (c.g_error + 1) % 256 ≤ 2
    rw [h1]
    omega
  · rw [e]
    exact Nat.zero_le 2

/-- Every step keeps the error count at most 2. -/
theorem step_g_error (e : Event) (c c1 : Control) (rx rx1 : List Nat)
    (hg : c.g_error ≤ 2) (h : step e (c, rx) = some (c1, rx1)) : c1.g_error ≤ 2 := by
  cases e with
  | tick =>
    simp only [step, Option.some.injEq, Prod.mk.injEq] at h
    obtain ⟨s, t, hs⟩ := timerCallBackRuntime_shape c
    rw [← h.1, hs]
    exact hg
  | iter fault pir =>
    simp only [step, mainIteration] at h
    by_cases h1 : c.phaseSwitches = 1
    · rw [if_pos h1] at h
      rcases passStoreCheck_shape fault { c with iBit := false } c1 rx rx1 h with
        ⟨mem, e⟩ | ⟨cb, dp, e⟩ | ⟨cb, dp, e⟩
      · rw [e]; exact hg
      · rw [e]; exact hg
      · rw [e]
        exact mismatchBranch_g_error _ hg
    · rw [if_neg h1] at h
      by_cases h2 : c.phaseSwitches = 2
      · rw [if_pos h2] at h
        simp only [Option.some.injEq, Prod.mk.injEq] at h
        rw [← h.1, doorHandler_g_error]
        exact hg
      · rw [if_neg h2] at h
        by_cases h3 : c.phaseSwitches = 3
        · rw [if_pos h3] at h
          simp only [Option.some.injEq, Prod.mk.injEq] at h
          rw [← h.1, alarmStage_g_error]
          exact hg
        · rw [if_neg h3] at h
          simp only [Option.some.injEq, Prod.mk.injEq] at h
          rw [← h.1]
          exact hg

/-- The bound on the error count holds along every run that starts with
it. -/
theorem run_g_error (es : List Event) :
    ∀ (s s1 : Control × List Nat), s.1.g_error ≤ 2 → run es s = some s1 →
      s1.1.g_error ≤ 2 := by
  induction es with
  | nil =>
    intro s s1 hinv h
    simp only [run, Option.some.injEq] at h
    rw [← h]; exact hinv
  | cons e es ih =>
    intro s s1 hinv h
    rw [run] at h
    cases hs : step e s with
    | none => simp [hs] at h
    | some s2 =>
      simp only [hs] at h
      obtain ⟨c, rx⟩ := s
      obtain ⟨c2, rx2⟩ := s2
      exact ih (c2, rx2) s1 (step_g_error e c c2 rx rx2 hinv hs) h

/-! ## The entry loops of the HMI node -/

/-- What the entry loop of `phaseOne` can change: the entry count, which is
at least 5 when the loop ends and exactly 5 if it was at most 5 before, and
cells 0 to 4 of `passSetArr`, where it writes only values that are at most
9. -/
theorem phaseOneLoop_shape (keys : List Nat) (h : HMI) :
    ∀ (h1 : HMI) (ks : List Nat), phaseOneLoop keys h = some (h1, ks) →
      h1 = { h with passSetArr := h1.passSetArr, initialPassLimit := h1.initialPassLimit }
      ∧ 5 ≤ h1.initialPassLimit
      ∧ (h.initialPassLimit ≤ 5 → h1.initialPassLimit = 5)
      ∧ (∀ i, h1.passSetArr i = h.passSetArr i ∨ (i < 5 ∧ h1.passSetArr i ≤ 9)) := by
  induction keys, h using phaseOneLoop.induct with
  | case1 h =>
    intro h1 ks hl
    simp [phaseOneLoop] at hl
  | case2 k h hc =>
    intro h1 ks hl
    simp [phaseOneLoop, hc] at hl
  | case3 k h hc =>
    intro h1 ks hl
    simp only [phaseOneLoop, hc, if_false, Option.some.injEq, Prod.mk.injEq] at hl
    rw [← hl.1]
    have h5 : 5 ≤ h.initialPassLimit := by
      by_contra hlt
      exact hc (Or.inr (by omega))
    exact ⟨rfl, h5, fun hle => by omega, fun i => Or.inl rfl⟩
  | case4 k passDigit ks0 h hc hd ih =>
    intro h1 ks hl
    rw [phaseOneLoop, if_pos hc, if_pos hd] at hl
    obtain ⟨g1, g2, g3, g4⟩ := ih h1 ks hl
    have hlt : h.initialPassLimit < 5 := hd.2
    have hmod : (h.initialPassLimit + 1) % 256 = h.initialPassLimit + 1 :=
      Nat.mod_eq_of_lt (by omega)
    refine ⟨?_, g2, fun _ => g3 ?_, ?_⟩
    · rw [g1]
    · show (h.initialPassLimit + 1) % 256 ≤ 5
      rw [hmod]; omega
    · intro i
      rcases g4 i with e | e
      · by_cases hi : i = h.initialPassLimit
        · right
          rw [e]
          simp only [hi, if_true]
          exact ⟨hlt, hd.1⟩
        · left
          rw [e]
          simp only [hi, if_false]
      · exact Or.inr e
  | case5 k passDigit ks0 h hc hd ih =>
    intro h1 ks hl
    rw [phaseOneLoop, if_pos hc, if_neg hd] at hl
    exact ih h1 ks hl
  | case6 k passDigit ks0 h hc =>
    intro h1 ks hl
    rw [phaseOneLoop, if_neg hc] at hl
    simp only [Option.some.injEq, Prod.mk.injEq] at hl
    rw [← hl.1]
    have h5 : 5 ≤ h.initialPassLimit := by
      by_contra hlt
      exact hc (Or.inr (by omega))
    exact ⟨rfl, h5, fun hle => by omega, fun i => Or.inl rfl⟩

/-- What the entry loop of `phaseTwo` can change: cells 0 to 4 of
`passCompareArr`, where it writes only values that are at most 9; the local
count is at least 5 when the loop ends and exactly 5 if it was at most 5
before. -/
theorem phaseTwoLoop_shape (keys : List Nat) (passLimit : Nat) (h : HMI) :
    ∀ (h1 : HMI) (pl : Nat) (ks : List Nat),
      phaseTwoLoop keys passLimit h = some (h1, pl, ks) →
      h1 = { h with passCompareArr := h1.passCompareArr }
      ∧ 5 ≤ pl
      ∧ (passLimit ≤ 5 → pl = 5)
      ∧ (∀ i, h1.passCompareArr i = h.passCompareArr i
          ∨ (i < 5 ∧ h1.passCompareArr i ≤ 9)) := by
  induction keys, passLimit, h using phaseTwoLoop.induct with
  | case1 passLimit h =>
    intro h1 pl ks hl
    simp [phaseTwoLoop] at hl
  | case2 k passLimit h hc =>
    intro h1 pl ks hl
    simp [phaseTwoLoop, hc] at hl
  | case3 k passLimit h hc =>
    intro h1 pl ks hl
    simp only [phaseTwoLoop, hc, if_false, Option.some.injEq, Prod.mk.injEq] at hl
    rw [← hl.1, ← hl.2.1]
    have h5 : 5 ≤ passLimit := by
      by_contra hlt
      exact hc (Or.inr (by omega))
    exact ⟨rfl, h5, fun hle => by omega, fun i => Or.inl rfl⟩
  | case4 k passDigit ks0 passLimit h hc hd ih =>
    intro h1 pl ks hl
    rw [phaseTwoLoop, if_pos hc, if_pos hd] at hl
    obtain ⟨g1, g2, g3, g4⟩ := ih h1 pl ks hl
    have hlt : passLimit < 5 := hd.2
    have hmod : (passLimit + 1) % 256 = passLimit + 1 := Nat.mod_eq_of_lt (by omega)
    refine ⟨?_, g2, fun _ => g3 ?_, ?_⟩
    · rw [g1]
    · rw [hmod]; omega
    · intro i
      rcases g4 i with e | e
      · by_cases hi : i = passLimit
        · right
          rw [e]
          simp only [hi, if_true]
          exact ⟨hlt, hd.1⟩
        · left
          rw [e]
          simp only [hi, if_false]
      · exact Or.inr e
  | case5 k passDigit ks0 passLimit h hc hd ih =>
    intro h1 pl ks hl
    rw [phaseTwoLoop, if_pos hc, if_neg hd] at hl
    exact ih h1 pl ks hl
  | case6 k passDigit ks0 passLimit h hc =>
    intro h1 pl ks hl
    rw [phaseTwoLoop, if_neg hc] at hl
    simp only [Option.some.injEq, Prod.mk.injEq] at hl
    rw [← hl.1, ← hl.2.1]
    have h5 : 5 ≤ passLimit := by
      by_contra hlt
      exact hc (Or.inr (by omega))
    exact ⟨rfl, h5, fun hle => by omega, fun i => Or.inl rfl⟩

theorem turnDigits_cons_digit (k d : Nat) (ts : List (Nat × Nat)) (hd : d ≤ 9) :
    turnDigits ((k, d) :: ts) = d :: turnDigits ts := by
  simp [turnDigits, hd]

theorem turnDigits_cons_other (k d : Nat) (ts : List (Nat × Nat)) (hd : ¬ d ≤ 9) :
    turnDigits ((k, d) :: ts) = turnDigits ts := by
  simp [turnDigits, hd]

/-- Turns of the entry loop of `phaseOne` that leave the count below 5: the
digits read in the loop bodies are written to `passSetArr` from the entry
count on, every other key value is skipped. -/
theorem phaseOneLoop_turns (ts : List (Nat × Nat)) :
    ∀ (h : HMI) (rest : List Nat), h.initialPassLimit + (turnDigits ts).length < 5 →
      phaseOneLoop (turnKeys ts ++ rest) h
        = phaseOneLoop rest
            { h with
                passSetArr := writeDigits h.passSetArr h.initialPassLimit (turnDigits ts)
                initialPassLimit := h.initialPassLimit + (turnDigits ts).length } := by
  induction ts with
  | nil =>
    intro h rest _
    rfl
  | cons t ts ih =>
    intro h rest hlen
    obtain ⟨k, d⟩ := t
    show phaseOneLoop (k :: d :: (turnKeys ts ++ rest)) h = _
    by_cases hd : d ≤ 9
    · rw [turnDigits_cons_digit k d ts hd] at hlen ⊢
      simp only [List.length_cons] at hlen
      have hlt : h.initialPassLimit < 5 := by omega
      have hmod : (h.initialPassLimit + 1) % 256 = h.initialPassLimit + 1 :=
        Nat.mod_eq_of_lt (by omega)
      rw [phaseOneLoop, if_pos (Or.inr hlt), if_pos ⟨hd, hlt⟩, ih _ rest
        (by show (h.initialPassLimit + 1) % 256 + _ < 5; rw [hmod]; omega)]
      simp only [hmod, writeDigits, List.length_cons]
      congr 2
      omega
    · rw [turnDigits_cons_other k d ts hd] at hlen ⊢
      have hlt : h.initialPassLimit < 5 := by omega
      rw [phaseOneLoop, if_pos (Or.inr hlt), if_neg (fun hh => hd hh.1), ih h rest hlen]

/-- Turns of the entry loop of `phaseTwo` that leave the count below 5. -/
theorem phaseTwoLoop_turns (ts : List (Nat × Nat)) :
    ∀ (passLimit : Nat) (h : HMI) (rest : List Nat),
      passLimit + (turnDigits ts).length < 5 →
      phaseTwoLoop (turnKeys ts ++ rest) passLimit h
        = phaseTwoLoop rest (passLimit + (turnDigits ts).length)
            { h with
                passCompareArr := writeDigits h.passCompareArr passLimit (turnDigits ts) } := by
  induction ts with
  | nil =>
    intro passLimit h rest _
    rfl
  | cons t ts ih =>
    intro passLimit h rest hlen
    obtain ⟨k, d⟩ := t
    show phaseTwoLoop (k :: d :: (turnKeys ts ++ rest)) passLimit h = _
    by_cases hd : d ≤ 9
    · rw [turnDigits_cons_digit k d ts hd] at hlen ⊢
      simp only [List.length_cons] at hlen
      have hlt : passLimit < 5 := by omega
      have hmod : (passLimit + 1) % 256 = passLimit + 1 := Nat.mod_eq_of_lt (by omega)
      rw [phaseTwoLoop, if_pos (Or.inr hlt), if_pos ⟨hd, hlt⟩, hmod, ih _ _ rest (by omega)]
      simp only [writeDigits, List.length_cons]
      congr 1
      omega
    · rw [turnDigits_cons_other k d ts hd] at hlen ⊢
      have hlt : passLimit < 5 := by omega
      rw [phaseTwoLoop, if_pos (Or.inr hlt), if_neg (fun hh => hd hh.1), ih _ h rest hlen]

/-- The entry loop of `phaseOne` from an entry count of 0 over turns that
read five digits, the fifth in the last turn, followed by the submit key. -/
theorem phaseOneLoop_five (h : HMI) (pre : List (Nat × Nat)) (k d0 d1 d2 d3 d4 x : Nat)
    (ks : List Nat) (h0 : h.initialPassLimit = 0) (hpre : turnDigits pre = [d0, d1, d2, d3])
    (hd4 : d4 ≤ 9) :
    phaseOneLoop (turnKeys pre ++ k :: d4 :: KEY_EQ :: x :: ks) h
      = some ({ h with passSetArr := writeDigits h.passSetArr 0 [d0, d1, d2, d3, d4]
                       initialPassLimit := 5 }, x :: ks) := by
  rw [phaseOneLoop_turns pre h _ (by rw [h0, hpre]; simp), hpre, h0]
  rw [phaseOneLoop, if_pos (Or.inr (by simp)), if_pos ⟨hd4, by simp⟩]
  rw [phaseOneLoop, if_neg (by simp)]
  rfl

theorem hmiDigits_writeDigits (h : HMI) (arr : Nat → Nat) (n p : Nat) (d0 d1 d2 d3 d4 : Nat) :
    hmiDigits { h with passSetArr := writeDigits arr 0 [d0, d1, d2, d3, d4]
                       initialPassLimit := n, PhasesSwitch := p }
      = [d0, d1, d2, d3, d4] := by
  simp [hmiDigits, writeDigits]

/-- The part of `phaseOne` before the receive, in verify mode, for a
submitted entry of five digits. -/
theorem phaseOneEntry_verify_five (h : HMI) (pre : List (Nat × Nat))
    (k d0 d1 d2 d3 d4 : Nat) (ks : List Nat) (h0 : h.initialPassLimit = 0)
    (hpre : turnDigits pre = [d0, d1, d2, d3]) (hd4 : d4 ≤ 9) (hp : h.PhasesSwitch = 6) :
    phaseOneEntry h (turnKeys pre ++ k :: d4 :: KEY_EQ :: KEY_EQ :: ks)
      = some ({ h with passSetArr := writeDigits h.passSetArr 0 [d0, d1, d2, d3, d4]
                       initialPassLimit := 5
                       tx := h.tx ++ [BYTE_F, d0, d1, d2, d3, d4] }, ks, true) := by
  unfold phaseOneEntry
  rw [phaseOneLoop_five h pre k d0 d1 d2 d3 d4 KEY_EQ ks h0 hpre hd4]
  simp [hp, sendVerifyMessage, hmiSendByte, writeDigits]

/-- The handler `phaseOne` outside verify mode, for a submitted entry of
five digits: nothing is sent and nothing is received. -/
theorem phaseOne_setup_five (h : HMI) (pre : List (Nat × Nat))
    (k d0 d1 d2 d3 d4 : Nat) (ks rx : List Nat) (h0 : h.initialPassLimit = 0)
    (hpre : turnDigits pre = [d0, d1, d2, d3]) (hd4 : d4 ≤ 9) (hp : h.PhasesSwitch ≠ 6) :
    phaseOne h (turnKeys pre ++ k :: d4 :: KEY_EQ :: KEY_EQ :: ks) rx
      = some ({ h with passSetArr := writeDigits h.passSetArr 0 [d0, d1, d2, d3, d4]
                       initialPassLimit := 0
                       PhasesSwitch := 2 }, ks, rx) := by
  unfold phaseOne phaseOneEntry
  rw [phaseOneLoop_five h pre k d0 d1 d2 d3 d4 KEY_EQ ks h0 hpre hd4]
  simp [hp]

/-- Bytes other than the three outcome bytes are received and dropped by the
receive loop of `phaseOne`. -/
theorem awaitOutcome_skip (junk : List Nat) (rx : List Nat) (h : HMI)
    (hj : ∀ b ∈ junk, b ≠ BYTE_Z ∧ b ≠ BYTE_X ∧ b ≠ Alarm_BYTE) :
    awaitOutcome (junk ++ rx) h = awaitOutcome rx h := by
  induction junk with
  | nil => rfl
  | cons b junk ih =>
    obtain ⟨hz, hx, ha⟩ := hj b (by simp)
    show awaitOutcome (b :: (junk ++ rx)) h = _
    rw [awaitOutcome, if_neg hz, if_neg hx, if_neg ha]
    exact ih (fun b hb => hj b (by simp [hb]))

/-- The value of `wrongPass` after the comparison of `phaseTwo`. -/
theorem comparePass_eq (h : HMI) :
    comparePass h = if hmiDigits h = hmiCompareDigits h then 0 else 1 := by
  have hr : List.range 5 = [0, 1, 2, 3, 4] := by decide
  unfold comparePass
  rw [hr]
  simp only [List.foldl, hmiDigits, hmiCompareDigits, List.cons.injEq, and_true]
  by_cases e0 : h.passSetArr 0 = h.passCompareArr 0 <;>
  by_cases e1 : h.passSetArr 1 = h.passCompareArr 1 <;>
  by_cases e2 : h.passSetArr 2 = h.passCompareArr 2 <;>
  by_cases e3 : h.passSetArr 3 = h.passCompareArr 3 <;>
  by_cases e4 : h.passSetArr 4 = h.passCompareArr 4 <;>
  simp [e0, e1, e2, e3, e4]

/-- The entry loop of `phaseTwo` over turns that read five digits, the fifth
in the last turn, followed by the submit key. -/
theorem phaseTwoLoop_five (h : HMI) (pre : List (Nat × Nat)) (k d0 d1 d2 d3 d4 x : Nat)
    (ks : List Nat) (hpre : turnDigits pre = [d0, d1, d2, d3]) (hd4 : d4 ≤ 9) :
    phaseTwoLoop (turnKeys pre ++ k :: d4 :: KEY_EQ :: x :: ks) 0 h
      = some ({ h with passCompareArr := writeDigits h.passCompareArr 0 [d0, d1, d2, d3, d4] },
          5, x :: ks) := by
  rw [phaseTwoLoop_turns pre 0 h _ (by rw [hpre]; simp), hpre]
  rw [phaseTwoLoop, if_pos (Or.inr (by simp)), if_pos ⟨hd4, by simp⟩]
  rw [phaseTwoLoop, if_neg (by simp)]
  rfl

theorem sendStoreMessage_tx (h : HMI) :
    (sendStoreMessage h).tx = h.tx ++ BYTE_S :: hmiDigits h := by
  simp [sendStoreMessage, hmiSendByte, hmiDigits]

/-- The handler `phaseTwo` for a submitted second entry of five digits. -/
theorem phaseTwo_five (h : HMI) (pre : List (Nat × Nat)) (k d0 d1 d2 d3 d4 : Nat)
    (ks : List Nat) (hpre : turnDigits pre = [d0, d1, d2, d3]) (hd4 : d4 ≤ 9) :
    phaseTwo h (turnKeys pre ++ k :: d4 :: KEY_EQ :: KEY_EQ :: ks)
      = if hmiDigits h = [d0, d1, d2, d3, d4] then
          some ({ h with passCompareArr := writeDigits h.passCompareArr 0 [d0, d1, d2, d3, d4]
                         tx := h.tx ++ BYTE_S :: hmiDigits h
                         PhasesSwitch := 3 }, ks)
        else
          some ({ h with passCompareArr := writeDigits h.passCompareArr 0 [d0, d1, d2, d3, d4]
                         PhasesSwitch := 1 }, ks) := by
  unfold phaseTwo
  rw [phaseTwoLoop_five h pre k d0 d1 d2 d3 d4 KEY_EQ ks hpre hd4]
  have hcmp : hmiCompareDigits
      { h with passCompareArr := writeDigits h.passCompareArr 0 [d0, d1, d2, d3, d4] }
      = [d0, d1, d2, d3, d4] := by
    simp [hmiCompareDigits, writeDigits]
  have hset : hmiDigits
      { h with passCompareArr := writeDigits h.passCompareArr 0 [d0, d1, d2, d3, d4] }
      = hmiDigits h := rfl
  simp only [and_self, if_true, comparePass_eq, hcmp, hset]
  by_cases he : hmiDigits h = [d0, d1, d2, d3, d4]
  · rw [if_pos he, if_pos he, if_neg (by decide)]
    simp [sendStoreMessage, hmiSendByte, hmiDigits]
  · rw [if_neg he, if_neg he, if_pos rfl]

/-! ## The dispatch of the HMI main loop -/

theorem hmiPhaseOf_inv (h : HMI) :
    (hmiPhaseOf h = some .SET_OR_REENTER → h.PhasesSwitch = 1 ∨ h.PhasesSwitch = 6)
    ∧ (hmiPhaseOf h = some .CONFIRM → h.PhasesSwitch = 2)
    ∧ (hmiPhaseOf h = some .MENU → h.PhasesSwitch = 3)
    ∧ (hmiPhaseOf h = some .DOOR_STATUS → h.PhasesSwitch = 4)
    ∧ (hmiPhaseOf h = some .LOCKOUT → h.PhasesSwitch = 5) := by
  unfold hmiPhaseOf
  by_cases h16 : h.PhasesSwitch = 1 ∨ h.PhasesSwitch = 6
  · simp [h16]
  · by_cases h2 : h.PhasesSwitch = 2
    · simp [h16, h2]
    · by_cases h3 : h.PhasesSwitch = 3
      · simp [h16, h2, h3]
      · by_cases h4 : h.PhasesSwitch = 4
        · simp [h16, h2, h3, h4]
        · by_cases h5 : h.PhasesSwitch = 5
          · simp [h16, h2, h3, h4, h5]
          · simp [h16, h2, h3, h4, h5]

theorem hmiIteration_one (h : HMI) (keys rx : List Nat)
    (hp : h.PhasesSwitch = 1 ∨ h.PhasesSwitch = 6) :
    hmiIteration h keys rx = phaseOne h keys rx := by
  unfold hmiIteration
  rw [if_pos hp]

theorem hmiIteration_two (h : HMI) (keys rx : List Nat) (hp : h.PhasesSwitch = 2) :
    hmiIteration h keys rx
      = match phaseTwo h keys with
        | none => none
        | some (h1, ks) => some (h1, ks, rx) := by
  unfold hmiIteration
  rw [if_neg (by rw [hp]; decide), if_pos hp]

theorem hmiIteration_three (h : HMI) (keys rx : List Nat) (hp : h.PhasesSwitch = 3) :
    hmiIteration h keys rx
      = match phaseThree h keys with
        | none => none
        | some (h1, ks) => some (h1, ks, rx) := by
  unfold hmiIteration
  rw [if_neg (by rw [hp]; decide), if_neg (by rw [hp]; decide), if_pos hp]

theorem hmiIteration_four (h : HMI) (keys rx : List Nat) (hp : h.PhasesSwitch = 4) :
    hmiIteration h keys rx
      = match phaseFour h rx with
        | none => none
        | some (h1, rest) => some (h1, keys, rest) := by
  unfold hmiIteration
  rw [if_neg (by rw [hp]; decide), if_neg (by rw [hp]; decide), if_neg (by rw [hp]; decide),
    if_pos hp]

theorem hmiIteration_five (h : HMI) (keys rx : List Nat) (hp : h.PhasesSwitch = 5) :
    hmiIteration h keys rx
      = match phaseFive h rx with
        | none => none
        | some (h1, rest) => some (h1, keys, rest) := by
  unfold hmiIteration
  rw [if_neg (by rw [hp]; decide), if_neg (by rw [hp]; decide), if_neg (by rw [hp]; decide),
    if_neg (by rw [hp]; decide), if_pos hp]

/-! ## The entry buffers along the HMI main loop -/

theorem isDigitMessage_hmiDigits (h : HMI) (hd : ∀ i, h.passSetArr i ≤ 9) :
    isDigitMessage (hmiDigits h) := by
  refine ⟨rfl, ?_⟩
  intro b hb
  simp only [hmiDigits, List.mem_cons, List.mem_singleton, List.not_mem_nil, or_false] at hb
  rcases hb with e | e | e | e | e <;> rw [e] <;> exact hd _

theorem awaitOutcome_shape (rx : List Nat) (h : HMI) :
    ∀ (h1 : HMI) (rx1 : List Nat), awaitOutcome rx h = some (h1, rx1) →
      ∃ n p, h1 = { h with initialPassLimit := n, PhasesSwitch := p } := by
  induction rx with
  | nil =>
    intro h1 rx1 ha
    simp [awaitOutcome] at ha
  | cons b rx ih =>
    intro h1 rx1 ha
    rw [awaitOutcome] at ha
    by_cases hz : b = BYTE_Z
    · rw [if_pos hz] at ha
      simp only [Option.some.injEq, Prod.mk.injEq] at ha
      exact ⟨h.initialPassLimit, h.PhasesSwitch, ha.1.symm⟩
    · rw [if_neg hz] at ha
      by_cases hx : b = BYTE_X
      · rw [if_pos hx] at ha
        simp only [Option.some.injEq, Prod.mk.injEq] at ha
        exact ⟨0, 4, ha.1.symm⟩
      · rw [if_neg hx] at ha
        by_cases hd : b = Alarm_BYTE
        · rw [if_pos hd] at ha
          simp only [Option.some.injEq, Prod.mk.injEq] at ha
          exact ⟨0, 5, ha.1.symm⟩
        · rw [if_neg hd] at ha
          exact ih h1 rx1 ha

theorem phaseOneAwait_shape (rx : List Nat) (h h1 : HMI) (rx1 : List Nat)
    (ha : phaseOneAwait h rx = some (h1, rx1)) :
    ∃ p, h1 = { h with initialPassLimit := 0, PhasesSwitch := p } := by
  unfold phaseOneAwait at ha
  cases hw : awaitOutcome rx h with
  | none => simp [hw] at ha
  | some r =>
    obtain ⟨h2, rx2⟩ := r
    simp only [hw, Option.some.injEq, Prod.mk.injEq] at ha
    obtain ⟨n, p, e⟩ := awaitOutcome_shape rx h h2 rx2 hw
    refine ⟨p, ?_⟩
    rw [← ha.1, e]

/-- The entry loop of `phaseOne` keeps `HMIInv`, and the cells from index 5
on. -/
theorem phaseOneLoop_inv (keys : List Nat) (h h0 : HMI) (ks : List Nat) (hinv : HMIInv h)
    (hl : phaseOneLoop keys h = some (h0, ks)) :
    h0.initialPassLimit = 5 ∧ (∀ i, h0.passSetArr i ≤ 9)
    ∧ h0.passCompareArr = h.passCompareArr ∧ h0.tx = h.tx
    ∧ h0.PhasesSwitch = h.PhasesSwitch
    ∧ (∀ i, 5 ≤ i → h0.passSetArr i = h.passSetArr i) := by
  obtain ⟨g1, _, g3, g4⟩ := phaseOneLoop_shape keys h h0 ks hl
  refine ⟨g3 hinv.1, ?_, by rw [g1], by rw [g1], by rw [g1], ?_⟩
  · intro i
    rcases g4 i with e | e
    · rw [e]; exact hinv.2.1 i
    · exact e.2
  · intro i hi
    rcases g4 i with e | e
    · exact e
    · omega

/-- A call of `phaseOne` from a state with `HMIInv`. -/
theorem phaseOne_step (h h1 : HMI) (keys rx ks rx1 : List Nat) (hinv : HMIInv h)
    (hc : phaseOne h keys rx = some (h1, ks, rx1)) : HMIStep h h1 := by
  unfold phaseOne phaseOneEntry at hc
  cases hl : phaseOneLoop keys h with
  | none => simp [hl] at hc
  | some r =>
    obtain ⟨h0, ks0⟩ := r
    obtain ⟨f1, f2, f3, f4, f5, f6⟩ := phaseOneLoop_inv keys h h0 ks0 hinv hl
    have hcmp : ∀ i, h0.passCompareArr i ≤ 9 := by rw [f3]; exact hinv.2.2
    cases ks0 with
    | nil => simp [hl] at hc
    | cons k ks1 =>
      simp only [hl] at hc
      by_cases hk : k = KEY_EQ ∧ h0.initialPassLimit = 5
      · rw [if_pos hk] at hc
        by_cases h6 : h0.PhasesSwitch = 6
        · rw [if_pos h6] at hc
          simp only at hc
          cases ha : phaseOneAwait (sendVerifyMessage h0) rx with
          | none => simp [ha] at hc
          | some r2 =>
            obtain ⟨h2, rx2⟩ := r2
            simp only [ha, Option.some.injEq, Prod.mk.injEq] at hc
            obtain ⟨p, e⟩ := phaseOneAwait_shape rx _ h2 rx2 ha
            rw [← hc.1, e]
            refine ⟨⟨Nat.zero_le 5, f2, hcmp⟩, ⟨BYTE_F :: hmiDigits h0, ?_, ?_⟩, ?_⟩
            · show (sendVerifyMessage h0).tx = _
              rw [sendVerifyMessage_tx, f4]
            · exact Or.inr (Or.inr (Or.inr ⟨hmiDigits h0, isDigitMessage_hmiDigits h0 f2,
                Or.inl rfl⟩))
            · intro i hi
              exact ⟨f6 i hi, by show h0.passCompareArr i = _; rw [f3]⟩
        · rw [if_neg h6] at hc
          simp only [Option.some.injEq, Prod.mk.injEq] at hc
          rw [← hc.1]
          refine ⟨⟨Nat.zero_le 5, f2, hcmp⟩, ⟨[], ?_, Or.inl rfl⟩, ?_⟩
          · show h0.tx = _
            rw [f4, List.append_nil]
          · intro i hi
            exact ⟨f6 i hi, by show h0.passCompareArr i = _; rw [f3]⟩
      · rw [if_neg hk] at hc
        simp only [Option.some.injEq, Prod.mk.injEq] at hc
        rw [← hc.1]
        refine ⟨⟨by omega, f2, hcmp⟩, ⟨[], ?_, Or.inl rfl⟩, ?_⟩
        · rw [f4, List.append_nil]
        · intro i hi
          exact ⟨f6 i hi, by rw [f3]⟩

/-- A call of `phaseTwo` from a state with `HMIInv`. -/
theorem phaseTwo_step (h h1 : HMI) (keys ks : List Nat) (hinv : HMIInv h)
    (hc : phaseTwo h keys = some (h1, ks)) : HMIStep h h1 := by
  unfold phaseTwo at hc
  cases hl : phaseTwoLoop keys 0 h with
  | none => simp [hl] at hc
  | some r =>
    obtain ⟨h0, pl, ks0⟩ := r
    obtain ⟨g1, _, _, g4⟩ := phaseTwoLoop_shape keys 0 h h0 pl ks0 hl
    have f2 : ∀ i, h0.passCompareArr i ≤ 9 := by
      intro i
      rcases g4 i with e | e
      · rw [e]; exact hinv.2.2 i
      · exact e.2
    have f3 : h0.passSetArr = h.passSetArr := by rw [g1]
    have f4 : h0.tx = h.tx := by rw [g1]
    have f5 : h0.initialPassLimit = h.initialPassLimit := by rw [g1]
    have f6 : ∀ i, 5 ≤ i → h0.passCompareArr i = h.passCompareArr i := by
      intro i hi
      rcases g4 i with e | e
      · exact e
      · omega
    have hset : ∀ i, h0.passSetArr i ≤ 9 := by rw [f3]; exact hinv.2.1
    have hfr : ∀ i, 5 ≤ i →
        h0.passSetArr i = h.passSetArr i ∧ h0.passCompareArr i = h.passCompareArr i :=
      fun i hi => ⟨by rw [f3], f6 i hi⟩
    cases ks0 with
    | nil => simp [hl] at hc
    | cons k ks1 =>
      simp only [hl] at hc
      by_cases hk : k = KEY_EQ ∧ pl = 5
      · rw [if_pos hk] at hc
        by_cases hw : comparePass h0 = 1
        · rw [if_pos hw] at hc
          simp only [Option.some.injEq, Prod.mk.injEq] at hc
          rw [← hc.1]
          refine ⟨⟨?_, hset, f2⟩, ⟨[], ?_, Or.inl rfl⟩, hfr⟩
          · show h0.initialPassLimit ≤ 5
            rw [f5]; exact hinv.1
          · show h0.tx = _
            rw [f4, List.append_nil]
        · rw [if_neg hw] at hc
          simp only [Option.some.injEq, Prod.mk.injEq] at hc
          rw [← hc.1]
          refine ⟨⟨?_, hset, f2⟩, ⟨BYTE_S :: hmiDigits h0, ?_, ?_⟩, hfr⟩
          · show h0.initialPassLimit ≤ 5
            rw [f5]; exact hinv.1
          · show (sendStoreMessage h0).tx = _
            rw [sendStoreMessage_tx, f4]
          · exact Or.inr (Or.inr (Or.inr ⟨hmiDigits h0, isDigitMessage_hmiDigits h0 hset,
              Or.inr rfl⟩))
      · rw [if_neg hk] at hc
        simp only [Option.some.injEq, Prod.mk.injEq] at hc
        rw [← hc.1]
        refine ⟨⟨by rw [f5]; exact hinv.1, hset, f2⟩, ⟨[], ?_, Or.inl rfl⟩, hfr⟩
        rw [f4, List.append_nil]

/-- A call of `phaseThree` from a state with `HMIInv`. -/
theorem phaseThree_step (h h1 : HMI) (keys ks : List Nat) (hinv : HMIInv h)
    (hc : phaseThree h keys = some (h1, ks)) : HMIStep h h1 := by
  unfold phaseThree at hc
  cases keys with
  | nil => simp at hc
  | cons k ks0 =>
    simp only at hc
    by_cases hk : k = KEY_PLUS
    · rw [if_pos hk] at hc
      simp only [Option.some.injEq, Prod.mk.injEq] at hc
      rw [← hc.1]
      exact ⟨hinv, ⟨[KEY_PLUS], rfl, Or.inr (Or.inl rfl)⟩, fun _ _ => ⟨rfl, rfl⟩⟩
    · rw [if_neg hk] at hc
      cases ks0 with
      | nil => simp at hc
      | cons k2 ks2 =>
        simp only at hc
        by_cases hk2 : k2 = KEY_MINUS
        · rw [if_pos hk2] at hc
          simp only [Option.some.injEq, Prod.mk.injEq] at hc
          rw [← hc.1]
          exact ⟨hinv, ⟨[KEY_MINUS], rfl, Or.inr (Or.inr (Or.inl rfl))⟩,
            fun _ _ => ⟨rfl, rfl⟩⟩
        · rw [if_neg hk2] at hc
          simp only [Option.some.injEq, Prod.mk.injEq] at hc
          rw [← hc.1]
          exact ⟨hinv, ⟨[], (List.append_nil _).symm, Or.inl rfl⟩, fun _ _ => ⟨rfl, rfl⟩⟩

/-- A call of `phaseFour` changes `PhasesSwitch` at most. -/
theorem phaseFour_shape (h h1 : HMI) (rx rx1 : List Nat)
    (hc : phaseFour h rx = some (h1, rx1)) : ∃ p, h1 = { h with PhasesSwitch := p } := by
  unfold phaseFour at hc
  cases rx with
  | nil => simp at hc
  | cons b rest =>
    simp only at hc
    split_ifs at hc <;> simp only [Option.some.injEq, Prod.mk.injEq] at hc
    · exact ⟨h.PhasesSwitch, hc.1.symm⟩
    · exact ⟨h.PhasesSwitch, hc.1.symm⟩
    · exact ⟨h.PhasesSwitch, hc.1.symm⟩
    · exact ⟨3, hc.1.symm⟩

/-- A call of `phaseFive` changes `PhasesSwitch` and the indicator bit at
most. -/
theorem phaseFive_shape (h h1 : HMI) (rx rx1 : List Nat)
    (hc : phaseFive h rx = some (h1, rx1)) :
    ∃ p, h1 = { h with PhasesSwitch := p, portA0 := !h.portA0 } := by
  unfold phaseFive at hc
  cases rx with
  | nil => simp at hc
  | cons b rest =>
    simp only [TOGGLE_BIT_PORTA0] at hc
    split_ifs at hc <;> simp only [Option.some.injEq, Prod.mk.injEq] at hc
    · exact ⟨3, hc.1.symm⟩
    · exact ⟨h.PhasesSwitch, hc.1.symm⟩

/-- One pass of the HMI main loop from a state with `HMIInv`. -/
theorem hmiIteration_step (h h1 : HMI) (keys rx ks rx1 : List Nat) (hinv : HMIInv h)
    (hc : hmiIteration h keys rx = some (h1, ks, rx1)) : HMIStep h h1 := by
  unfold hmiIteration at hc
  have hsame : HMIStep h h :=
    ⟨hinv, ⟨[], (List.append_nil _).symm, Or.inl rfl⟩, fun _ _ => ⟨rfl, rfl⟩⟩
  by_cases h16 : h.PhasesSwitch = 1 ∨ h.PhasesSwitch = 6
  · rw [if_pos h16] at hc
    exact phaseOne_step h h1 keys rx ks rx1 hinv hc
  · rw [if_neg h16] at hc
    by_cases h2 : h.PhasesSwitch = 2
    · rw [if_pos h2] at hc
      cases hp : phaseTwo h keys with
      | none => simp [hp] at hc
      | some r =>
        obtain ⟨h0, ks0⟩ := r
        simp only [hp, Option.some.injEq, Prod.mk.injEq] at hc
        rw [← hc.1]
        exact phaseTwo_step h h0 keys ks0 hinv hp
    · rw [if_neg h2] at hc
      by_cases h3 : h.PhasesSwitch = 3
      · rw [if_pos h3] at hc
        cases hp : phaseThree h keys with
        | none => simp [hp] at hc
        | some r =>
          obtain ⟨h0, ks0⟩ := r
          simp only [hp, Option.some.injEq, Prod.mk.injEq] at hc
          rw [← hc.1]
          exact phaseThree_step h h0 keys ks0 hinv hp
      · rw [if_neg h3] at hc
        by_cases h4 : h.PhasesSwitch = 4
        · rw [if_pos h4] at hc
          cases hp : phaseFour h rx with
          | none => simp [hp] at hc
          | some r =>
            obtain ⟨h0, rx0⟩ := r
            simp only [hp, Option.some.injEq, Prod.mk.injEq] at hc
            obtain ⟨p, e⟩ := phaseFour_shape h h0 rx rx0 hp
            rw [← hc.1, e]
            exact ⟨hinv, ⟨[], (List.append_nil _).symm, Or.inl rfl⟩, fun _ _ => ⟨rfl, rfl⟩⟩
        · rw [if_neg h4] at hc
          by_cases h5 : h.PhasesSwitch = 5
          · rw [if_pos h5] at hc
            cases hp : phaseFive h rx with
            | none => simp [hp] at hc
            | some r =>
              obtain ⟨h0, rx0⟩ := r
              simp only [hp, Option.some.injEq, Prod.mk.injEq] at hc
              obtain ⟨p, e⟩ := phaseFive_shape h h0 rx rx0 hp
              rw [← hc.1, e]
              exact ⟨hinv, ⟨[], (List.append_nil _).symm, Or.inl rfl⟩,
                fun _ _ => ⟨rfl, rfl⟩⟩
          · rw [if_neg h5] at hc
            simp only [Option.some.injEq, Prod.mk.injEq] at hc
            rw [← hc.1]
            exact hsame

theorem hmiBoot_HMIInv : HMIInv hmiBoot :=
  ⟨Nat.zero_le 5, fun _ => Nat.zero_le 9, fun _ => Nat.zero_le 9⟩

/-- `HMIInv` holds along every run of the HMI main loop that starts with it,
and the cells of the two arrays from index 5 on are never written. -/
theorem hmiRun_inv (n : Nat) :
    ∀ (s s1 : HMI × List Nat × List Nat), HMIInv s.1 → hmiRun n s = some s1 →
      HMIInv s1.1
      ∧ ∀ i, 5 ≤ i → s1.1.passSetArr i = s.1.passSetArr i
          ∧ s1.1.passCompareArr i = s.1.passCompareArr i := by
  induction n with
  | zero =>
    intro s s1 hinv hr
    simp only [hmiRun, Option.some.injEq] at hr
    rw [← hr]
    exact ⟨hinv, fun _ _ => ⟨rfl, rfl⟩⟩
  | succ n ih =>
    intro s s1 hinv hr
    rw [hmiRun] at hr
    cases hs : hmiIteration s.1 s.2.1 s.2.2 with
    | none => simp [hs] at hr
    | some s2 =>
      simp only [hs] at hr
      obtain ⟨h2, ks2, rx2⟩ := s2
      obtain ⟨a1, _, a3⟩ := hmiIteration_step s.1 h2 s.2.1 s.2.2 ks2 rx2 hinv hs
      obtain ⟨b1, b2⟩ := ih (h2, ks2, rx2) s1 a1 hr
      refine ⟨b1, fun i hi => ?_⟩
      obtain ⟨c1, c2⟩ := b2 i hi
      obtain ⟨c3, c4⟩ := a3 i hi
      exact ⟨c1.trans c3, c2.trans c4⟩

/-! ## UART_receiveString below the range of its index -/

theorem storeFrom_apply (bs : List Nat) :
    ∀ (n : Nat) (Str : Nat → Nat) (j : Nat),
      storeFrom Str n bs j
        = if n ≤ j ∧ j < n + bs.length then bs.getD (j - n) 0 else Str j := by
  induction bs with
  | nil =>
    intro n Str j
    have : ¬ (n ≤ j ∧ j < n + ([] : List Nat).length) := by
      simp only [List.length_nil]
      omega
    rw [if_neg this]
    rfl
  | cons b bs ih =>
    intro n Str j
    rw [storeFrom, ih]
    by_cases hj : j = n
    · subst hj
      rw [if_neg (by omega), if_pos (by simp)]
      simp [storeAt]
    · by_cases hin : n + 1 ≤ j ∧ j < n + 1 + bs.length
      · rw [if_pos hin, if_pos (by simp only [List.length_cons]; omega)]
        have e : j - n = (j - (n + 1)) + 1 := by omega
        rw [e, List.getD_cons_succ]
      · rw [if_neg hin, if_neg (by simp only [List.length_cons]; omega)]
        simp [storeAt, hj]

theorem receiveLoop_done (rx : List Nat) (i : Nat) (Str : Nat → Nat)
    (h : Str i = BYTE_HASH) : receiveLoop rx i Str = some (Str, i, rx) := by
  cases rx <;> simp [receiveLoop, h]

/-- The loop of `UART_receiveString` over bytes without `'#'` followed by
`'#'`, while the index stays below 256. -/
theorem receiveLoop_short (l : List Nat) :
    ∀ (i : Nat) (Str : Nat → Nat) (rest : List Nat), Str i ≠ BYTE_HASH → BYTE_HASH ∉ l →
      i + l.length + 1 < 256 →
      receiveLoop (l ++ BYTE_HASH :: rest) i Str
        = some (storeFrom Str (i + 1) (l ++ [BYTE_HASH]), i + l.length + 1, rest) := by
  induction l with
  | nil =>
    intro i Str rest hi _ hlen
    simp only [List.length_nil] at hlen
    have hmod : (i + 1) % 256 = i + 1 := Nat.mod_eq_of_lt (by omega)
    show receiveLoop (BYTE_HASH :: rest) i Str = _
    rw [receiveLoop, if_pos hi, hmod, receiveLoop_done rest (i + 1) _ (by simp [storeAt])]
    rfl
  | cons b l ih =>
    intro i Str rest hi hn hlen
    simp only [List.length_cons] at hlen
    have hmod : (i + 1) % 256 = i + 1 := Nat.mod_eq_of_lt (by omega)
    have hb : b ≠ BYTE_HASH := fun e => hn (by simp [e])
    show receiveLoop (b :: (l ++ BYTE_HASH :: rest)) i Str = _
    rw [receiveLoop, if_pos hi, hmod,
      ih (i + 1) _ rest (by simp [storeAt, hb]) (fun hm => hn (by simp [hm])) (by omega)]
    have e : i + 1 + l.length + 1 = i + (l.length + 1) + 1 := by omega
    simp only [List.length_cons, List.cons_append, storeFrom, e]
    rfl

/-- For fewer than 256 bytes before the first `'#'`, `UART_receiveString`
stores them in order from offset 0, puts `'\0'` in place of the `'#'`, leaves
the rest of the buffer as it was and consumes the link up to and including
that `'#'`. -/
theorem UART_receiveString_short (pre rest : List Nat) (Str : Nat → Nat)
    (hn : BYTE_HASH ∉ pre) (hl : pre.length < 256) :
    ∃ Str1, UART_receiveString (pre ++ BYTE_HASH :: rest) Str = some (Str1, rest)
      ∧ ∀ j, Str1 j
          = if j < pre.length then pre.getD j 0 else if j = pre.length then 0 else Str j := by
  have key : UART_receiveString (pre ++ BYTE_HASH :: rest) Str
      = some (storeAt (storeFrom Str 0 (pre ++ [BYTE_HASH])) pre.length 0, rest) := by
    cases pre with
    | nil =>
      show UART_receiveString (BYTE_HASH :: rest) Str = _
      simp only [UART_receiveString]
      rw [receiveLoop_done rest 0 _ (by simp [storeAt])]
      rfl
    | cons b l =>
      have hb : b ≠ BYTE_HASH := fun e => hn (by simp [e])
      simp only [List.length_cons] at hl
      show UART_receiveString (b :: (l ++ BYTE_HASH :: rest)) Str = _
      simp only [UART_receiveString]
      rw [receiveLoop_short l 0 _ rest (by simp [storeAt, hb]) (fun hm => hn (by simp [hm]))
        (by omega)]
      simp only [List.length_cons, List.cons_append, storeFrom, Nat.zero_add]
      rfl
  refine ⟨_, key, ?_⟩
  intro j
  by_cases h1 : j < pre.length
  · rw [if_pos h1]
    have hne : j ≠ pre.length := by omega
    simp only [storeAt, if_neg hne]
    rw [storeFrom_apply, if_pos (by simp only [List.length_append, List.length_singleton]; omega)]
    simp only [Nat.sub_zero]
    rw [List.getD_append _ _ _ _ h1]
  · rw [if_neg h1]
    by_cases h2 : j = pre.length
    · rw [if_pos h2]
      simp [storeAt, h2]
    · rw [if_neg h2]
      simp only [storeAt, if_neg h2]
      rw [storeFrom_apply,
        if_neg (by simp only [List.length_append, List.length_singleton]; omega)]

/-! ## The alarm flag and the timer context -/

/-- The tick callback leaves the alarm flag and takes the timer context
`Done` to `OPENING_DOOR`, keeping every other context. -/
theorem timerCallBackRuntime_context (c : Control) :
    (timerCallBackRuntime c).alarmState = c.alarmState
    ∧ (timerCallBackRuntime c).timerState
        = (if c.timerState = .Done then .OPENING_DOOR else c.timerState) := by
  unfold timerCallBackRuntime
  cases ht : c.timerState <;> by_cases h : c.alarmState = 255 <;> simp [h]

theorem boot_AlarmInv (mem : Nat → Nat) : AlarmInv (boot mem) :=
  ⟨fun _ => rfl, fun _ => Or.inl rfl⟩

/-- Every step keeps `AlarmInv`. -/
theorem step_AlarmInv (e : Event) (c c1 : Control) (rx rx1 : List Nat)
    (hinv : AlarmInv c) (h : step e (c, rx) = some (c1, rx1)) : AlarmInv c1 := by
  obtain ⟨hA, hT⟩ := hinv
  cases e with
  | tick =>
    simp only [step, Option.some.injEq, Prod.mk.injEq] at h
    obtain ⟨ha, ht⟩ := timerCallBackRuntime_context c
    rw [← h.1]
    refine ⟨?_, ?_⟩
    · rw [timerCallBackRuntime_phaseSwitches, ha]
      exact hA
    · rw [timerCallBackRuntime_phaseSwitches, ht]
      intro hp
      rcases hT hp with e | e
      · left; simp [e]
      · left; simp [e]
  | iter fault pir =>
    simp only [step, mainIteration] at h
    by_cases h1 : c.phaseSwitches = 1
    · rw [if_pos h1] at h
      have ha0 : c.alarmState = 0 := hA (by rw [h1]; decide)
      have ht0 : c.timerState = .OPENING_DOOR ∨ c.timerState = .Done :=
        hT (by rw [h1]; decide)
      rcases passStoreCheck_shape fault { c with iBit := false } c1 rx rx1 h with
        ⟨mem, e⟩ | ⟨cb, dp, e⟩ | ⟨cb, dp, e⟩
      · rw [e]
        exact ⟨fun _ => ha0, fun _ => ht0⟩
      · rw [e]
        exact ⟨fun _ => ha0, fun hp => absurd rfl hp⟩
      · rcases mismatchBranch_shape { c with iBit := false, compareByte := cb, diagPin := dp }
          with ⟨_, e2⟩ | ⟨_, e2⟩
        · rw [e, e2]
          exact ⟨fun _ => ha0, fun _ => ht0⟩
        · rw [e, e2]
          exact ⟨fun hp => absurd rfl hp, fun _ => ht0⟩
    · rw [if_neg h1] at h
      by_cases h2 : c.phaseSwitches = 2
      · rw [if_pos h2] at h
        simp only [Option.some.injEq, Prod.mk.injEq] at h
        have ha0 : c.alarmState = 0 := hA (by rw [h2]; decide)
        rw [← h.1]
        cases hm : c.motorState with
        | OPENING_DOOR =>
          by_cases hs : c.seconds > 15 <;> by_cases hb : c.doorByteSent = 0 <;>
            simp [AlarmInv, doorHandler, hm, hs, hb, UART_sendByte, DcMotor_Rotate, ha0, h2]
        | WAITING_FOR_PEOPLE =>
          by_cases hs : pir = LOGIC_LOW <;> by_cases hb : c.doorByteSent = 0 <;>
            simp [AlarmInv, doorHandler, hm, hs, hb, UART_sendByte, DcMotor_Rotate, ha0, h2]
        | CLOSING_DOOR =>
          by_cases hs : c.seconds > 15 <;> by_cases hb : c.doorByteSent = 0 <;>
            simp [AlarmInv, doorHandler, hm, hs, hb, UART_sendByte, DcMotor_Rotate, ha0, h2]
        | Done =>
          simp [AlarmInv, doorHandler, hm, ha0, h2]
      · rw [if_neg h2] at h
        have ht0 : c.timerState = .OPENING_DOOR ∨ c.timerState = .Done := hT h2
        by_cases h3 : c.phaseSwitches = 3
        · rw [if_pos h3] at h
          simp only [Option.some.injEq, Prod.mk.injEq] at h
          rw [← h.1]
          by_cases hs : c.seconds < 60
          · simp only [alarmStage, hs, if_true]
            exact ⟨fun hp => absurd h3 hp, fun _ => ht0⟩
          · by_cases hb : c.alarmByteSent = 0
            · simp only [alarmStage, hs, if_false, hb, if_true, UART_sendByte]
              exact ⟨fun _ => rfl, fun _ => ht0⟩
            · simp only [alarmStage, hs, if_false, hb]
              exact ⟨fun _ => rfl, fun _ => ht0⟩
        · rw [if_neg h3] at h
          simp only [Option.some.injEq, Prod.mk.injEq] at h
          rw [← h.1]
          exact ⟨hA, hT⟩

/-- `AlarmInv` holds along every run that starts with it. -/
theorem run_AlarmInv (es : List Event) :
    ∀ (s s1 : Control × List Nat), AlarmInv s.1 → run es s = some s1 → AlarmInv s1.1 := by
  induction es with
  | nil =>
    intro s s1 hinv h
    simp only [run, Option.some.injEq] at h
    rw [← h]; exact hinv
  | cons e es ih =>
    intro s s1 hinv h
    rw [run] at h
    cases hs : step e s with
    | none => simp [hs] at h
    | some s2 =>
      simp only [hs] at h
      obtain ⟨c, rx⟩ := s
      obtain ⟨c2, rx2⟩ := s2
      exact ih (c2, rx2) s1 (step_AlarmInv e c c2 rx rx2 hinv hs) h

/-! ## A Verify request and the store -/

/-- The comparison loop returns, for every read-fault pattern, when the link
holds the non-blank bytes it still needs. -/
theorem verifyLoop_returns (fault : Nat → Bool) (rx : List Nat) :
    ∀ (sl : Nat) (c : Control), 5 - sl ≤ (nonBlank rx).length →
      ∃ r, verifyLoop fault rx sl c = some r := by
  induction rx with
  | nil =>
    intro sl c hlen
    have h5 : 5 ≤ sl := by simp [nonBlank] at hlen; omega
    exact ⟨_, verifyLoop_ge fault [] sl c h5⟩
  | cons b rx ih =>
    intro sl c hlen
    by_cases hlt : sl < 5
    · by_cases hb : b = BLANK
      · subst hb
        rw [nonBlank_cons_blank] at hlen
        obtain ⟨r, hr⟩ := ih sl c hlen
        refine ⟨r, ?_⟩
        rw [verifyLoop]
        simp only [hlt, if_true, ne_eq, not_true_eq_false, if_false]
        exact hr
      · rw [nonBlank_cons_of_ne b rx hb] at hlen
        simp only [List.length_cons] at hlen
        rw [verifyLoop_cons_read fault b rx sl c hlt hb]
        by_cases hne : b ≠ (afterRead fault sl c).compareByte
        · rw [if_pos hne]
          exact ⟨_, rfl⟩
        · rw [if_neg hne]
          exact ih (sl + 1) _ (by omega)
    · exact ⟨_, verifyLoop_ge fault (b :: rx) sl c (by omega)⟩

theorem mismatchBranch_eeprom (c : Control) : (mismatchBranch c).eeprom = c.eeprom := by
  rcases mismatchBranch_shape c with ⟨_, e⟩ | ⟨_, e⟩ <;> rw [e]

/-- What a Verify request leaves: the store as it was and exactly one of
the three outcome bytes sent. -/
theorem passStoreCheck_verify_frame (fault : Nat → Bool) (c c1 : Control)
    (rx rest : List Nat) (h : passStoreCheck fault c (BYTE_F :: rx) = some (c1, rest)) :
    c1.eeprom = c.eeprom
    ∧ (c1.tx = c.tx ++ [BYTE_X] ∨ c1.tx = c.tx ++ [BYTE_Z] ∨ c1.tx = c.tx ++ [Alarm_Byte]) := by
  rw [passStoreCheck_F] at h
  cases hv : verifyLoop fault rx 0 c with
  | none => simp [hv] at h
  | some res =>
    obtain ⟨c2, flag, rest2⟩ := res
    simp only [hv] at h
    obtain ⟨cb, dp, hh⟩ := verifyLoop_shape fault rx 0 c c2 flag rest2 hv
    rcases hh with ⟨hfl, hc2⟩ | ⟨hfl, hc2⟩
    · subst hfl
      simp only [if_true, Option.some.injEq, Prod.mk.injEq] at h
      rw [← h.1, hc2]
      exact ⟨rfl, Or.inl rfl⟩
    · subst hfl
      simp only [one_ne_zero, if_false, Option.some.injEq, Prod.mk.injEq] at h
      rw [← h.1, hc2]
      refine ⟨mismatchBranch_eeprom _, ?_⟩
      rcases mismatchBranch_shape { c with compareByte := cb, diagPin := dp } with
        ⟨_, e⟩ | ⟨_, e⟩
      · rw [e]; exact Or.inr (Or.inl rfl)
      · rw [e]; exact Or.inr (Or.inr rfl)

/-! ## A credential change across the two nodes -/

theorem hmiRun_succ (n : Nat) (s s1 : HMI × List Nat × List Nat)
    (h : hmiIteration s.1 s.2.1 s.2.2 = some s1) : hmiRun (n + 1) s = hmiRun n s1 := by
  simp [hmiRun, h]

theorem turnDigits_le (ts : List (Nat × Nat)) : ∀ d ∈ turnDigits ts, d ≤ 9 := by
  intro d hd
  simp only [turnDigits, List.mem_filter, decide_eq_true_eq] at hd
  exact hd.2

theorem hmiPasses_of_run (n : Nat) (keys : List Nat) (s : Sys) (h1 : HMI)
    (ks rx1 bs : List Nat) (hr : hmiRun n (s.hmi, keys, s.toHmi) = some (h1, ks, rx1))
    (htx : h1.tx = s.hmi.tx ++ bs) :
    hmiPasses n keys s = some ({ s with hmi := h1, toHmi := rx1, toCtl := s.toCtl ++ bs }, ks) := by
  simp [hmiPasses, hr, htx]

/-- From MENU, the minus key and two submitted entries of the same five
digits: three passes of the HMI main loop, which send `'-'` and then `'S'`
with the digits, receive nothing and end in MENU. -/
theorem hmiRun_change_credential (h : HMI) (k1 ka kb : Nat) (pre1 pre2 : List (Nat × Nat))
    (d0 d1 d2 d3 d4 : Nat) (ks rx : List Nat)
    (hm : h.PhasesSwitch = 3) (h0 : h.initialPassLimit = 0) (hk1 : k1 ≠ KEY_PLUS)
    (hpre1 : turnDigits pre1 = [d0, d1, d2, d3]) (hpre2 : turnDigits pre2 = [d0, d1, d2, d3])
    (hd4 : d4 ≤ 9) :
    hmiRun 3 (h, k1 :: KEY_MINUS :: (turnKeys pre1 ++ ka :: d4 :: KEY_EQ :: KEY_EQ ::
        (turnKeys pre2 ++ kb :: d4 :: KEY_EQ :: KEY_EQ :: ks)), rx)
      = some ({ h with
                  passSetArr := writeDigits h.passSetArr 0 [d0, d1, d2, d3, d4]
                  passCompareArr := writeDigits h.passCompareArr 0 [d0, d1, d2, d3, d4]
                  initialPassLimit := 0
                  tx := h.tx ++ [KEY_MINUS, BYTE_S, d0, d1, d2, d3, d4]
                  PhasesSwitch := 3 }, ks, rx) := by
  have s1 : hmiIteration h (k1 :: KEY_MINUS :: (turnKeys pre1 ++ ka :: d4 :: KEY_EQ :: KEY_EQ ::
        (turnKeys pre2 ++ kb :: d4 :: KEY_EQ :: KEY_EQ :: ks))) rx
      = some ({ h with PhasesSwitch := 1, tx := h.tx ++ [KEY_MINUS] },
          turnKeys pre1 ++ ka :: d4 :: KEY_EQ :: KEY_EQ ::
            (turnKeys pre2 ++ kb :: d4 :: KEY_EQ :: KEY_EQ :: ks), rx) := by
    rw [hmiIteration_three h _ rx hm]
    simp [phaseThree, hmiSendByte, hk1]
  have s2 : hmiIteration { h with PhasesSwitch := 1, tx := h.tx ++ [KEY_MINUS] }
        (turnKeys pre1 ++ ka :: d4 :: KEY_EQ :: KEY_EQ ::
            (turnKeys pre2 ++ kb :: d4 :: KEY_EQ :: KEY_EQ :: ks)) rx
      = some ({ h with passSetArr := writeDigits h.passSetArr 0 [d0, d1, d2, d3, d4]
                       initialPassLimit := 0
                       tx := h.tx ++ [KEY_MINUS]
                       PhasesSwitch := 2 },
          turnKeys pre2 ++ kb :: d4 :: KEY_EQ :: KEY_EQ :: ks, rx) := by
    rw [hmiIteration_one _ _ _ (Or.inl rfl)]
    exact phaseOne_setup_five { h with PhasesSwitch := 1, tx := h.tx ++ [KEY_MINUS] }
      pre1 ka d0 d1 d2 d3 d4 _ rx h0 hpre1 hd4 (by simp)
  have hdig : hmiDigits { h with passSetArr := writeDigits h.passSetArr 0 [d0, d1, d2, d3, d4]
                                 initialPassLimit := 0
                                 tx := h.tx ++ [KEY_MINUS]
                                 PhasesSwitch := 2 } = [d0, d1, d2, d3, d4] :=
    hmiDigits_writeDigits { h with tx := h.tx ++ [KEY_MINUS] } h.passSetArr 0 2 d0 d1 d2 d3 d4
  have s3 : hmiIteration { h with passSetArr := writeDigits h.passSetArr 0 [d0, d1, d2, d3, d4]
                                  initialPassLimit := 0
                                  tx := h.tx ++ [KEY_MINUS]
                                  PhasesSwitch := 2 }
        (turnKeys pre2 ++ kb :: d4 :: KEY_EQ :: KEY_EQ :: ks) rx
      = some ({ h with
                  passSetArr := writeDigits h.passSetArr 0 [d0, d1, d2, d3, d4]
                  passCompareArr := writeDigits h.passCompareArr 0 [d0, d1, d2, d3, d4]
                  initialPassLimit := 0
                  tx := h.tx ++ [KEY_MINUS, BYTE_S, d0, d1, d2, d3, d4]
                  PhasesSwitch := 3 }, ks, rx) := by
    rw [hmiIteration_two _ _ _ rfl, phaseTwo_five _ pre2 kb d0 d1 d2 d3 d4 ks hpre2 hd4,
      if_pos hdig, hdig]
    simp
  rw [hmiRun_succ 2 _ _ s1, hmiRun_succ 1 _ _ s2, hmiRun_succ 0 _ _ s3]
  rfl

/-- Control in the credential phase with `'-'` and a Store request of five
digits on the link: two passes of the main loop, which drop the `'-'` and
write the digits, for every old store content and every error count. -/
theorem run_minus_then_store (fault : Nat → Bool) (pir : Nat) (c : Control)
    (d0 d1 d2 d3 d4 : Nat) (rest : List Nat) (hp : c.phaseSwitches = 1)
    (h0 : d0 ≤ 9) (h1 : d1 ≤ 9) (h2 : d2 ≤ 9) (h3 : d3 ≤ 9) (h4 : d4 ≤ 9) :
    ∃ mem, run (passes 2 fault pir)
          (c, [KEY_MINUS, BYTE_S, d0, d1, d2, d3, d4] ++ rest)
        = some ({ c with iBit := false, eeprom := mem }, rest)
      ∧ [mem 1, mem 2, mem 3, mem 4, mem 5] = [d0, d1, d2, d3, d4] := by
  have nb : ∀ d, d ≤ 9 → d ≠ BLANK := by
    intro d hd
    simp only [BLANK]
    omega
  obtain ⟨mem, hst, hmem⟩ := passStoreCheck_store fault { c with iBit := false }
    d0 d1 d2 d3 d4 rest (nb d0 h0) (nb d1 h1) (nb d2 h2) (nb d3 h3) (nb d4 h4)
  refine ⟨mem, ?_, hmem⟩
  have e1 : step (.iter fault pir) (c, [KEY_MINUS, BYTE_S, d0, d1, d2, d3, d4] ++ rest)
      = some ({ c with iBit := false }, BYTE_S :: d0 :: d1 :: d2 :: d3 :: d4 :: rest) := by
    simp only [step, mainIteration]
    rw [if_pos hp]
    exact passStoreCheck_other fault _ KEY_MINUS _ (by decide) (by decide)
  have e2 : step (.iter fault pir)
        ({ c with iBit := false }, BYTE_S :: d0 :: d1 :: d2 :: d3 :: d4 :: rest)
      = some ({ c with iBit := false, eeprom := mem }, rest) := by
    simp only [step, mainIteration]
    rw [if_pos hp]
    exact hst
  have e : passes 2 fault pir = [.iter fault pir, .iter fault pir] := rfl
  rw [e, run_cons _ _ _ _ e1, run_cons _ _ _ _ e2]
  rfl

/-! ## The door cycle across the two nodes -/

theorem hmiIteration_status (h : HMI) (keys : List Nat) (b : Nat) (rx : List Nat)
    (hp : h.PhasesSwitch = 4) (hb : b = OPEN_BYTE ∨ b = WAIT_BYTE ∨ b = CLOSE_BYTE) :
    hmiIteration h keys (b :: rx) = some (h, keys, rx) := by
  rw [hmiIteration_four h _ _ hp]
  rcases hb with e | e | e <;> simp [phaseFour, e, OPEN_BYTE, WAIT_BYTE, CLOSE_BYTE]

theorem hmiIteration_done (h : HMI) (keys : List Nat) (rx : List Nat)
    (hp : h.PhasesSwitch = 4) :
    hmiIteration h keys (doorState.Done.toByte :: rx)
      = some ({ h with PhasesSwitch := 3 }, keys, rx) := by
  rw [hmiIteration_four h _ _ hp]
  simp [phaseFour, doorState.toByte, OPEN_BYTE, WAIT_BYTE, CLOSE_BYTE]

/-- In DOOR_STATUS the HMI receives status bytes `'a'`, `'b'`, `'c'` one per
pass and stays as it is. -/
theorem hmiRun_status (bs : List Nat) (h : HMI) (keys rest : List Nat)
    (hp : h.PhasesSwitch = 4)
    (hb : ∀ b ∈ bs, b = OPEN_BYTE ∨ b = WAIT_BYTE ∨ b = CLOSE_BYTE) :
    hmiRun bs.length (h, keys, bs ++ rest) = some (h, keys, rest) := by
  induction bs with
  | nil => rfl
  | cons b bs ih =>
    have h1 : hmiIteration (h, keys, (b :: bs) ++ rest).1 (h, keys, (b :: bs) ++ rest).2.1
        (h, keys, (b :: bs) ++ rest).2.2 = some (h, keys, bs ++ rest) :=
      hmiIteration_status h keys b (bs ++ rest) hp (hb b (by simp))
    rw [List.length_cons, hmiRun_succ bs.length _ _ h1]
    exact ih (fun x hx => hb x (by simp [hx]))

/-- The four bytes of a door cycle take the HMI from DOOR_STATUS to MENU
with the fourth. -/
theorem hmiRun_cycle (h : HMI) (keys rest : List Nat) (hp : h.PhasesSwitch = 4) :
    hmiRun 4 (h, keys, [OPEN_BYTE, WAIT_BYTE, CLOSE_BYTE, doorState.Done.toByte] ++ rest)
      = some ({ h with PhasesSwitch := 3 }, keys, rest) := by
  have e1 : hmiIteration (h, keys, [OPEN_BYTE, WAIT_BYTE, CLOSE_BYTE, doorState.Done.toByte]
      ++ rest).1 keys ([OPEN_BYTE, WAIT_BYTE, CLOSE_BYTE, doorState.Done.toByte] ++ rest)
      = some (h, keys, [WAIT_BYTE, CLOSE_BYTE, doorState.Done.toByte] ++ rest) :=
    hmiIteration_status h keys OPEN_BYTE _ hp (Or.inl rfl)
  have e2 : hmiIteration h keys ([WAIT_BYTE, CLOSE_BYTE, doorState.Done.toByte] ++ rest)
      = some (h, keys, [CLOSE_BYTE, doorState.Done.toByte] ++ rest) :=
    hmiIteration_status h keys WAIT_BYTE _ hp (Or.inr (Or.inl rfl))
  have e3 : hmiIteration h keys ([CLOSE_BYTE, doorState.Done.toByte] ++ rest)
      = some (h, keys, [doorState.Done.toByte] ++ rest) :=
    hmiIteration_status h keys CLOSE_BYTE _ hp (Or.inr (Or.inr rfl))
  have e4 : hmiIteration h keys ([doorState.Done.toByte] ++ rest)
      = some ({ h with PhasesSwitch := 3 }, keys, rest) :=
    hmiIteration_done h keys rest hp
  rw [hmiRun_succ 3 _ _ e1, hmiRun_succ 2 _ _ e2, hmiRun_succ 1 _ _ e3, hmiRun_succ 0 _ _ e4]
  rfl

theorem doorSent_status (c : Control) :
    ∀ b ∈ doorSent c, b = OPEN_BYTE ∨ b = WAIT_BYTE ∨ b = CLOSE_BYTE := by
  intro b hb
  unfold doorSent at hb
  cases hm : c.motorState <;> by_cases h0 : c.doorByteSent = 0 <;>
    simp [hm, h0] at hb <;> (try rcases hb with e | e | e) <;> simp_all

/-! ## A verify exchange by the error count -/

/-- A verify exchange read by the error count. The HMI is in verify mode
(`PhasesSwitch = 6`, the digits it holds at most 9), Control is at a state
reached from reset in CREDENTIAL_CHECK, and both directions of the link are
empty. When `phaseOne` reaches its blocking receive, the link towards
Control holds `'F'` and the five digits; then there is a number of passes of
the Control main loop (fault-free reads) after which the HMI receive returns
and the link towards the HMI is empty again, with the phases paired: if the
digits are the stored credential the HMI is in DOOR_STATUS and Control in
DOOR_OPENING; if they differ and the error count was below 2 the HMI is
still in SET_OR_REENTER (verify mode) and Control in CREDENTIAL_CHECK, the
link towards Control empty and the error count one higher; if they differ
and the error count was 2 the HMI is in LOCKOUT and Control in ALARM. -/
theorem verify_exchange_by_error_count (h : HMI) (c : Control) (keys ks : List Nat)
    (s1 : Sys) (pir : Nat) (mem : Nat → Nat) (rx0 : List Nat) (es0 : List Event)
    (hh : h.PhasesSwitch = 6) (hd : ∀ i, h.passSetArr i ≤ 9)
    (hreach : run es0 (boot mem, rx0) = some (c, []))
    (hc : phaseOf c = some .CREDENTIAL_CHECK)
    (hsub : hmiEnter keys { hmi := h, ctl := c, toCtl := [], toHmi := [] }
      = some (s1, ks, true)) :
    s1.toCtl = BYTE_F :: hmiDigits s1.hmi
    ∧ ∃ n s2 s3, ctlRun (passes n noFault pir) s1 = some s2 ∧ hmiAwait s2 = some s3
        ∧ s3.toHmi = []
        ∧ (hmiDigits s1.hmi = credential c →
            hmiPhaseOf s3.hmi = some .DOOR_STATUS
            ∧ phaseOf s3.ctl = some .DOOR_OPENING ∧ s3.toCtl = [])
        ∧ (hmiDigits s1.hmi ≠ credential c → c.g_error < 2 →
            hmiPhaseOf s3.hmi = some .SET_OR_REENTER ∧ s3.hmi.PhasesSwitch = 6
            ∧ phaseOf s3.ctl = some .CREDENTIAL_CHECK ∧ s3.toCtl = []
            ∧ s3.ctl.g_error = c.g_error + 1)
        ∧ (hmiDigits s1.hmi ≠ credential c → c.g_error = 2 →
            hmiPhaseOf s3.hmi = some .LOCKOUT ∧ phaseOf s3.ctl = some .ALARM) := by
  have hinv : PhaseInv c := run_PhaseInv es0 (boot mem, rx0) _ (boot_PhaseInv mem) hreach
  have hp1 : c.phaseSwitches = 1 := phaseOf_credential_inv c hc
  have hms : c.motorState = .OPENING_DOOR := hinv.2.1 (by rw [hp1]; decide)
  -- the HMI side up to the blocking receive
  unfold hmiEnter at hsub
  cases he : phaseOneEntry h keys with
  | none => simp [he] at hsub
  | some r =>
    obtain ⟨h1, ks1, w⟩ := r
    simp only [he, Option.some.injEq, Prod.mk.injEq] at hsub
    obtain ⟨hs1, -, hw⟩ := hsub
    subst hw
    obtain ⟨g6, gtx, gmsg⟩ := phaseOneEntry_verify h h1 keys ks1 hh hd he
    have hto : s1.toCtl = BYTE_F :: hmiDigits h1 := by
      rw [← hs1]
      simp [gtx]
    have hhmi : s1.hmi = h1 := by rw [← hs1]
    have hctl : s1.ctl = c := by rw [← hs1]
    have hth : s1.toHmi = [] := by rw [← hs1]
    rw [hhmi]
    refine ⟨hto, ?_⟩
    by_cases hm : hmiDigits h1 = credential c
    · -- the digits match
      obtain ⟨cb, hv⟩ := passStoreCheck_verify_match { c with iBit := false }
        (hmiDigits h1) [] gmsg.1 (isDigitMessage_nonBlank _ gmsg) hm
      rw [List.append_nil] at hv
      have hstep : step (.iter noFault pir) (s1.ctl, s1.toCtl)
          = some ({ c with iBit := false, compareByte := cb, tx := c.tx ++ [BYTE_X],
                           phaseSwitches := 2 }, []) := by
        rw [hctl, hto]
        simp only [step, mainIteration]
        rw [if_pos hp1]
        exact hv
      have hrun := ctlRun_of_run (passes 1 noFault pir) s1 _ [] [BYTE_X]
        (run_passes_one noFault pir _ _ hstep) (by rw [hctl])
      have haw := hmiAwait_of_await
        { s1 with ctl := { c with iBit := false, compareByte := cb, tx := c.tx ++ [BYTE_X],
                                  phaseSwitches := 2 },
                  toCtl := [], toHmi := s1.toHmi ++ [BYTE_X] }
        { h1 with initialPassLimit := 0, PhasesSwitch := 4 } []
        (by rw [hth, hhmi]; exact phaseOneAwait_X h1)
      refine ⟨1, _, _, hrun, haw, rfl, fun _ => ⟨rfl, ?_, rfl⟩, fun hne => absurd hm hne,
        fun hne => absurd hm hne⟩
      simp [phaseOf, hms]
    · have hmsg : isDigitMessage (hmiDigits h1) := gmsg
      by_cases hg : (c.g_error + 1) % 256 = 3
      · -- the mismatch that reaches the threshold
        obtain ⟨cb, k, hstep0⟩ := step_alarm_request c (hmiDigits h1) [] pir hp1 hmsg hm hg
        have hstep : step (.iter noFault pir) (s1.ctl, s1.toCtl)
            = some ({ c with iBit := false, compareByte := cb, g_error := 0,
                             alarmState := 255, phaseSwitches := 3,
                             tx := c.tx ++ [Alarm_Byte] },
                (hmiDigits h1).drop (k + 1)) := by
          rw [hctl, hto]
          have := hstep0
          simp only [List.append_nil] at this
          exact this
        have hrun := ctlRun_of_run (passes 1 noFault pir) s1 _ _ [Alarm_Byte]
          (run_passes_one noFault pir _ _ hstep) (by rw [hctl])
        have haw := hmiAwait_of_await
          { s1 with ctl := { c with iBit := false, compareByte := cb, g_error := 0,
                                    alarmState := 255, phaseSwitches := 3,
                                    tx := c.tx ++ [Alarm_Byte] },
                    toCtl := (hmiDigits h1).drop (k + 1),
                    toHmi := s1.toHmi ++ [Alarm_Byte] }
          { h1 with initialPassLimit := 0, PhasesSwitch := 5 } []
          (by rw [hth, hhmi]; exact phaseOneAwait_alarm h1)
        refine ⟨1, _, _, hrun, haw, rfl, fun he' => absurd he' hm, ?_, fun _ _ => ⟨rfl, rfl⟩⟩
        intro _ hlt
        exfalso
        have : (c.g_error + 1) % 256 = c.g_error + 1 := Nat.mod_eq_of_lt (by omega)
        omega
      · -- a mismatch below the threshold
        obtain ⟨n, cb, hr0⟩ := run_mismatch_request c (hmiDigits h1) [] pir hp1 hmsg hm hg
        have hr : run (passes n noFault pir) (s1.ctl, s1.toCtl)
            = some ({ c with iBit := false, compareByte := cb,
                             g_error := (c.g_error + 1) % 256, tx := c.tx ++ [BYTE_Z] },
                []) := by
          rw [hctl, hto]
          have := hr0
          rw [List.append_nil] at this
          exact this
        have hrun := ctlRun_of_run (passes n noFault pir) s1 _ _ [BYTE_Z] hr (by rw [hctl])
        have haw := hmiAwait_of_await
          { s1 with ctl := { c with iBit := false, compareByte := cb,
                                    g_error := (c.g_error + 1) % 256,
                                    tx := c.tx ++ [BYTE_Z] },
                    toCtl := [], toHmi := s1.toHmi ++ [BYTE_Z] }
          { h1 with initialPassLimit := 0 } []
          (by rw [hth, hhmi]; exact phaseOneAwait_Z h1)
        refine ⟨n, _, _, hrun, haw, rfl, fun he' => absurd he' hm,
          fun _ hlt => ⟨?_, g6, ?_, rfl, Nat.mod_eq_of_lt (by omega)⟩, ?_⟩
        · simp [hmiPhaseOf, g6]
        · simp [phaseOf, hp1]
        · intro _ h2
          exfalso
          rw [h2] at hg
          exact hg (by decide)

/-! ## How the HMI enters DOOR_STATUS -/

/-- What the receive loop of `phaseOne` has done when it returns: it has
dropped bytes that are no outcome byte and then taken one outcome byte. -/
theorem awaitOutcome_trace (rx : List Nat) (h : HMI) :
    ∀ (h1 : HMI) (rx1 : List Nat), awaitOutcome rx h = some (h1, rx1) →
      ∃ junk b, rx = junk ++ b :: rx1
        ∧ (∀ x ∈ junk, x ≠ BYTE_Z ∧ x ≠ BYTE_X ∧ x ≠ Alarm_BYTE)
        ∧ ((b = BYTE_Z ∧ h1 = h)
          ∨ (b = BYTE_X ∧ h1 = { h with initialPassLimit := 0, PhasesSwitch := 4 })
          ∨ (b = Alarm_BYTE ∧ h1 = { h with initialPassLimit := 0, PhasesSwitch := 5 })) := by
  induction rx with
  | nil =>
    intro h1 rx1 ha
    simp [awaitOutcome] at ha
  | cons b rx ih =>
    intro h1 rx1 ha
    rw [awaitOutcome] at ha
    by_cases hz : b = BYTE_Z
    · rw [if_pos hz] at ha
      simp only [Option.some.injEq, Prod.mk.injEq] at ha
      refine ⟨[], b, by rw [ha.2]; rfl, fun x hx => by simp at hx, Or.inl ⟨hz, ha.1.symm⟩⟩
    · rw [if_neg hz] at ha
      by_cases hx : b = BYTE_X
      · rw [if_pos hx] at ha
        simp only [Option.some.injEq, Prod.mk.injEq] at ha
        exact ⟨[], b, by rw [ha.2]; rfl, fun x hx => by simp at hx,
          Or.inr (Or.inl ⟨hx, ha.1.symm⟩)⟩
      · rw [if_neg hx] at ha
        by_cases hd : b = Alarm_BYTE
        · rw [if_pos hd] at ha
          simp only [Option.some.injEq, Prod.mk.injEq] at ha
          exact ⟨[], b, by rw [ha.2]; rfl, fun x hx => by simp at hx,
            Or.inr (Or.inr ⟨hd, ha.1.symm⟩)⟩
        · rw [if_neg hd] at ha
          obtain ⟨junk, b1, e, hj, hcase⟩ := ih h1 rx1 ha
          refine ⟨b :: junk, b1, by rw [e]; rfl, ?_, hcase⟩
          intro x hmem
          rcases List.mem_cons.mp hmem with e1 | e1
          · rw [e1]; exact ⟨hz, hx, hd⟩
          · exact hj x e1

/-- What one call of `phaseOne` does to the link, the sent log and the
cells of `passSetArr`; and when it ends with `PhasesSwitch = 4` without
having started there, it ran in verify mode, sent `'F'` and the five cells
of `passSetArr`, and received `'X'` after bytes that are no outcome byte. -/
theorem phaseOne_trace (g g1 : HMI) (keys rx ks rx1 : List Nat)
    (hc : phaseOne g keys rx = some (g1, ks, rx1)) :
    ∃ consumed m, rx = consumed ++ rx1 ∧ g1.tx = g.tx ++ m
      ∧ ((∀ i, g.passSetArr i ≤ 9) → ∀ i, g1.passSetArr i ≤ 9)
      ∧ (g1.PhasesSwitch = 4 → g.PhasesSwitch ≠ 4 →
          g.PhasesSwitch = 6 ∧ m = BYTE_F :: hmiDigits g1
          ∧ ∃ junk, consumed = junk ++ [BYTE_X]
              ∧ ∀ x ∈ junk, x ≠ BYTE_Z ∧ x ≠ BYTE_X ∧ x ≠ Alarm_BYTE) := by
  unfold phaseOne phaseOneEntry at hc
  cases hl : phaseOneLoop keys g with
  | none => simp [hl] at hc
  | some r =>
    obtain ⟨g0, ks0⟩ := r
    obtain ⟨e0, _, _, hcell⟩ := phaseOneLoop_shape keys g g0 ks0 hl
    have htx0 : g0.tx = g.tx := by rw [e0]
    have hps0 : g0.PhasesSwitch = g.PhasesSwitch := by rw [e0]
    have hcells : (∀ i, g.passSetArr i ≤ 9) → ∀ i, g0.passSetArr i ≤ 9 := by
      intro hd i
      rcases hcell i with e | e
      · rw [e]; exact hd i
      · exact e.2
    cases ks0 with
    | nil => simp [hl] at hc
    | cons k ks1 =>
      simp only [hl] at hc
      by_cases hk : k = KEY_EQ ∧ g0.initialPassLimit = 5
      · rw [if_pos hk] at hc
        by_cases h6 : g0.PhasesSwitch = 6
        · rw [if_pos h6] at hc
          simp only at hc
          unfold phaseOneAwait at hc
          cases ha : awaitOutcome rx (sendVerifyMessage g0) with
          | none => simp [ha] at hc
          | some r2 =>
            obtain ⟨g2, rx2⟩ := r2
            simp only [ha, Option.some.injEq, Prod.mk.injEq] at hc
            obtain ⟨hg1, -, hrx⟩ := hc
            obtain ⟨junk, b, erx, hj, hcase⟩ := awaitOutcome_trace rx _ g2 rx2 ha
            have hsend : (sendVerifyMessage g0).tx = g.tx ++ BYTE_F :: hmiDigits g0 := by
              rw [sendVerifyMessage_tx, htx0]
            have harr : (sendVerifyMessage g0).passSetArr = g0.passSetArr := rfl
            have hps : (sendVerifyMessage g0).PhasesSwitch = g0.PhasesSwitch := rfl
            refine ⟨junk ++ [b], BYTE_F :: hmiDigits g0, ?_, ?_, ?_, ?_⟩
            · rw [erx, ← hrx]; simp
            · rw [← hg1]
              rcases hcase with ⟨_, e⟩ | ⟨_, e⟩ | ⟨_, e⟩ <;> rw [e] <;> exact hsend
            · intro hd i
              rw [← hg1]
              rcases hcase with ⟨_, e⟩ | ⟨_, e⟩ | ⟨_, e⟩ <;> rw [e] <;> exact hcells hd i
            · intro h4 _
              rw [← hg1] at h4 ⊢
              rcases hcase with ⟨_, e⟩ | ⟨eb, e⟩ | ⟨_, e⟩
              · exfalso
                rw [e] at h4
                have h4a : g0.PhasesSwitch = 4 := h4
                rw [h6] at h4a
                exact absurd h4a (by decide)
              · rw [e]
                refine ⟨by rw [← hps0]; exact h6, rfl, junk, by rw [eb], hj⟩
              · exfalso
                rw [e] at h4
                have h4a : (5 : Nat) = 4 := h4
                exact absurd h4a (by decide)
        · rw [if_neg h6] at hc
          simp only [Option.some.injEq, Prod.mk.injEq] at hc
          obtain ⟨hg1, -, hrx⟩ := hc
          refine ⟨[], [], by rw [hrx]; rfl, ?_, ?_, ?_⟩
          · rw [← hg1, List.append_nil]; exact htx0
          · intro hd i
            rw [← hg1]; exact hcells hd i
          · intro h4 _
            exfalso
            rw [← hg1] at h4
            have h4a : (2 : Nat) = 4 := h4
            exact absurd h4a (by decide)
      · rw [if_neg hk] at hc
        simp only [Option.some.injEq, Prod.mk.injEq] at hc
        obtain ⟨hg1, -, hrx⟩ := hc
        refine ⟨[], [], by rw [hrx]; rfl, ?_, ?_, ?_⟩
        · rw [← hg1, List.append_nil]; exact htx0
        · intro hd i
          rw [← hg1]; exact hcells hd i
        · intro h4 hne
          exfalso
          rw [← hg1, hps0] at h4
          exact hne h4

/-- A call of `phaseTwo`: it appends to the sent log, leaves `passSetArr`
and ends with `PhasesSwitch` unchanged, 1 or 3. -/
theorem phaseTwo_trace (g g1 : HMI) (keys ks : List Nat)
    (hc : phaseTwo g keys = some (g1, ks)) :
    (∃ m, g1.tx = g.tx ++ m) ∧ g1.passSetArr = g.passSetArr
    ∧ (g1.PhasesSwitch = g.PhasesSwitch ∨ g1.PhasesSwitch = 1 ∨ g1.PhasesSwitch = 3) := by
  unfold phaseTwo at hc
  cases hl : phaseTwoLoop keys 0 g with
  | none => simp [hl] at hc
  | some r =>
    obtain ⟨g0, pl, ks0⟩ := r
    obtain ⟨e0, _, _, _⟩ := phaseTwoLoop_shape keys 0 g g0 pl ks0 hl
    have htx0 : g0.tx = g.tx := by rw [e0]
    have hps0 : g0.PhasesSwitch = g.PhasesSwitch := by rw [e0]
    have harr : g0.passSetArr = g.passSetArr := by rw [e0]
    cases ks0 with
    | nil => simp [hl] at hc
    | cons k ks1 =>
      simp only [hl] at hc
      by_cases hk : k = KEY_EQ ∧ pl = 5
      · rw [if_pos hk] at hc
        by_cases hw : comparePass g0 = 1
        · rw [if_pos hw] at hc
          simp only [Option.some.injEq, Prod.mk.injEq] at hc
          rw [← hc.1]
          exact ⟨⟨[], by rw [List.append_nil]; exact htx0⟩, harr, Or.inr (Or.inl rfl)⟩
        · rw [if_neg hw] at hc
          simp only [Option.some.injEq, Prod.mk.injEq] at hc
          rw [← hc.1]
          refine ⟨⟨BYTE_S :: hmiDigits g0, ?_⟩, harr, Or.inr (Or.inr rfl)⟩
          show (sendStoreMessage g0).tx = _
          rw [sendStoreMessage_tx, htx0]
      · rw [if_neg hk] at hc
        simp only [Option.some.injEq, Prod.mk.injEq] at hc
        rw [← hc.1]
        exact ⟨⟨[], by rw [List.append_nil]; exact htx0⟩, harr, Or.inl hps0⟩

/-- A call of `phaseThree`: it appends to the sent log, leaves `passSetArr`
and ends with `PhasesSwitch` unchanged, 6 or 1. -/
theorem phaseThree_trace (g g1 : HMI) (keys ks : List Nat)
    (hc : phaseThree g keys = some (g1, ks)) :
    (∃ m, g1.tx = g.tx ++ m) ∧ g1.passSetArr = g.passSetArr
    ∧ (g1.PhasesSwitch = g.PhasesSwitch ∨ g1.PhasesSwitch = 6 ∨ g1.PhasesSwitch = 1) := by
  unfold phaseThree at hc
  cases keys with
  | nil => simp at hc
  | cons k ks0 =>
    simp only at hc
    by_cases hk : k = KEY_PLUS
    · rw [if_pos hk] at hc
      simp only [Option.some.injEq, Prod.mk.injEq] at hc
      rw [← hc.1]
      exact ⟨⟨[KEY_PLUS], rfl⟩, rfl, Or.inr (Or.inl rfl)⟩
    · rw [if_neg hk] at hc
      cases ks0 with
      | nil => simp at hc
      | cons k2 ks2 =>
        simp only at hc
        by_cases hk2 : k2 = KEY_MINUS
        · rw [if_pos hk2] at hc
          simp only [Option.some.injEq, Prod.mk.injEq] at hc
          rw [← hc.1]
          exact ⟨⟨[KEY_MINUS], rfl⟩, rfl, Or.inr (Or.inr rfl)⟩
        · rw [if_neg hk2] at hc
          simp only [Option.some.injEq, Prod.mk.injEq] at hc
          rw [← hc.1]
          exact ⟨⟨[], (List.append_nil _).symm⟩, rfl, Or.inl rfl⟩

/-- A call of `phaseFour` or `phaseFive` receives exactly one byte. -/
theorem phaseFour_consumes (g g1 : HMI) (rx rx1 : List Nat)
    (hc : phaseFour g rx = some (g1, rx1)) : ∃ b, rx = b :: rx1 := by
  unfold phaseFour at hc
  cases rx with
  | nil => simp at hc
  | cons b rest =>
    simp only at hc
    split_ifs at hc <;> simp only [Option.some.injEq, Prod.mk.injEq] at hc <;>
      exact ⟨b, by rw [hc.2]⟩

theorem phaseFive_trace (g g1 : HMI) (rx rx1 : List Nat)
    (hc : phaseFive g rx = some (g1, rx1)) :
    (∃ b, rx = b :: rx1) ∧ g1.tx = g.tx ∧ g1.passSetArr = g.passSetArr
    ∧ (g1.PhasesSwitch = g.PhasesSwitch ∨ g1.PhasesSwitch = 3) := by
  unfold phaseFive at hc
  cases rx with
  | nil => simp at hc
  | cons b rest =>
    simp only [TOGGLE_BIT_PORTA0] at hc
    split_ifs at hc <;> simp only [Option.some.injEq, Prod.mk.injEq] at hc
    · rw [← hc.1]
      exact ⟨⟨b, by rw [hc.2]⟩, rfl, rfl, Or.inr rfl⟩
    · rw [← hc.1]
      exact ⟨⟨b, by rw [hc.2]⟩, rfl, rfl, Or.inl rfl⟩

/-- What one pass of the HMI main loop does to the link, the sent log and
the cells of `passSetArr`; and a pass that ends with `PhasesSwitch = 4`
without having started there is a call of `phaseOne` in verify mode that
sent `'F'` and the five cells of `passSetArr` and received `'X'`. -/
theorem hmiIteration_trace (g g1 : HMI) (keys rx ks rx1 : List Nat)
    (hc : hmiIteration g keys rx = some (g1, ks, rx1)) :
    ∃ consumed m, rx = consumed ++ rx1 ∧ g1.tx = g.tx ++ m
      ∧ ((∀ i, g.passSetArr i ≤ 9) → ∀ i, g1.passSetArr i ≤ 9)
      ∧ (g1.PhasesSwitch = 4 → g.PhasesSwitch ≠ 4 →
          g.PhasesSwitch = 6 ∧ m = BYTE_F :: hmiDigits g1
          ∧ ∃ junk, consumed = junk ++ [BYTE_X]
              ∧ ∀ x ∈ junk, x ≠ BYTE_Z ∧ x ≠ BYTE_X ∧ x ≠ Alarm_BYTE) := by
  unfold hmiIteration at hc
  by_cases h16 : g.PhasesSwitch = 1 ∨ g.PhasesSwitch = 6
  · rw [if_pos h16] at hc
    exact phaseOne_trace g g1 keys rx ks rx1 hc
  · rw [if_neg h16] at hc
    have hn1 : g.PhasesSwitch ≠ 1 := fun e => h16 (Or.inl e)
    have hn6 : g.PhasesSwitch ≠ 6 := fun e => h16 (Or.inr e)
    by_cases h2 : g.PhasesSwitch = 2
    · rw [if_pos h2] at hc
      cases hp : phaseTwo g keys with
      | none => simp [hp] at hc
      | some r =>
        obtain ⟨g0, ks0⟩ := r
        simp only [hp, Option.some.injEq, Prod.mk.injEq] at hc
        obtain ⟨⟨m, hm⟩, harr, hps⟩ := phaseTwo_trace g g0 keys ks0 hp
        rw [← hc.1]
        refine ⟨[], m, by rw [hc.2.2]; rfl, hm, fun hd => by rw [harr]; exact hd, ?_⟩
        intro h4 hne
        exfalso
        rcases hps with e | e | e <;> rw [e] at h4
        · exact hne h4
        · exact absurd h4 (by decide)
        · exact absurd h4 (by decide)
    · rw [if_neg h2] at hc
      by_cases h3 : g.PhasesSwitch = 3
      · rw [if_pos h3] at hc
        cases hp : phaseThree g keys with
        | none => simp [hp] at hc
        | some r =>
          obtain ⟨g0, ks0⟩ := r
          simp only [hp, Option.some.injEq, Prod.mk.injEq] at hc
          obtain ⟨⟨m, hm⟩, harr, hps⟩ := phaseThree_trace g g0 keys ks0 hp
          rw [← hc.1]
          refine ⟨[], m, by rw [hc.2.2]; rfl, hm, fun hd => by rw [harr]; exact hd, ?_⟩
          intro h4 hne
          exfalso
          rcases hps with e | e | e <;> rw [e] at h4
          · exact hne h4
          · exact absurd h4 (by decide)
          · exact absurd h4 (by decide)
      · rw [if_neg h3] at hc
        by_cases h4' : g.PhasesSwitch = 4
        · rw [if_pos h4'] at hc
          cases hp : phaseFour g rx with
          | none => simp [hp] at hc
          | some r =>
            obtain ⟨g0, rx0⟩ := r
            simp only [hp, Option.some.injEq, Prod.mk.injEq] at hc
            obtain ⟨p, e⟩ := phaseFour_shape g g0 rx rx0 hp
            obtain ⟨b, hb⟩ := phaseFour_consumes g g0 rx rx0 hp
            rw [← hc.1]
            refine ⟨[b], [], by rw [hb, hc.2.2]; rfl, by rw [e, List.append_nil],
              fun hd => by rw [e]; exact hd, fun _ hne => absurd h4' hne⟩
        · rw [if_neg h4'] at hc
          by_cases h5 : g.PhasesSwitch = 5
          · rw [if_pos h5] at hc
            cases hp : phaseFive g rx with
            | none => simp [hp] at hc
            | some r =>
              obtain ⟨g0, rx0⟩ := r
              simp only [hp, Option.some.injEq, Prod.mk.injEq] at hc
              obtain ⟨⟨b, hb⟩, htx, harr, hps⟩ := phaseFive_trace g g0 rx rx0 hp
              rw [← hc.1]
              refine ⟨[b], [], by rw [hb, hc.2.2]; rfl, by rw [htx, List.append_nil],
                fun hd => by rw [harr]; exact hd, ?_⟩
              intro h4 hne
              exfalso
              rcases hps with e | e <;> rw [e] at h4
              · exact hne h4
              · exact absurd h4 (by decide)
          · rw [if_neg h5] at hc
            simp only [Option.some.injEq, Prod.mk.injEq] at hc
            rw [← hc.1]
            refine ⟨[], [], by rw [hc.2.2]; rfl, (List.append_nil _).symm, fun hd => hd, ?_⟩
            intro h4 hne
            exact absurd h4 hne

/-- Along any number of passes of the HMI main loop: a run that ends with
`PhasesSwitch = 4` without having started there has received an `'X'` and
has sent an `'F'` followed by five bytes, which are at most 9 when the
cells of `passSetArr` were at most 9 at the start. -/
theorem hmiRun_trace (n : Nat) :
    ∀ (s s1 : HMI × List Nat × List Nat), hmiRun n s = some s1 →
      ∃ consumed m, s.2.2 = consumed ++ s1.2.2 ∧ s1.1.tx = s.1.tx ++ m
        ∧ ((∀ i, s.1.passSetArr i ≤ 9) → ∀ i, s1.1.passSetArr i ≤ 9)
        ∧ (s1.1.PhasesSwitch = 4 → s.1.PhasesSwitch ≠ 4 →
            BYTE_X ∈ consumed
            ∧ ∃ pre ds post, m = pre ++ BYTE_F :: (ds ++ post) ∧ ds.length = 5
                ∧ ((∀ i, s.1.passSetArr i ≤ 9) → ∀ b ∈ ds, b ≤ 9)) := by
  induction n with
  | zero =>
    intro s s1 hr
    simp only [hmiRun, Option.some.injEq] at hr
    rw [← hr]
    exact ⟨[], [], rfl, (List.append_nil _).symm, fun hd => hd,
      fun h4 hne => absurd h4 hne⟩
  | succ n ih =>
    intro s s1 hr
    rw [hmiRun] at hr
    cases hs : hmiIteration s.1 s.2.1 s.2.2 with
    | none => simp [hs] at hr
    | some s2 =>
      simp only [hs] at hr
      obtain ⟨g2, ks2, rx2⟩ := s2
      obtain ⟨c1, m1, e1, t1, a1, p1⟩ := hmiIteration_trace s.1 g2 s.2.1 s.2.2 ks2 rx2 hs
      obtain ⟨c2, m2, e2, t2, a2, p2⟩ := ih (g2, ks2, rx2) s1 hr
      refine ⟨c1 ++ c2, m1 ++ m2, ?_, ?_, fun hd => a2 (a1 hd), ?_⟩
      · rw [e1, List.append_assoc]
        exact congrArg _ e2
      · rw [t2, t1, List.append_assoc]
      · intro h4 hne
        by_cases hmid : g2.PhasesSwitch = 4
        · obtain ⟨_, hm1, junk, hc1, _⟩ := p1 hmid hne
          refine ⟨?_, [], hmiDigits g2, m2, ?_, rfl, ?_⟩
          · rw [hc1]; simp
          · rw [hm1]; rfl
          · intro hd b hb
            exact (isDigitMessage_hmiDigits g2 (a1 hd)).2 b hb
        · obtain ⟨hx, pre, ds, post, hm2, hlen, hdig⟩ := p2 h4 hmid
          refine ⟨?_, m1 ++ pre, ds, post, ?_, hlen, fun hd => hdig (a1 hd)⟩
          · exact List.mem_append_right _ hx
          · rw [hm2, List.append_assoc]

/-! ## Claims -/

set_option maxRecDepth 100000

/-- C1: a Verify request `'F'` with five non-blank bytes, processed by
`passStoreCheck` in the credential phase without a read fault, returns, sends
exactly one byte, and that byte is `'X'` with `phaseSwitches = 2` exactly
when every byte equals the stored byte at address `0x0001 + i`; on a mismatch
the byte is `'Z'` or the alarm byte and `phaseSwitches` is not 2. -/
theorem passStoreCheck_verify_outcome (c : Control) (d0 d1 d2 d3 d4 : Nat) (rest : List Nat)
    (hph : c.phaseSwitches = 1)
    (h0 : d0 ≠ BLANK) (h1 : d1 ≠ BLANK) (h2 : d2 ≠ BLANK) (h3 : d3 ≠ BLANK)
    (h4 : d4 ≠ BLANK) :
    ∃ c1 rest1 b,
      passStoreCheck noFault c (BYTE_F :: d0 :: d1 :: d2 :: d3 :: d4 :: rest) = some (c1, rest1)
      ∧ c1.tx = c.tx ++ [b]
      ∧ ((b = BYTE_X ∧ c1.phaseSwitches = 2) ↔
          (d0 = c.eeprom 1 ∧ d1 = c.eeprom 2 ∧ d2 = c.eeprom 3 ∧ d3 = c.eeprom 4
            ∧ d4 = c.eeprom 5))
      ∧ (¬ (d0 = c.eeprom 1 ∧ d1 = c.eeprom 2 ∧ d2 = c.eeprom 3 ∧ d3 = c.eeprom 4
            ∧ d4 = c.eeprom 5) →
          (b = BYTE_Z ∨ b = Alarm_Byte) ∧ c1.phaseSwitches ≠ 2) := by
  have hnb : ∀ b ∈ [d0, d1, d2, d3, d4], b ≠ BLANK := by
    intro b hb
    simp at hb
    rcases hb with rfl | rfl | rfl | rfl | rfl <;> assumption
  have key := verifyLoop_digits [d0, d1, d2, d3, d4] rest 0 c rfl hnb
  rw [← credential_eq_iff]
  by_cases hm : [d0, d1, d2, d3, d4] = credential c
  · obtain ⟨cb, hcb⟩ := key.1 (by simpa using hm)
    refine ⟨{ UART_sendByte BYTE_X { c with compareByte := cb } with phaseSwitches := 2 },
      rest, BYTE_X, ?_, rfl, ?_, fun h => absurd hm h⟩
    · rw [passStoreCheck_F]
      have : verifyLoop noFault (d0 :: d1 :: d2 :: d3 :: d4 :: rest) 0 c
          = some ({ c with compareByte := cb }, 0, rest) := hcb
      rw [this]
      rfl
    · simp [hm]
  · obtain ⟨cb, k, _, hcb⟩ := key.2 (by simpa using hm)
    obtain ⟨b, hb, htx⟩ := mismatchBranch_tx { c with compareByte := cb }
    refine ⟨mismatchBranch { c with compareByte := cb },
      [d0, d1, d2, d3, d4].drop (k + 1) ++ rest, b, ?_, htx, ?_, fun _ => ⟨hb, ?_⟩⟩
    · rw [passStoreCheck_F]
      have : verifyLoop noFault (d0 :: d1 :: d2 :: d3 :: d4 :: rest) 0 c
          = some (mismatchBranch { c with compareByte := cb }, 1,
              [d0, d1, d2, d3, d4].drop (k + 1) ++ rest) := hcb
      rw [this]
      rfl
    · constructor
      · rintro ⟨hbx, -⟩
        rcases hb with hb | hb <;> rw [hb] at hbx <;> simp [BYTE_X, BYTE_Z, Alarm_Byte] at hbx
      · intro h; exact absurd h hm
    · rcases mismatchBranch_phase { c with compareByte := cb } with h | h
      · rw [h]; simp [hph]
      · rw [h]; decide

/-- Witness for C1: the store holds 1, 2, 3, 4, 5 and the request carries
the same digits. -/
theorem passStoreCheck_verify_outcome_witness :
    ∃ c1 rest1 b,
      passStoreCheck noFault (boot fun a => a) (BYTE_F :: 1 :: 2 :: 3 :: 4 :: 5 :: [])
        = some (c1, rest1)
      ∧ c1.tx = (boot fun a => a).tx ++ [b]
      ∧ ((b = BYTE_X ∧ c1.phaseSwitches = 2) ↔
          (1 = (boot fun a => a).eeprom 1 ∧ 2 = (boot fun a => a).eeprom 2
            ∧ 3 = (boot fun a => a).eeprom 3 ∧ 4 = (boot fun a => a).eeprom 4
            ∧ 5 = (boot fun a => a).eeprom 5))
      ∧ (¬ (1 = (boot fun a => a).eeprom 1 ∧ 2 = (boot fun a => a).eeprom 2
            ∧ 3 = (boot fun a => a).eeprom 3 ∧ 4 = (boot fun a => a).eeprom 4
            ∧ 5 = (boot fun a => a).eeprom 5) →
          (b = BYTE_Z ∨ b = Alarm_Byte) ∧ c1.phaseSwitches ≠ 2) :=
  passStoreCheck_verify_outcome (boot fun a => a) 1 2 3 4 5 [] rfl
    (by decide) (by decide) (by decide) (by decide) (by decide)

/-- C2: round trip. At every state the Control node reaches from reset in
the credential phase, with a Store request carrying five non-blank bytes and
then a Verify request carrying the same bytes on the link, the two passes of
the main loop return, the second one sends exactly `'X'`, and the node is in
DOOR_OPENING (door phase, door cycle at `OPENING_DOOR`) with those bytes as
the stored credential; reads are fault-free. -/
theorem store_then_verify_roundtrip (mem : Nat → Nat) (rx0 : List Nat) (es : List Event)
    (c : Control) (d0 d1 d2 d3 d4 : Nat) (rest : List Nat) (fault : Nat → Bool)
    (pir1 pir2 : Nat)
    (hreach : run es (boot mem, rx0)
      = some (c, BYTE_S :: d0 :: d1 :: d2 :: d3 :: d4
                  :: BYTE_F :: d0 :: d1 :: d2 :: d3 :: d4 :: rest))
    (hp : phaseOf c = some .CREDENTIAL_CHECK)
    (h0 : d0 ≠ BLANK) (h1 : d1 ≠ BLANK) (h2 : d2 ≠ BLANK) (h3 : d3 ≠ BLANK)
    (h4 : d4 ≠ BLANK) :
    ∃ c1 c2,
      mainIteration fault pir1 c
          (BYTE_S :: d0 :: d1 :: d2 :: d3 :: d4
            :: BYTE_F :: d0 :: d1 :: d2 :: d3 :: d4 :: rest)
        = some (c1, BYTE_F :: d0 :: d1 :: d2 :: d3 :: d4 :: rest)
      ∧ c1.tx = c.tx
      ∧ mainIteration noFault pir2 c1 (BYTE_F :: d0 :: d1 :: d2 :: d3 :: d4 :: rest)
        = some (c2, rest)
      ∧ c2.tx = c.tx ++ [BYTE_X]
      ∧ c2.phaseSwitches = 2
      ∧ c2.motorState = .OPENING_DOOR
      ∧ phaseOf c2 = some .DOOR_OPENING
      ∧ credential c2 = [d0, d1, d2, d3, d4] := by
  have hinv : PhaseInv c := run_PhaseInv es (boot mem, rx0) _ (boot_PhaseInv mem) hreach
  have hp1 : c.phaseSwitches = 1 := phaseOf_credential_inv c hp
  have hms : c.motorState = .OPENING_DOOR := hinv.2.1 (by rw [hp1]; decide)
  obtain ⟨m1, hst, hcred⟩ := passStoreCheck_store fault { c with iBit := false }
    d0 d1 d2 d3 d4 (BYTE_F :: d0 :: d1 :: d2 :: d3 :: d4 :: rest) h0 h1 h2 h3 h4
  have hnb := nonBlank_five d0 d1 d2 d3 d4 h0 h1 h2 h3 h4
  obtain ⟨cb, hv⟩ := passStoreCheck_verify_match
    { c with iBit := false, eeprom := m1 } [d0, d1, d2, d3, d4] rest rfl hnb hcred.symm
  refine ⟨{ c with iBit := false, eeprom := m1 },
    { c with iBit := false, eeprom := m1, compareByte := cb, tx := c.tx ++ [BYTE_X],
             phaseSwitches := 2 }, ?_, rfl, ?_, rfl, rfl, hms, ?_, hcred⟩
  · unfold mainIteration
    rw [if_pos hp1]
    exact hst
  · unfold mainIteration
    rw [if_pos hp1]
    exact hv
  · simp [phaseOf, hms]

/-- Witness for C2: from reset, over any store, with the digits 1, 2, 3, 4,
5 stored and then verified. -/
theorem store_then_verify_roundtrip_witness :
    ∃ c1 c2,
      mainIteration noFault 1 (boot fun _ => 255)
          (BYTE_S :: 1 :: 2 :: 3 :: 4 :: 5 :: BYTE_F :: 1 :: 2 :: 3 :: 4 :: 5 :: [])
        = some (c1, BYTE_F :: 1 :: 2 :: 3 :: 4 :: 5 :: [])
      ∧ c1.tx = (boot fun _ => 255).tx
      ∧ mainIteration noFault 1 c1 (BYTE_F :: 1 :: 2 :: 3 :: 4 :: 5 :: []) = some (c2, [])
      ∧ c2.tx = (boot fun _ => 255).tx ++ [BYTE_X]
      ∧ c2.phaseSwitches = 2
      ∧ c2.motorState = .OPENING_DOOR
      ∧ phaseOf c2 = some .DOOR_OPENING
      ∧ credential c2 = [1, 2, 3, 4, 5] :=
  store_then_verify_roundtrip (fun _ => 255)
    (BYTE_S :: 1 :: 2 :: 3 :: 4 :: 5 :: BYTE_F :: 1 :: 2 :: 3 :: 4 :: 5 :: []) []
    (boot fun _ => 255) 1 2 3 4 5 [] noFault 1 1 rfl rfl
    (by decide) (by decide) (by decide) (by decide) (by decide)

/-- C3: from an error count of 0 in the credential phase, three Verify
requests in a row, each five digits that differ from the stored credential
in some position (fault-free reads), make the main loop send `'Z'`, `'Z'` and
then the alarm byte `'d'`: after the first request the count is 1, after the
second it is 2, both times the phase is still the credential phase with the
alarm flag untouched, and after the third the count is 0, the alarm flag is
0xFF and the phase is ALARM. -/
theorem three_mismatches_raise_alarm (c : Control) (m1 m2 m3 rest : List Nat) (pir : Nat)
    (hp : c.phaseSwitches = 1) (hg : c.g_error = 0)
    (h1 : isDigitMessage m1) (h2 : isDigitMessage m2) (h3 : isDigitMessage m3)
    (e1 : m1 ≠ credential c) (e2 : m2 ≠ credential c) (e3 : m3 ≠ credential c) :
    ∃ n1 n2 c1 c2 c3 left,
      run (passes n1 noFault pir)
          (c, BYTE_F :: (m1 ++ BYTE_F :: (m2 ++ BYTE_F :: (m3 ++ rest))))
        = some (c1, BYTE_F :: (m2 ++ BYTE_F :: (m3 ++ rest)))
      ∧ c1.tx = c.tx ++ [BYTE_Z] ∧ c1.g_error = 1
      ∧ phaseOf c1 = some .CREDENTIAL_CHECK ∧ c1.alarmState = c.alarmState
      ∧ run (passes n2 noFault pir) (c1, BYTE_F :: (m2 ++ BYTE_F :: (m3 ++ rest)))
        = some (c2, BYTE_F :: (m3 ++ rest))
      ∧ c2.tx = c.tx ++ [BYTE_Z, BYTE_Z] ∧ c2.g_error = 2
      ∧ phaseOf c2 = some .CREDENTIAL_CHECK ∧ c2.alarmState = c.alarmState
      ∧ step (.iter noFault pir) (c2, BYTE_F :: (m3 ++ rest)) = some (c3, left ++ rest)
      ∧ c3.tx = c.tx ++ [BYTE_Z, BYTE_Z, Alarm_Byte] ∧ c3.g_error = 0
      ∧ c3.alarmState = 255 ∧ phaseOf c3 = some .ALARM := by
  obtain ⟨n1, cb1, r1⟩ := run_mismatch_request c m1 (BYTE_F :: (m2 ++ BYTE_F :: (m3 ++ rest)))
    pir hp h1 e1 (by rw [hg]; decide)
  obtain ⟨n2, cb2, r2⟩ := run_mismatch_request
    { c with iBit := false, compareByte := cb1,
             g_error := (c.g_error + 1) % 256, tx := c.tx ++ [BYTE_Z] }
    m2 (BYTE_F :: (m3 ++ rest)) pir hp h2 e2 (by simp [hg])
  obtain ⟨cb3, k, r3⟩ := step_alarm_request
    { c with iBit := false, compareByte := cb2,
             g_error := ((c.g_error + 1) % 256 + 1) % 256, tx := (c.tx ++ [BYTE_Z]) ++ [BYTE_Z] }
    m3 rest pir hp h3 e3 (by simp [hg])
  refine ⟨n1, n2, _, _, _, _, r1, rfl, by simp [hg], by simp [phaseOf, hp], rfl,
    r2, by simp, by simp [hg], by simp [phaseOf, hp], rfl,
    r3, by simp, rfl, rfl, by simp [phaseOf]⟩

/-- Witness for C3: the store holds 1, 2, 3, 4, 5 and 9, 9, 9, 9, 9 is
verified three times from reset. -/
theorem three_mismatches_raise_alarm_witness :
    ∃ n1 n2 c1 c2 c3 left,
      run (passes n1 noFault 1)
          (boot fun a => a, BYTE_F :: ([9, 9, 9, 9, 9] ++ BYTE_F :: ([9, 9, 9, 9, 9]
            ++ BYTE_F :: ([9, 9, 9, 9, 9] ++ []))))
        = some (c1, BYTE_F :: ([9, 9, 9, 9, 9] ++ BYTE_F :: ([9, 9, 9, 9, 9] ++ [])))
      ∧ c1.tx = (boot fun a => a).tx ++ [BYTE_Z] ∧ c1.g_error = 1
      ∧ phaseOf c1 = some .CREDENTIAL_CHECK ∧ c1.alarmState = (boot fun a => a).alarmState
      ∧ run (passes n2 noFault 1)
          (c1, BYTE_F :: ([9, 9, 9, 9, 9] ++ BYTE_F :: ([9, 9, 9, 9, 9] ++ [])))
        = some (c2, BYTE_F :: ([9, 9, 9, 9, 9] ++ []))
      ∧ c2.tx = (boot fun a => a).tx ++ [BYTE_Z, BYTE_Z] ∧ c2.g_error = 2
      ∧ phaseOf c2 = some .CREDENTIAL_CHECK ∧ c2.alarmState = (boot fun a => a).alarmState
      ∧ step (.iter noFault 1) (c2, BYTE_F :: ([9, 9, 9, 9, 9] ++ [])) = some (c3, left ++ [])
      ∧ c3.tx = (boot fun a => a).tx ++ [BYTE_Z, BYTE_Z, Alarm_Byte] ∧ c3.g_error = 0
      ∧ c3.alarmState = 255 ∧ phaseOf c3 = some .ALARM :=
  three_mismatches_raise_alarm (boot fun a => a) [9, 9, 9, 9, 9] [9, 9, 9, 9, 9]
    [9, 9, 9, 9, 9] [] 1 rfl rfl ⟨rfl, by decide⟩ ⟨rfl, by decide⟩ ⟨rfl, by decide⟩
    (by decide) (by decide) (by decide)

/-- C4 (the code at the failing input): the store holds 1, 2, 3, 4, 5. Two
mismatching verifies and the matching verify leave the error count at 2 with
`'Z'`, `'Z'`, `'X'` sent; after the complete door cycle the first mismatching
verify sends the alarm byte `'d'` and the node is in ALARM. -/
theorem matching_verify_keeps_error_count :
    observe (run (passes 11 noFault 1)
        (boot fun a => a,
          [70, 9, 9, 9, 9, 9, 70, 9, 9, 9, 9, 9, 70, 1, 2, 3, 4, 5, 70, 9, 9, 9, 9, 9]))
      = some { tx := [90, 90, 88], g_error := 2, phase := some .DOOR_OPENING,
               alarmState := 0, seconds := 0, timerState := .OPENING_DOOR,
               motorCmds := [], buzzer := false }
    ∧ observe (run (passes 11 noFault 1 ++ doorCycleEvents ++ passes 1 noFault 1)
        (boot fun a => a,
          [70, 9, 9, 9, 9, 9, 70, 9, 9, 9, 9, 9, 70, 1, 2, 3, 4, 5, 70, 9, 9, 9, 9, 9]))
      = some { tx := [90, 90, 88, 97, 98, 99, 3, 100], g_error := 0, phase := some .ALARM,
               alarmState := 255, seconds := 16, timerState := .Done,
               motorCmds := [(.CW, 100), (.CW, 100), (.STOP, 0), (.STOP, 0), (.A_CW, 100),
                 (.STOP, 0)],
               buzzer := false } := by
  constructor <;> decide

/-- C5: the Control node starts in CREDENTIAL_CHECK, and every step (a tick
or a pass of the main loop) taken from a state reached from reset goes from
a phase to a phase along one of the transitions CREDENTIAL_CHECK to
DOOR_OPENING, DOOR_OPENING to DOOR_WAITING, DOOR_WAITING to DOOR_CLOSING,
DOOR_CLOSING to CREDENTIAL_CHECK, CREDENTIAL_CHECK to ALARM, ALARM to
CREDENTIAL_CHECK, or stays. ALARM is entered only from CREDENTIAL_CHECK, and
DOOR_OPENING is entered only from CREDENTIAL_CHECK by a pass that received
`'F'`, sent `'X'` and (reads being fault-free) found the five non-blank bytes
equal to the stored credential. -/
theorem control_phase_transitions (mem : Nat → Nat) (rx0 : List Nat) (es : List Event)
    (c c1 : Control) (rx rx1 : List Nat) (e : Event)
    (hreach : run es (boot mem, rx0) = some (c, rx))
    (hstep : step e (c, rx) = some (c1, rx1)) :
    phaseOf (boot mem) = some .CREDENTIAL_CHECK
    ∧ ∃ p q, phaseOf c = some p ∧ phaseOf c1 = some q ∧ allowedTransition p q = true
      ∧ (q = .ALARM → p ≠ .ALARM → p = .CREDENTIAL_CHECK)
      ∧ (q = .DOOR_OPENING → p ≠ .DOOR_OPENING →
          p = .CREDENTIAL_CHECK
          ∧ ∃ fault pir rest, e = .iter fault pir ∧ rx = BYTE_F :: rest
              ∧ c1.tx = c.tx ++ [BYTE_X]
              ∧ ((∀ i, fault i = false) → (nonBlank rest).take 5 = credential c)) := by
  have hinv : PhaseInv c := run_PhaseInv es (boot mem, rx0) _ (boot_PhaseInv mem) hreach
  obtain ⟨_, p, q, hp, hq, ha⟩ := step_phase e c c1 rx rx1 hinv hstep
  refine ⟨rfl, p, q, hp, hq, ha, ?_, ?_⟩
  · intro hqa hpa
    subst hqa
    cases p <;> simp [allowedTransition] at ha hpa ⊢
  · intro hqd hpd
    subst hqd
    have hpc : p = .CREDENTIAL_CHECK := by
      cases p <;> simp [allowedTransition] at ha hpd ⊢
    subst hpc
    exact ⟨rfl, step_into_door e c c1 rx rx1 hstep hp hq⟩

/-- Witness for C5: the first pass after reset, a matching verify. -/
theorem control_phase_transitions_witness :
    phaseOf (boot fun a => a) = some .CREDENTIAL_CHECK
    ∧ ∃ p q, phaseOf (boot fun a => a) = some p
      ∧ phaseOf { boot (fun a => a) with compareByte := 5, tx := [BYTE_X], phaseSwitches := 2 }
          = some q
      ∧ allowedTransition p q = true
      ∧ (q = .ALARM → p ≠ .ALARM → p = .CREDENTIAL_CHECK)
      ∧ (q = .DOOR_OPENING → p ≠ .DOOR_OPENING →
          p = .CREDENTIAL_CHECK
          ∧ ∃ fault pir rest, Event.iter noFault 1 = .iter fault pir
              ∧ [BYTE_F, 1, 2, 3, 4, 5] = BYTE_F :: rest
              ∧ ({ boot (fun a => a) with
                    compareByte := 5, tx := [BYTE_X], phaseSwitches := 2 } : Control).tx
                  = (boot fun a => a).tx ++ [BYTE_X]
              ∧ ((∀ i, fault i = false) →
                  (nonBlank rest).take 5 = credential (boot fun a => a))) :=
  control_phase_transitions (fun a => a) [BYTE_F, 1, 2, 3, 4, 5] [] (boot fun a => a)
    { boot (fun a => a) with compareByte := 5, tx := [BYTE_X], phaseSwitches := 2 }
    [BYTE_F, 1, 2, 3, 4, 5] [] (.iter noFault 1) rfl rfl

/-- C6 (the code at the failing input): the store holds 1, 2, 3, 4, 5 and
9, 9, 9, 9, 9 is verified three times from reset, so the node enters ALARM
with the elapsed counter at 0. After 29 ticks the next alarm pass keeps the
alarm on; after 30 ticks it sends the alarm-cleared byte `'a'` and returns to
CREDENTIAL_CHECK with the elapsed counter at 60. Three more mismatches then
enter ALARM with the counter still at 60, and the next alarm pass clears that
lockout without any tick and without turning the alarm signal on. -/
theorem lockout_ends_after_thirty_ticks :
    observe (run (passes 11 noFault 1) (boot fun a => a, threeWrong))
      = some { tx := [90, 90, 100], g_error := 0, phase := some .ALARM,
               alarmState := 255, seconds := 0, timerState := .OPENING_DOOR,
               motorCmds := [], buzzer := false }
    ∧ observe (run (lockoutEvents 29) (boot fun a => a, threeWrong))
      = some { tx := [90, 90, 100], g_error := 0, phase := some .ALARM,
               alarmState := 255, seconds := 58, timerState := .OPENING_DOOR,
               motorCmds := [], buzzer := true }
    ∧ observe (run (lockoutEvents 30) (boot fun a => a, threeWrong))
      = some { tx := [90, 90, 100, 97], g_error := 0, phase := some .CREDENTIAL_CHECK,
               alarmState := 0, seconds := 60, timerState := .OPENING_DOOR,
               motorCmds := [], buzzer := false }
    ∧ observe (run (lockoutEvents 30 ++ passes 4 noFault 1 ++ passes 11 noFault 1)
        (boot fun a => a, threeWrong ++ threeWrong))
      = some { tx := [90, 90, 100, 97, 90, 90, 100], g_error := 0, phase := some .ALARM,
               alarmState := 255, seconds := 60, timerState := .OPENING_DOOR,
               motorCmds := [], buzzer := false }
    ∧ observe (run (lockoutEvents 30 ++ passes 4 noFault 1 ++ passes 11 noFault 1
          ++ passes 1 noFault 1)
        (boot fun a => a, threeWrong ++ threeWrong))
      = some { tx := [90, 90, 100, 97, 90, 90, 100, 97], g_error := 0,
               phase := some .CREDENTIAL_CHECK, alarmState := 0, seconds := 60,
               timerState := .OPENING_DOOR, motorCmds := [], buzzer := false } := by
  refine ⟨?_, ?_, ?_, ?_, ?_⟩ <;> decide

/-- C7 (the code at the failing input): after the lockout of 30 ticks the
elapsed counter is 60 and no handler resets it. The matching verify (store
1, 2, 3, 4, 5) enters DOOR_OPENING with the counter at 60, and the first door
pass, with no tick delivered since, sends `'a'`, commands forward and then
stop and leaves the node in DOOR_WAITING; one tick before that pass changes
nothing but the counter. The same happens with the counter at 16 when a
verify follows a completed door cycle before any tick. -/
theorem door_opening_skipped_after_lockout :
    observe (run (lockoutEvents 30 ++ passes 4 noFault 1 ++ passes 1 noFault 1)
        (boot fun a => a, threeWrong ++ [70, 1, 2, 3, 4, 5]))
      = some { tx := [90, 90, 100, 97, 88], g_error := 0, phase := some .DOOR_OPENING,
               alarmState := 0, seconds := 60, timerState := .OPENING_DOOR,
               motorCmds := [], buzzer := false }
    ∧ observe (run (lockoutEvents 30 ++ passes 4 noFault 1 ++ passes 1 noFault 1
          ++ passes 1 noFault 1)
        (boot fun a => a, threeWrong ++ [70, 1, 2, 3, 4, 5]))
      = some { tx := [90, 90, 100, 97, 88, 97], g_error := 0, phase := some .DOOR_WAITING,
               alarmState := 0, seconds := 60, timerState := .WAITING_FOR_PEOPLE,
               motorCmds := [(.CW, 100), (.STOP, 0)], buzzer := false }
    ∧ observe (run (lockoutEvents 30 ++ passes 4 noFault 1 ++ passes 1 noFault 1
          ++ tickEvents 1 ++ passes 1 noFault 1)
        (boot fun a => a, threeWrong ++ [70, 1, 2, 3, 4, 5]))
      = some { tx := [90, 90, 100, 97, 88, 97], g_error := 0, phase := some .DOOR_WAITING,
               alarmState := 0, seconds := 61, timerState := .WAITING_FOR_PEOPLE,
               motorCmds := [(.CW, 100), (.STOP, 0)], buzzer := false }
    ∧ observe (run (passes 1 noFault 1 ++ doorCycleEvents ++ passes 1 noFault 1)
        (boot fun a => a, [70, 1, 2, 3, 4, 5, 70, 1, 2, 3, 4, 5]))
      = some { tx := [88, 97, 98, 99, 3, 88], g_error := 0, phase := some .DOOR_OPENING,
               alarmState := 0, seconds := 16, timerState := .Done,
               motorCmds := [(.CW, 100), (.CW, 100), (.STOP, 0), (.STOP, 0), (.A_CW, 100),
                 (.STOP, 0)],
               buzzer := false }
    ∧ observe (run (passes 1 noFault 1 ++ doorCycleEvents ++ passes 1 noFault 1
          ++ passes 1 noFault 1)
        (boot fun a => a, [70, 1, 2, 3, 4, 5, 70, 1, 2, 3, 4, 5]))
      = some { tx := [88, 97, 98, 99, 3, 88, 97], g_error := 0, phase := some .DOOR_WAITING,
               alarmState := 0, seconds := 16, timerState := .WAITING_FOR_PEOPLE,
               motorCmds := [(.CW, 100), (.CW, 100), (.STOP, 0), (.STOP, 0), (.A_CW, 100),
                 (.STOP, 0), (.CW, 100), (.STOP, 0)],
               buzzer := false } := by
  refine ⟨?_, ?_, ?_, ?_, ?_⟩ <;> decide

/-- C8: one call of `doorHandler` in `OPENING_DOOR` commands the actuator
forward; with at most 15 on the elapsed counter the door cycle and the timer
context stay as they are, with more than 15 it then commands stop and sets
the door cycle and the timer context to `WAITING_FOR_PEOPLE`. From reset, a
matching verify followed by ticks and passes in any order with 15 ticks in
all leaves the counter at 15; one more pass is still in DOOR_OPENING with the
actuator forward, whereas the 16th tick and then a pass leave the actuator at
stop and the node in DOOR_WAITING. -/
theorem doorHandler_opening_window (c : Control) (pir : Nat) (mem : Nat → Nat)
    (es : List Event) (fault : Nat → Bool) (pir0 pir1 : Nat)
    (hm : c.motorState = .OPENING_DOOR)
    (hnb : ∀ b ∈ credential (boot mem), b ≠ BLANK)
    (hes : tickCount es = 15) :
    (c.seconds ≤ 15 →
      (doorHandler pir c).motorCmds = c.motorCmds ++ [(.CW, 100)]
      ∧ (doorHandler pir c).motorState = .OPENING_DOOR
      ∧ (doorHandler pir c).timerState = c.timerState)
    ∧ (c.seconds > 15 →
      (doorHandler pir c).motorCmds = c.motorCmds ++ [(.CW, 100), (.STOP, 0)]
      ∧ actuator (doorHandler pir c) = some .STOP
      ∧ (doorHandler pir c).motorState = .WAITING_FOR_PEOPLE
      ∧ (doorHandler pir c).timerState = .WAITING_FOR_PEOPLE)
    ∧ ∃ c2, run (.iter noFault pir0 :: es) (boot mem, BYTE_F :: credential (boot mem))
          = some (c2, [])
        ∧ c2.seconds = 15
        ∧ (∃ c3, step (.iter fault pir1) (c2, []) = some (c3, [])
            ∧ phaseOf c3 = some .DOOR_OPENING ∧ actuator c3 = some .CW)
        ∧ (∃ c4, run [.tick, .iter fault pir1] (c2, []) = some (c4, [])
            ∧ c4.seconds = 16 ∧ phaseOf c4 = some .DOOR_WAITING
            ∧ actuator c4 = some .STOP) := by
  refine ⟨fun hs => ?_, fun hs => ?_, ?_⟩
  · obtain ⟨d1, d2, d3, -⟩ := doorHandler_opening_le pir c hm hs
    exact ⟨d1, d2, d3⟩
  · obtain ⟨d1, d2, d3, -⟩ := doorHandler_opening_gt pir c hm hs
    exact ⟨d1, actuator_concat _ (c.motorCmds ++ [(.CW, 100)]) .STOP 0 (by simp [d1]), d2, d3⟩
  · obtain ⟨cb, hv⟩ := passStoreCheck_verify_match (boot mem) (credential (boot mem)) []
      rfl hnb rfl
    rw [List.append_nil] at hv
    have hstep : step (.iter noFault pir0) (boot mem, BYTE_F :: credential (boot mem))
        = some ({ boot mem with compareByte := cb, tx := (boot mem).tx ++ [BYTE_X],
                                phaseSwitches := 2 }, []) := hv
    obtain ⟨c2, hr, g1, g2, g3, g4, g5⟩ := run_opening es
      { boot mem with compareByte := cb, tx := (boot mem).tx ++ [BYTE_X], phaseSwitches := 2 }
      [] rfl rfl rfl (by simp [boot]) (by rw [hes]; simp [boot])
    have hsec : c2.seconds = 15 := by rw [g5, hes]; simp [boot]
    refine ⟨c2, by rw [run_cons _ _ _ _ hstep]; exact hr, hsec, ?_, ?_⟩
    · have hst : step (.iter fault pir1) (c2, [])
          = some (doorHandler pir1 { c2 with iBit := true }, []) := by
        simp only [step, mainIteration]
        rw [if_neg (by rw [g1]; decide), if_pos g1]
      obtain ⟨d1, d2, _, d4, -⟩ :=
        doorHandler_opening_le pir1 { c2 with iBit := true } g2 (by simp [hsec])
      refine ⟨_, hst, ?_, actuator_concat _ _ .CW 100 d1⟩
      rw [phaseOf_door _ (by rw [d4]; exact g1), d2]
    · obtain ⟨t1, t2, t3⟩ := timerCallBackRuntime_opening c2 g3 g4 (by omega)
      have hp2 : (timerCallBackRuntime c2).phaseSwitches = 2 := by
        rw [timerCallBackRuntime_phaseSwitches]; exact g1
      have hm2 : (timerCallBackRuntime c2).motorState = .OPENING_DOOR := by
        rw [timerCallBackRuntime_motorState]; exact g2
      have hst : step (.iter fault pir1) (timerCallBackRuntime c2, [])
          = some (doorHandler pir1 { timerCallBackRuntime c2 with iBit := true }, []) := by
        simp only [step, mainIteration]
        rw [if_neg (by rw [hp2]; decide), if_pos hp2]
      obtain ⟨d1, d2, _, d4, d5⟩ :=
        doorHandler_opening_gt pir1 { timerCallBackRuntime c2 with iBit := true } hm2
          (by simp [t1, hsec])
      refine ⟨doorHandler pir1 { timerCallBackRuntime c2 with iBit := true }, ?_, ?_, ?_,
        actuator_concat _ ((timerCallBackRuntime c2).motorCmds ++ [(.CW, 100)]) .STOP 0
          (by rw [d1]; simp)⟩
      · rw [run_cons .tick _ (c2, []) (timerCallBackRuntime c2, []) rfl,
          run_cons _ _ _ _ hst]
        rfl
      · rw [d5]; simp [t1, hsec]
      · rw [phaseOf_door _ (by rw [d4]; exact hp2), d2]

/-- Witness for C8: the state after reset, the store holding 1, 2, 3, 4, 5,
and 15 ticks after the matching verify. -/
theorem doorHandler_opening_window_witness :
    ((boot fun a => a).seconds ≤ 15 →
      (doorHandler 1 (boot fun a => a)).motorCmds = (boot fun a => a).motorCmds ++ [(.CW, 100)]
      ∧ (doorHandler 1 (boot fun a => a)).motorState = .OPENING_DOOR
      ∧ (doorHandler 1 (boot fun a => a)).timerState = (boot fun a => a).timerState)
    ∧ ((boot fun a => a).seconds > 15 →
      (doorHandler 1 (boot fun a => a)).motorCmds
        = (boot fun a => a).motorCmds ++ [(.CW, 100), (.STOP, 0)]
      ∧ actuator (doorHandler 1 (boot fun a => a)) = some .STOP
      ∧ (doorHandler 1 (boot fun a => a)).motorState = .WAITING_FOR_PEOPLE
      ∧ (doorHandler 1 (boot fun a => a)).timerState = .WAITING_FOR_PEOPLE)
    ∧ ∃ c2, run (.iter noFault 1 :: tickEvents 15)
            (boot fun a => a, BYTE_F :: credential (boot fun a => a))
          = some (c2, [])
        ∧ c2.seconds = 15
        ∧ (∃ c3, step (.iter noFault 1) (c2, []) = some (c3, [])
            ∧ phaseOf c3 = some .DOOR_OPENING ∧ actuator c3 = some .CW)
        ∧ (∃ c4, run [.tick, .iter noFault 1] (c2, []) = some (c4, [])
            ∧ c4.seconds = 16 ∧ phaseOf c4 = some .DOOR_WAITING
            ∧ actuator c4 = some .STOP) :=
  doorHandler_opening_window (boot fun a => a) 1 (fun a => a) (tickEvents 15) noFault 1 1
    rfl (by decide) (by decide)

/-- C9: one call of `doorHandler` in `WAITING_FOR_PEOPLE` commands stop;
when it reads the sensor as not clear, the door cycle, the timer context and
the phase stay as they are, and when it reads clear the door cycle becomes
`CLOSING_DOOR`. So from DOOR_WAITING, ticks and passes that read the sensor
as not clear, in any order and number, all return and leave the node in
DOOR_WAITING. -/
theorem waiting_holds_while_present (c : Control) (pir : Nat) (es : List Event)
    (rx : List Nat)
    (hm : c.motorState = .WAITING_FOR_PEOPLE) (hpir : pir ≠ LOGIC_LOW)
    (hes : presentOnly es = true) :
    ((doorHandler pir c).motorCmds = c.motorCmds ++ [(.STOP, 0)]
      ∧ actuator (doorHandler pir c) = some .STOP
      ∧ (doorHandler pir c).motorState = .WAITING_FOR_PEOPLE
      ∧ (doorHandler pir c).timerState = c.timerState
      ∧ (doorHandler pir c).phaseSwitches = c.phaseSwitches)
    ∧ ((doorHandler LOGIC_LOW c).motorCmds = c.motorCmds ++ [(.STOP, 0)]
      ∧ (doorHandler LOGIC_LOW c).motorState = .CLOSING_DOOR
      ∧ (doorHandler LOGIC_LOW c).timerState = .CLOSING_DOOR
      ∧ (doorHandler LOGIC_LOW c).phaseSwitches = c.phaseSwitches)
    ∧ (phaseOf c = some .DOOR_WAITING →
        ∃ c1, run es (c, rx) = some (c1, rx) ∧ phaseOf c1 = some .DOOR_WAITING) := by
  refine ⟨?_, ?_, fun hph => ?_⟩
  · have h1 : (doorHandler pir c).motorCmds = c.motorCmds ++ [(.STOP, 0)] := by
      by_cases hb : c.doorByteSent = 0 <;>
        simp [doorHandler, hm, hpir, hb, UART_sendByte, DcMotor_Rotate]
    refine ⟨h1, actuator_concat _ _ .STOP 0 h1, ?_, ?_, ?_⟩ <;>
      by_cases hb : c.doorByteSent = 0 <;>
        simp [doorHandler, hm, hpir, hb, UART_sendByte, DcMotor_Rotate]
  · refine ⟨?_, ?_, ?_, ?_⟩ <;>
      by_cases hb : c.doorByteSent = 0 <;>
        simp [doorHandler, hm, hb, UART_sendByte, DcMotor_Rotate]
  · have hp2 : c.phaseSwitches = 2 := by
      unfold phaseOf at hph
      by_cases h1 : c.phaseSwitches = 1
      · simp [h1] at hph
      · by_cases h2 : c.phaseSwitches = 2
        · exact h2
        · by_cases h3 : c.phaseSwitches = 3 <;> simp [h1, h2, h3] at hph
    obtain ⟨c1, hr, g1, g2⟩ := run_waiting es c rx hp2 hm hes
    exact ⟨c1, hr, by rw [phaseOf_door c1 g1, g2]⟩

/-- Witness for C9: a node waiting in the door phase, three ticks and three
passes that read the sensor as present. -/
theorem waiting_holds_while_present_witness :
    ((doorHandler 1 { boot (fun a => a) with
          phaseSwitches := 2, motorState := .WAITING_FOR_PEOPLE,
          timerState := .WAITING_FOR_PEOPLE }).motorState = .WAITING_FOR_PEOPLE)
    ∧ (phaseOf { boot (fun a => a) with
          phaseSwitches := 2, motorState := .WAITING_FOR_PEOPLE,
          timerState := .WAITING_FOR_PEOPLE } = some .DOOR_WAITING →
        ∃ c1, run [.tick, .iter noFault 1, .tick, .iter noFault 1, .iter noFault 1, .tick]
            ({ boot (fun a => a) with
                phaseSwitches := 2, motorState := .WAITING_FOR_PEOPLE,
                timerState := .WAITING_FOR_PEOPLE }, []) = some (c1, [])
          ∧ phaseOf c1 = some .DOOR_WAITING) :=
  ⟨(waiting_holds_while_present
      { boot (fun a => a) with
          phaseSwitches := 2, motorState := .WAITING_FOR_PEOPLE,
          timerState := .WAITING_FOR_PEOPLE } 1
      [.tick, .iter noFault 1, .tick, .iter noFault 1, .iter noFault 1, .tick] []
      rfl (by decide) (by decide)).1.2.2.1,
   (waiting_holds_while_present
      { boot (fun a => a) with
          phaseSwitches := 2, motorState := .WAITING_FOR_PEOPLE,
          timerState := .WAITING_FOR_PEOPLE } 1
      [.tick, .iter noFault 1, .tick, .iter noFault 1, .iter noFault 1, .tick] []
      rfl (by decide) (by decide)).2.2⟩

/-- C10 (the code at the failing input): from reset with the store holding
1, 2, 3, 4, 5, a matching verify, a door pass, 16 ticks and the pass that
ends the opening leave the node in DOOR_WAITING with the elapsed counter at
16. The next pass reads the sensor clear before any tick and enters
DOOR_CLOSING with the counter still at 16, and the pass after it, with no
tick delivered since DOOR_CLOSING was entered, commands reverse and then
stop, sends the cycle-complete byte and returns to CREDENTIAL_CHECK. -/
theorem door_closing_skipped_on_early_clear :
    observe (run (passes 1 noFault 1 ++ passes 1 noFault 1 ++ tickEvents 16
          ++ passes 1 noFault 1)
        (boot fun a => a, [70, 1, 2, 3, 4, 5]))
      = some { tx := [88, 97], g_error := 0, phase := some .DOOR_WAITING,
               alarmState := 0, seconds := 16, timerState := .WAITING_FOR_PEOPLE,
               motorCmds := [(.CW, 100), (.CW, 100), (.STOP, 0)], buzzer := false }
    ∧ observe (run (passes 1 noFault 1 ++ passes 1 noFault 1 ++ tickEvents 16
          ++ passes 1 noFault 1 ++ passes 1 noFault LOGIC_LOW)
        (boot fun a => a, [70, 1, 2, 3, 4, 5]))
      = some { tx := [88, 97, 98], g_error := 0, phase := some .DOOR_CLOSING,
               alarmState := 0, seconds := 16, timerState := .CLOSING_DOOR,
               motorCmds := [(.CW, 100), (.CW, 100), (.STOP, 0), (.STOP, 0)],
               buzzer := false }
    ∧ observe (run (passes 1 noFault 1 ++ passes 1 noFault 1 ++ tickEvents 16
          ++ passes 1 noFault 1 ++ passes 1 noFault LOGIC_LOW ++ passes 1 noFault LOGIC_LOW)
        (boot fun a => a, [70, 1, 2, 3, 4, 5]))
      = some { tx := [88, 97, 98, 99, 3], g_error := 0, phase := some .CREDENTIAL_CHECK,
               alarmState := 0, seconds := 16, timerState := .Done,
               motorCmds := [(.CW, 100), (.CW, 100), (.STOP, 0), (.STOP, 0), (.A_CW, 100),
                 (.STOP, 0)],
               buzzer := false } := by
  refine ⟨?_, ?_, ?_⟩ <;> decide

/-- C11 (the code at the failing input): the store holds 1, 2, 3, 4, 5. After
a complete door cycle the elapsed counter is 16; two mismatching verifies
leave it at 16 and the third one, which raises the alarm, enters ALARM with
the counter still at 16. After a lockout the counter is 60, and the third
mismatch of the next three enters ALARM with the counter still at 60. -/
theorem alarm_entry_keeps_elapsed_counter :
    observe (run (passes 1 noFault 1 ++ doorCycleEvents ++ passes 10 noFault 1)
        (boot fun a => a, [70, 1, 2, 3, 4, 5] ++ threeWrong))
      = some { tx := [88, 97, 98, 99, 3, 90, 90], g_error := 2,
               phase := some .CREDENTIAL_CHECK, alarmState := 0, seconds := 16,
               timerState := .Done,
               motorCmds := [(.CW, 100), (.CW, 100), (.STOP, 0), (.STOP, 0), (.A_CW, 100),
                 (.STOP, 0)],
               buzzer := false }
    ∧ observe (run (passes 1 noFault 1 ++ doorCycleEvents ++ passes 11 noFault 1)
        (boot fun a => a, [70, 1, 2, 3, 4, 5] ++ threeWrong))
      = some { tx := [88, 97, 98, 99, 3, 90, 90, 100], g_error := 0, phase := some .ALARM,
               alarmState := 255, seconds := 16, timerState := .Done,
               motorCmds := [(.CW, 100), (.CW, 100), (.STOP, 0), (.STOP, 0), (.A_CW, 100),
                 (.STOP, 0)],
               buzzer := false }
    ∧ observe (run (lockoutEvents 30 ++ passes 4 noFault 1 ++ passes 10 noFault 1)
        (boot fun a => a, threeWrong ++ threeWrong))
      = some { tx := [90, 90, 100, 97, 90, 90], g_error := 2,
               phase := some .CREDENTIAL_CHECK, alarmState := 0, seconds := 60,
               timerState := .OPENING_DOOR, motorCmds := [], buzzer := false }
    ∧ observe (run (lockoutEvents 30 ++ passes 4 noFault 1 ++ passes 11 noFault 1)
        (boot fun a => a, threeWrong ++ threeWrong))
      = some { tx := [90, 90, 100, 97, 90, 90, 100], g_error := 0, phase := some .ALARM,
               alarmState := 255, seconds := 60, timerState := .OPENING_DOOR,
               motorCmds := [], buzzer := false } := by
  refine ⟨?_, ?_, ?_, ?_⟩ <;> decide

/-- C12 (the code at the failing input): the store holds 1, 2, 3, 4, 5 and
9, 9, 9, 9, 9 is verified three times from reset; after the first alarm pass
the node is in ALARM with the timer context `OPENING_DOOR` and the elapsed
counter at 0, and one invocation of the tick callback leaves the counter at
2. When the three mismatches follow a complete door cycle the node is in
ALARM with the timer context `Done` and the counter at 16, and one
invocation of the callback leaves the counter at 1. -/
theorem tick_in_alarm_counts_twice :
    observe (run (passes 11 noFault 1 ++ passes 1 noFault 1) (boot fun a => a, threeWrong))
      = some { tx := [90, 90, 100], g_error := 0, phase := some .ALARM,
               alarmState := 255, seconds := 0, timerState := .OPENING_DOOR,
               motorCmds := [], buzzer := true }
    ∧ observe (run (passes 11 noFault 1 ++ passes 1 noFault 1 ++ tickEvents 1)
        (boot fun a => a, threeWrong))
      = some { tx := [90, 90, 100], g_error := 0, phase := some .ALARM,
               alarmState := 255, seconds := 2, timerState := .OPENING_DOOR,
               motorCmds := [], buzzer := true }
    ∧ observe (run (passes 1 noFault 1 ++ doorCycleEvents ++ passes 11 noFault 1
          ++ passes 1 noFault 1)
        (boot fun a => a, [70, 1, 2, 3, 4, 5] ++ threeWrong))
      = some { tx := [88, 97, 98, 99, 3, 90, 90, 100], g_error := 0, phase := some .ALARM,
               alarmState := 255, seconds := 16, timerState := .Done,
               motorCmds := [(.CW, 100), (.CW, 100), (.STOP, 0), (.STOP, 0), (.A_CW, 100),
                 (.STOP, 0)],
               buzzer := true }
    ∧ observe (run (passes 1 noFault 1 ++ doorCycleEvents ++ passes 11 noFault 1
          ++ passes 1 noFault 1 ++ tickEvents 1)
        (boot fun a => a, [70, 1, 2, 3, 4, 5] ++ threeWrong))
      = some { tx := [88, 97, 98, 99, 3, 90, 90, 100], g_error := 0, phase := some .ALARM,
               alarmState := 255, seconds := 1, timerState := .OPENING_DOOR,
               motorCmds := [(.CW, 100), (.CW, 100), (.STOP, 0), (.STOP, 0), (.A_CW, 100),
                 (.STOP, 0)],
               buzzer := true } := by
  refine ⟨?_, ?_, ?_, ?_⟩ <;> decide

/-- C13: at every state the Control node reaches from reset in ALARM, one
call of `alarmStage` with the elapsed counter below 60 turns the alarm signal
on, sends nothing and leaves the phase ALARM and the alarm flag 0xFF; with
the counter at 60 or more it turns the alarm signal off, sends exactly the
byte `'a'`, clears the alarm flag and moves the phase to CREDENTIAL_CHECK,
where the error count is 0. -/
theorem alarmStage_in_alarm (mem : Nat → Nat) (rx0 : List Nat) (es : List Event)
    (c : Control) (rx : List Nat)
    (hreach : run es (boot mem, rx0) = some (c, rx))
    (hp : phaseOf c = some .ALARM) :
    (c.seconds < 60 →
      (alarmStage c).buzzer = true
      ∧ (alarmStage c).tx = c.tx
      ∧ phaseOf (alarmStage c) = some .ALARM
      ∧ (alarmStage c).alarmState = 255)
    ∧ (60 ≤ c.seconds →
      (alarmStage c).buzzer = false
      ∧ (alarmStage c).tx = c.tx ++ [OPEN_BYTE]
      ∧ (alarmStage c).alarmState = 0
      ∧ phaseOf (alarmStage c) = some .CREDENTIAL_CHECK
      ∧ (alarmStage c).g_error = 0) := by
  obtain ⟨_, hA, h3, _⟩ := reachable_BoundaryInv mem rx0 es c rx hreach
  have hp3 := phaseOf_alarm_inv c hp
  obtain ⟨hg, ha⟩ := h3 hp3
  constructor
  · intro hs
    simp [alarmStage, hs, phaseOf, hp3, ha]
  · intro hs
    have hs2 : ¬ c.seconds < 60 := by omega
    simp [alarmStage, hs2, hA, UART_sendByte, phaseOf, hg]

/-- Witness for C13: the state right after the third mismatching verify from
reset, the store holding 1, 2, 3, 4, 5. -/
theorem alarmStage_in_alarm_witness :
    (sampleAlarmState.seconds < 60 →
      (alarmStage sampleAlarmState).buzzer = true
      ∧ (alarmStage sampleAlarmState).tx = sampleAlarmState.tx
      ∧ phaseOf (alarmStage sampleAlarmState) = some .ALARM
      ∧ (alarmStage sampleAlarmState).alarmState = 255)
    ∧ (60 ≤ sampleAlarmState.seconds →
      (alarmStage sampleAlarmState).buzzer = false
      ∧ (alarmStage sampleAlarmState).tx = sampleAlarmState.tx ++ [OPEN_BYTE]
      ∧ (alarmStage sampleAlarmState).alarmState = 0
      ∧ phaseOf (alarmStage sampleAlarmState) = some .CREDENTIAL_CHECK
      ∧ (alarmStage sampleAlarmState).g_error = 0) :=
  alarmStage_in_alarm (fun a => a) threeWrong (passes 11 noFault 1) sampleAlarmState
    [9, 9, 9, 9] rfl rfl

/-- C14: one call of `doorHandler` in `CLOSING_DOOR` commands the actuator in
reverse (after the closing byte `'c'` if that was not sent yet). With at most
15 on the elapsed counter nothing else happens: the door cycle, the phase
and the timer context stay and no cycle-complete byte is sent. With more than
15 it then commands stop, sends the cycle-complete byte (the value of `Done`)
exactly once, sets the phase to CREDENTIAL_CHECK, the door cycle to
`OPENING_DOOR` and the timer context to `Done`. -/
theorem doorHandler_closing (c : Control) (pir : Nat)
    (hm : c.motorState = .CLOSING_DOOR) :
    (c.seconds ≤ 15 →
      (doorHandler pir c).motorCmds = c.motorCmds ++ [(.A_CW, 100)]
      ∧ actuator (doorHandler pir c) = some .A_CW
      ∧ (doorHandler pir c).tx = c.tx ++ (if c.doorByteSent = 0 then [CLOSE_BYTE] else [])
      ∧ (doorHandler pir c).motorState = .CLOSING_DOOR
      ∧ (doorHandler pir c).phaseSwitches = c.phaseSwitches
      ∧ (doorHandler pir c).timerState = c.timerState
      ∧ (phaseOf c = some .DOOR_CLOSING → phaseOf (doorHandler pir c) = some .DOOR_CLOSING))
    ∧ (c.seconds > 15 →
      (doorHandler pir c).motorCmds = c.motorCmds ++ [(.A_CW, 100), (.STOP, 0)]
      ∧ actuator (doorHandler pir c) = some .STOP
      ∧ (doorHandler pir c).tx
          = c.tx ++ (if c.doorByteSent = 0 then [CLOSE_BYTE] else [])
              ++ [doorState.Done.toByte]
      ∧ phaseOf (doorHandler pir c) = some .CREDENTIAL_CHECK
      ∧ (doorHandler pir c).motorState = .OPENING_DOOR
      ∧ (doorHandler pir c).timerState = .Done) := by
  constructor
  · intro hs
    have hs2 : ¬ c.seconds > 15 := by omega
    have hcmd : (doorHandler pir c).motorCmds = c.motorCmds ++ [(.A_CW, 100)] := by
      by_cases hb : c.doorByteSent = 0 <;>
        simp [doorHandler, hm, hs2, hb, UART_sendByte, DcMotor_Rotate]
    have hms : (doorHandler pir c).motorState = .CLOSING_DOOR := by
      by_cases hb : c.doorByteSent = 0 <;>
        simp [doorHandler, hm, hs2, hb, UART_sendByte, DcMotor_Rotate]
    have hps : (doorHandler pir c).phaseSwitches = c.phaseSwitches := by
      by_cases hb : c.doorByteSent = 0 <;>
        simp [doorHandler, hm, hs2, hb, UART_sendByte, DcMotor_Rotate]
    refine ⟨hcmd, actuator_concat _ _ .A_CW 100 hcmd, ?_, hms, hps, ?_, ?_⟩
    · by_cases hb : c.doorByteSent = 0 <;>
        simp [doorHandler, hm, hs2, hb, UART_sendByte, DcMotor_Rotate]
    · by_cases hb : c.doorByteSent = 0 <;>
        simp [doorHandler, hm, hs2, hb, UART_sendByte, DcMotor_Rotate]
    · intro hph
      rw [← hph]
      exact phaseOf_congr c (doorHandler pir c) hps (by rw [hms, hm])
  · intro hs
    have hcmd : (doorHandler pir c).motorCmds = c.motorCmds ++ [(.A_CW, 100), (.STOP, 0)] := by
      by_cases hb : c.doorByteSent = 0 <;>
        simp [doorHandler, hm, hs, hb, UART_sendByte, DcMotor_Rotate]
    refine ⟨hcmd, actuator_concat _ (c.motorCmds ++ [(.A_CW, 100)]) .STOP 0 (by rw [hcmd]; simp),
      ?_, ?_, ?_, ?_⟩ <;>
      by_cases hb : c.doorByteSent = 0 <;>
        simp [doorHandler, hm, hs, hb, UART_sendByte, DcMotor_Rotate, phaseOf]

/-- Witness for C14: a node in DOOR_CLOSING with 16 on the elapsed counter. -/
theorem doorHandler_closing_witness :
    sampleClosingState.seconds > 15
    ∧ (doorHandler 1 sampleClosingState).motorCmds
        = sampleClosingState.motorCmds ++ [(.A_CW, 100), (.STOP, 0)]
    ∧ actuator (doorHandler 1 sampleClosingState) = some .STOP
    ∧ (doorHandler 1 sampleClosingState).tx
        = sampleClosingState.tx
            ++ (if sampleClosingState.doorByteSent = 0 then [CLOSE_BYTE] else [])
            ++ [doorState.Done.toByte]
    ∧ phaseOf (doorHandler 1 sampleClosingState) = some .CREDENTIAL_CHECK
    ∧ (doorHandler 1 sampleClosingState).motorState = .OPENING_DOOR
    ∧ (doorHandler 1 sampleClosingState).timerState = .Done :=
  ⟨by decide, (doorHandler_closing sampleClosingState 1 rfl).2 (by decide)⟩

/-- C15: take any state the Control node reaches from reset in
CREDENTIAL_CHECK and a step from it that enters DOOR_OPENING, and then any
events (ticks and passes with any sensor readings) during which the node
stays in the door phase until the last event. If the node is still in the
door phase afterwards, the bytes sent since the entry are the part of `'a'`,
`'b'`, `'c'` that its door state and byte-sent flag tell; otherwise it is
back in CREDENTIAL_CHECK and the bytes sent since the entry are exactly
`'a'`, `'b'`, `'c'` and the cycle-complete byte, in that order. -/
theorem door_cycle_bytes (mem : Nat → Nat) (rx0 : List Nat) (es0 : List Event)
    (c0 : Control) (rxa : List Nat) (e : Event) (c : Control) (rx : List Nat)
    (es : List Event) (c1 : Control) (rx1 : List Nat)
    (hreach : run es0 (boot mem, rx0) = some (c0, rxa))
    (hc0 : phaseOf c0 = some .CREDENTIAL_CHECK)
    (hstep : step e (c0, rxa) = some (c, rx))
    (hc : phaseOf c = some .DOOR_OPENING)
    (hin : staysInDoorPhase es (c, rx) = true)
    (hrun : run es (c, rx) = some (c1, rx1)) :
    (c1.phaseSwitches = 2 → c1.tx = c.tx ++ doorSent c1)
    ∧ (c1.phaseSwitches ≠ 2 →
        phaseOf c1 = some .CREDENTIAL_CHECK
        ∧ c1.tx = c.tx ++ [OPEN_BYTE, WAIT_BYTE, CLOSE_BYTE, doorState.Done.toByte]) := by
  obtain ⟨hP, _, _, hD⟩ := reachable_BoundaryInv mem rx0 es0 c0 rxa hreach
  have hp1 := phaseOf_credential_inv c0 hc0
  have hp2 := phaseOf_door_opening_inv c hc
  obtain ⟨hb, hm⟩ := step_enter_door e c0 c rxa rx hstep hp1 hp2
  have hms : c.motorState = .OPENING_DOOR := by
    rw [hm]; exact hP.2.1 (by rw [hp1]; decide)
  have hbs : c.doorByteSent = 0 := by
    rw [hb]; exact hD (by rw [hp1]; decide)
  have hinv : DoorInv c.tx c := by
    refine ⟨hp2, by rw [hms]; decide, ?_⟩
    simp [doorSent, hms, hbs]
  rcases run_DoorInv c.tx es c c1 rx rx1 hinv hin hrun with h | h
  · exact ⟨fun _ => h.2.2, fun hne => absurd h.1 hne⟩
  · refine ⟨fun h2 => ?_, fun _ => ⟨phaseOf_credential c1 h.1, h.2⟩⟩
    rw [h.1] at h2
    exact absurd h2 (by decide)

/-- Witness for C15: the first door cycle after reset, with the sensor clear
on the first poll. -/
theorem door_cycle_bytes_witness :
    (sampleCycleEndState.phaseSwitches = 2 →
      sampleCycleEndState.tx = sampleDoorEntryState.tx ++ doorSent sampleCycleEndState)
    ∧ (sampleCycleEndState.phaseSwitches ≠ 2 →
        phaseOf sampleCycleEndState = some .CREDENTIAL_CHECK
        ∧ sampleCycleEndState.tx
            = sampleDoorEntryState.tx
                ++ [OPEN_BYTE, WAIT_BYTE, CLOSE_BYTE, doorState.Done.toByte]) :=
  door_cycle_bytes (fun a => a) [70, 1, 2, 3, 4, 5] [] (boot fun a => a)
    [70, 1, 2, 3, 4, 5] (.iter noFault 1) sampleDoorEntryState [] shortCycleEvents
    sampleCycleEndState [] rfl rfl rfl rfl (by decide) rfl

/-- C16: a Store request `'S'` followed by a stream whose first five
non-blank bytes are `b0 .. b4` makes `passStoreCheck` return after consuming
the stream up to the fifth non-blank byte; the resulting state is the one
after the writes of `b0` to address 0x0001, `b1` to 0x0002, `b2` to 0x0003,
`b3` to 0x0004 and `b4` to 0x0005, made in this order, and nothing else:
no byte is sent, the phase value, the error count, the alarm flag and the
elapsed counter are unchanged, the five addresses hold the five bytes and
every other address keeps its content. -/
theorem store_request_writes (fault : Nat → Bool) (c : Control) (rx : List Nat)
    (b0 b1 b2 b3 b4 : Nat)
    (h : (nonBlank rx).take 5 = [b0, b1, b2, b3, b4]) :
    ∃ pre rest, rx = pre ++ rest ∧ nonBlank pre = [b0, b1, b2, b3, b4]
      ∧ passStoreCheck fault c (BYTE_S :: rx) = some (writeFive b0 b1 b2 b3 b4 c, rest)
      ∧ (writeFive b0 b1 b2 b3 b4 c).tx = c.tx
      ∧ (writeFive b0 b1 b2 b3 b4 c).phaseSwitches = c.phaseSwitches
      ∧ (writeFive b0 b1 b2 b3 b4 c).g_error = c.g_error
      ∧ (writeFive b0 b1 b2 b3 b4 c).alarmState = c.alarmState
      ∧ (writeFive b0 b1 b2 b3 b4 c).seconds = c.seconds
      ∧ credential (writeFive b0 b1 b2 b3 b4 c) = [b0, b1, b2, b3, b4]
      ∧ ∀ a, (a < 1 ∨ 5 < a) → (writeFive b0 b1 b2 b3 b4 c).eeprom a = c.eeprom a := by
  have hlen : 5 - 0 ≤ (nonBlank rx).length := by
    have := congrArg List.length h
    simp only [List.length_take, List.length_cons, List.length_nil] at this
    omega
  obtain ⟨pre, rest, hrx, hpre, hrun⟩ := storeLoop_stream rx 0 c (by omega) hlen
  have h50 : 5 - 0 = 5 := rfl
  rw [h50, h] at hpre
  rw [h50, h] at hrun
  refine ⟨pre, rest, hrx, hpre, ?_, ?_, ?_, ?_, ?_, ?_, ?_, ?_⟩
  · have hSF : BYTE_S ≠ BYTE_F := by decide
    simp only [passStoreCheck, hSF, if_false, if_true]
    exact hrun
  · simp [writeFive, EEPROM_writeByte]
  · simp [writeFive, EEPROM_writeByte]
  · simp [writeFive, EEPROM_writeByte]
  · simp [writeFive, EEPROM_writeByte]
  · simp [writeFive, EEPROM_writeByte]
  · simp [credential, writeFive, EEPROM_writeByte]
  · intro a ha
    have h1 : a ≠ 1 := by omega
    have h2 : a ≠ 2 := by omega
    have h3 : a ≠ 3 := by omega
    have h4 : a ≠ 4 := by omega
    have h5 : a ≠ 5 := by omega
    simp [writeFive, EEPROM_writeByte, h1, h2, h3, h4, h5]

/-- Witness for C16: the digits 1, 2, 3, 4, 5 with blanks among them and a
further byte after them. -/
theorem store_request_writes_witness :
    ∃ pre rest, [32, 1, 2, 32, 3, 4, 5, 7] = pre ++ rest ∧ nonBlank pre = [1, 2, 3, 4, 5]
      ∧ passStoreCheck noFault (boot fun _ => 255) (BYTE_S :: [32, 1, 2, 32, 3, 4, 5, 7])
          = some (writeFive 1 2 3 4 5 (boot fun _ => 255), rest)
      ∧ (writeFive 1 2 3 4 5 (boot fun _ => 255)).tx = (boot fun _ => 255).tx
      ∧ (writeFive 1 2 3 4 5 (boot fun _ => 255)).phaseSwitches
          = (boot fun _ => 255).phaseSwitches
      ∧ (writeFive 1 2 3 4 5 (boot fun _ => 255)).g_error = (boot fun _ => 255).g_error
      ∧ (writeFive 1 2 3 4 5 (boot fun _ => 255)).alarmState
          = (boot fun _ => 255).alarmState
      ∧ (writeFive 1 2 3 4 5 (boot fun _ => 255)).seconds = (boot fun _ => 255).seconds
      ∧ credential (writeFive 1 2 3 4 5 (boot fun _ => 255)) = [1, 2, 3, 4, 5]
      ∧ ∀ a, (a < 1 ∨ 5 < a) →
          (writeFive 1 2 3 4 5 (boot fun _ => 255)).eeprom a = (boot fun _ => 255).eeprom a :=
  store_request_writes noFault (boot fun _ => 255) [32, 1, 2, 32, 3, 4, 5, 7] 1 2 3 4 5
    (by decide)

/-- C17: blank bytes among the bytes of a request are transparent. If two
streams have the same non-blank bytes in the same order, a Verify request
followed by one of them and a Verify request followed by the other leave
`passStoreCheck` with the same result state (hence the same outcome byte,
phase value, error count and alarm flag), or both block; and likewise a
Store request (hence the same store content). -/
theorem blanks_are_transparent (fault : Nat → Bool) (c : Control) (rx rx1 : List Nat)
    (h : nonBlank rx = nonBlank rx1) :
    (passStoreCheck fault c (BYTE_F :: rx)).map Prod.fst
      = (passStoreCheck fault c (BYTE_F :: rx1)).map Prod.fst
    ∧ (passStoreCheck fault c (BYTE_S :: rx)).map Prod.fst
      = (passStoreCheck fault c (BYTE_S :: rx1)).map Prod.fst := by
  constructor
  · have key : ∀ l : List Nat, (passStoreCheck fault c (BYTE_F :: l)).map Prod.fst
        = ((verifyLoop fault l 0 c).map (fun r => (r.1, r.2.1))).map
            (fun p => if p.2 = 0 then { UART_sendByte BYTE_X p.1 with phaseSwitches := 2 }
                      else p.1) := by
      intro l
      rw [passStoreCheck_F]
      cases hv : verifyLoop fault l 0 c with
      | none => rfl
      | some r =>
        obtain ⟨c2, flag, rest2⟩ := r
        by_cases hf : flag = 0 <;> simp [hf]
    rw [key rx, key rx1, verifyLoop_nonBlank fault rx, verifyLoop_nonBlank fault rx1, h]
  · have hSF : BYTE_S ≠ BYTE_F := by decide
    have key : ∀ l : List Nat, passStoreCheck fault c (BYTE_S :: l) = storeLoop l 0 c := by
      intro l
      simp only [passStoreCheck, hSF, if_false, if_true]
    rw [key rx, key rx1, storeLoop_nonBlank rx, storeLoop_nonBlank rx1, h]

/-- Witness for C17: the digits 1, 2, 3, 4, 5 without blanks and with blanks
before, among and after them. -/
theorem blanks_are_transparent_witness :
    (passStoreCheck noFault (boot fun a => a) (BYTE_F :: [1, 2, 3, 4, 5])).map Prod.fst
      = (passStoreCheck noFault (boot fun a => a)
          (BYTE_F :: [32, 1, 32, 32, 2, 3, 4, 32, 5, 32])).map Prod.fst
    ∧ (passStoreCheck noFault (boot fun a => a) (BYTE_S :: [1, 2, 3, 4, 5])).map Prod.fst
      = (passStoreCheck noFault (boot fun a => a)
          (BYTE_S :: [32, 1, 32, 32, 2, 3, 4, 32, 5, 32])).map Prod.fst :=
  blanks_are_transparent noFault (boot fun a => a) [1, 2, 3, 4, 5]
    [32, 1, 32, 32, 2, 3, 4, 32, 5, 32] (by decide)

/-- C18 as stated fails: the store holds 1, 2, 3, 4, 5 and the link delivers
`'F'` 9 9 9 9 9. `passStoreCheck` returns with four of the five digits still
on the link, so it does not return having consumed the five digits. -/
theorem verify_mismatch_leaves_digits :
    (passStoreCheck noFault (boot fun a => a) [70, 9, 9, 9, 9, 9]).map Prod.snd
      = some [9, 9, 9, 9]
    ∧ ¬ ∃ c1, passStoreCheck noFault (boot fun a => a) [70, 9, 9, 9, 9, 9] = some (c1, []) := by
  have h1 : (passStoreCheck noFault (boot fun a => a) [70, 9, 9, 9, 9, 9]).map Prod.snd
      = some [9, 9, 9, 9] := by decide
  refine ⟨h1, ?_⟩
  rintro ⟨c1, h⟩
  rw [h] at h1
  simp at h1

/-- C18, amended: with at least five non-blank bytes on the link after
`'F'` and fault-free reads, `passStoreCheck` returns having consumed a prefix
`pre` of the stream and left the rest on the link. Either it sent `'X'` and
the non-blank bytes of `pre` are exactly the five stored bytes; or it sent
`'Z'` or the alarm byte and `pre` ends at the first byte that differs from
the stored one: with that byte at digit position `k`, the non-blank bytes of
`pre` are the first `k` stored bytes and that byte, `k + 1` in all. -/
theorem verify_consumes_to_first_mismatch (c : Control) (rx : List Nat)
    (hlen : 5 ≤ (nonBlank rx).length) :
    ∃ pre rest c1, rx = pre ++ rest
      ∧ passStoreCheck noFault c (BYTE_F :: rx) = some (c1, rest)
      ∧ ((c1.tx = c.tx ++ [BYTE_X] ∧ nonBlank pre = credential c
            ∧ (nonBlank pre).length = 5)
        ∨ (∃ k b, k < 5
            ∧ nonBlank pre = (credential c).take k ++ [b]
            ∧ (nonBlank pre).length = k + 1
            ∧ b ≠ c.eeprom (1 + k)
            ∧ pre.getLast? = some b
            ∧ (c1.tx = c.tx ++ [BYTE_Z] ∨ c1.tx = c.tx ++ [Alarm_Byte]))) := by
  obtain ⟨pre, rest, cb, hrx, hcase⟩ := verifyLoop_stream rx 0 c (by omega) (by omega)
  rcases hcase with ⟨hv, hp⟩ | ⟨k, b, hk, hp, hb, hl, hv⟩
  · refine ⟨pre, rest,
      { UART_sendByte BYTE_X { c with compareByte := cb } with phaseSwitches := 2 },
      hrx, ?_, Or.inl ⟨rfl, by simpa using hp, by rw [hp]; simp [credential]⟩⟩
    rw [passStoreCheck_F, hv]
    rfl
  · have hk5 : k < 5 := by omega
    have hp2 : nonBlank pre = (credential c).take k ++ [b] := by simpa using hp
    have hb2 : b ≠ c.eeprom (1 + k) := by simpa using hb
    refine ⟨pre, rest, mismatchBranch { c with compareByte := cb }, hrx, ?_,
      Or.inr ⟨k, b, hk5, hp2, ?_, hb2, hl, ?_⟩⟩
    · rw [passStoreCheck_F, hv]
      rfl
    · rw [hp2]
      simp [credential]
      omega
    · obtain ⟨b2, hb2, htx⟩ := mismatchBranch_tx { c with compareByte := cb }
      rcases hb2 with e | e
      · left; rw [htx, e]
      · right; rw [htx, e]

/-- Witness for C18: the store holds 1, 2, 3, 4, 5 and 9, 9, 9, 9, 9 is
verified. -/
theorem verify_consumes_to_first_mismatch_witness :
    ∃ pre rest c1, [9, 9, 9, 9, 9] = pre ++ rest
      ∧ passStoreCheck noFault (boot fun a => a) (BYTE_F :: [9, 9, 9, 9, 9]) = some (c1, rest)
      ∧ ((c1.tx = (boot fun a => a).tx ++ [BYTE_X]
            ∧ nonBlank pre = credential (boot fun a => a)
            ∧ (nonBlank pre).length = 5)
        ∨ (∃ k b, k < 5
            ∧ nonBlank pre = (credential (boot fun a => a)).take k ++ [b]
            ∧ (nonBlank pre).length = k + 1
            ∧ b ≠ (boot fun a => a).eeprom (1 + k)
            ∧ pre.getLast? = some b
            ∧ (c1.tx = (boot fun a => a).tx ++ [BYTE_Z]
                ∨ c1.tx = (boot fun a => a).tx ++ [Alarm_Byte]))) :=
  verify_consumes_to_first_mismatch (boot fun a => a) [9, 9, 9, 9, 9] (by decide)

/-- C19: for every pattern of read faults, a Verify request with five
non-blank bytes makes `passStoreCheck` return after some number `n` of reads
between 1 and 5, with exactly one byte sent, which is `'X'`, `'Z'` or the
alarm byte. The diagnostic pin is high afterwards exactly when it was high
before or one of the `n` reads faulted. Each byte before the last one
compared was equal to the byte the compare variable held after its read (the
stored byte, or after a faulting read the byte held before); `'X'` is sent
exactly when all five reads were made and the fifth byte was equal too,
otherwise the last byte compared differed. And no run of the Control node,
whatever its events, brings a high diagnostic pin back to low. -/
theorem verify_with_read_faults (fault : Nat → Bool) (c : Control)
    (d0 d1 d2 d3 d4 : Nat) (rest : List Nat)
    (h0 : d0 ≠ BLANK) (h1 : d1 ≠ BLANK) (h2 : d2 ≠ BLANK) (h3 : d3 ≠ BLANK)
    (h4 : d4 ≠ BLANK) :
    (∃ n c1 b, 1 ≤ n ∧ n ≤ 5
      ∧ passStoreCheck fault c (BYTE_F :: d0 :: d1 :: d2 :: d3 :: d4 :: rest)
          = some (c1, [d0, d1, d2, d3, d4].drop n ++ rest)
      ∧ c1.tx = c.tx ++ [b]
      ∧ (b = BYTE_X ∨ b = BYTE_Z ∨ b = Alarm_Byte)
      ∧ c1.diagPin = (c.diagPin || (List.range n).any fault)
      ∧ (∀ i, i + 1 < n → [d0, d1, d2, d3, d4][i]? = some (heldByte fault c i))
      ∧ (b = BYTE_X ↔ (n = 5 ∧ d4 = heldByte fault c 4))
      ∧ (b ≠ BYTE_X → [d0, d1, d2, d3, d4][n - 1]? ≠ some (heldByte fault c (n - 1))))
    ∧ (∀ (es : List Event) (s s1 : Control × List Nat),
        run es s = some s1 → s.1.diagPin = true → s1.1.diagPin = true) := by
  refine ⟨?_, fun es s s1 => run_diagPin es s s1⟩
  have hnb := nonBlank_five d0 d1 d2 d3 d4 h0 h1 h2 h3 h4
  rcases verifyLoop_reads fault [d0, d1, d2, d3, d4] rest 0 c rfl hnb with
    ⟨n, hn, hall, hne, hv⟩ | ⟨hall, hv⟩
  · obtain ⟨cb, dp, hsh⟩ := afterReads_shape fault (n + 1) 0 c
    obtain ⟨b, hb, htx⟩ := mismatchBranch_tx (afterReads fault 0 (n + 1) c)
    have hbX : b ≠ BYTE_X := by
      rcases hb with e | e <;> rw [e] <;> decide
    have hlen : n < 5 := by simpa using hn
    refine ⟨n + 1, mismatchBranch (afterReads fault 0 (n + 1) c), b, by omega, by omega,
      ?_, ?_, ?_, ?_, ?_, ?_, ?_⟩
    · rw [passStoreCheck_F]
      have hv2 : verifyLoop fault (d0 :: d1 :: d2 :: d3 :: d4 :: rest) 0 c
          = some (mismatchBranch (afterReads fault 0 (n + 1) c), 1,
              [d0, d1, d2, d3, d4].drop (n + 1) ++ rest) := hv
      rw [hv2]
      rfl
    · rw [htx, hsh]
    · rcases hb with e | e
      · exact Or.inr (Or.inl e)
      · exact Or.inr (Or.inr e)
    · rw [mismatchBranch_diagPin, afterReads_diagPin]
    · intro i hi
      rw [hall i (by omega), afterReads_compareByte]
    · constructor
      · intro e; exact absurd e hbX
      · rintro ⟨e, hd⟩
        exfalso
        have hn4 : n = 4 := by omega
        subst hn4
        rw [afterReads_compareByte] at hne
        exact hne (by simp [hd])
    · intro _
      rw [Nat.add_sub_cancel, ← afterReads_compareByte]
      exact hne
  · obtain ⟨cb, dp, hsh⟩ := afterReads_shape fault 5 0 c
    have h4' := hall 4 (by simp)
    rw [afterReads_compareByte] at h4'
    have hd4 : d4 = heldByte fault c 4 := by simpa using h4'
    refine ⟨5, { UART_sendByte BYTE_X (afterReads fault 0 5 c) with phaseSwitches := 2 },
      BYTE_X, by omega, by omega, ?_, ?_, Or.inl rfl, ?_, ?_, ?_, ?_⟩
    · rw [passStoreCheck_F]
      have hv2 : verifyLoop fault (d0 :: d1 :: d2 :: d3 :: d4 :: rest) 0 c
          = some (afterReads fault 0 5 c, 0, rest) := hv
      rw [hv2]
      rfl
    · show (afterReads fault 0 5 c).tx ++ [BYTE_X] = c.tx ++ [BYTE_X]
      rw [hsh]
    · show (afterReads fault 0 5 c).diagPin = _
      rw [afterReads_diagPin]
    · intro i hi
      rw [hall i (by simp; omega), afterReads_compareByte]
    · exact ⟨fun _ => ⟨rfl, hd4⟩, fun _ => rfl⟩
    · intro hne
      exact absurd rfl hne

/-- Witness for C19: the store holds 1, 2, 3, 4, 5, the compare variable
holds 0 and the reads of positions 1 and 3 fault. -/
theorem verify_with_read_faults_witness :
    (∃ n c1 b, 1 ≤ n ∧ n ≤ 5
      ∧ passStoreCheck (fun i => decide (i = 1 ∨ i = 3)) (boot fun a => a)
            (BYTE_F :: 1 :: 1 :: 3 :: 3 :: 5 :: [])
          = some (c1, [1, 1, 3, 3, 5].drop n ++ [])
      ∧ c1.tx = (boot fun a => a).tx ++ [b]
      ∧ (b = BYTE_X ∨ b = BYTE_Z ∨ b = Alarm_Byte)
      ∧ c1.diagPin
          = ((boot fun a => a).diagPin
              || (List.range n).any (fun i => decide (i = 1 ∨ i = 3)))
      ∧ (∀ i, i + 1 < n →
          [1, 1, 3, 3, 5][i]?
            = some (heldByte (fun i => decide (i = 1 ∨ i = 3)) (boot fun a => a) i))
      ∧ (b = BYTE_X ↔
          (n = 5 ∧ 5 = heldByte (fun i => decide (i = 1 ∨ i = 3)) (boot fun a => a) 4))
      ∧ (b ≠ BYTE_X →
          [1, 1, 3, 3, 5][n - 1]?
            ≠ some (heldByte (fun i => decide (i = 1 ∨ i = 3)) (boot fun a => a) (n - 1))))
    ∧ (∀ (es : List Event) (s s1 : Control × List Nat),
        run es s = some s1 → s.1.diagPin = true → s1.1.diagPin = true) :=
  verify_with_read_faults (fun i => decide (i = 1 ∨ i = 3)) (boot fun a => a) 1 1 3 3 5 []
    (by decide) (by decide) (by decide) (by decide) (by decide)

/-- C20 (the code at the failing input): both nodes from reset, the store
blank. The operator sets the credential 1, 2, 3, 4, 5 and then makes four
verify exchanges: a wrong entry (`'Z'`), the right entry (`'X'`, followed by
the door cycle, the return to MENU and the plus key), and two wrong entries
in a row. Each exchange starts with the HMI in verify mode
(`PhasesSwitch = 6`), Control in CREDENTIAL_CHECK and both directions of the
link empty. After the match the phases are DOOR_STATUS and DOOR_OPENING, and
the error count is still 1. After the first mismatch that follows the match
the phases are SET_OR_REENTER and CREDENTIAL_CHECK, with the error count 2.
The second mismatch in a row then makes Control send the alarm byte `'d'`:
the HMI is in LOCKOUT and Control in ALARM, with no third mismatch in a
row. -/
theorem second_mismatch_in_row_locks_out :
    observeSys traceMatch
      = some { hmiPhase := some .DOOR_STATUS, PhasesSwitch := 4,
               ctlPhase := some .DOOR_OPENING, g_error := 1, stored := [1, 2, 3, 4, 5],
               hmiSent := [83, 1, 2, 3, 4, 5, 43, 70, 9, 9, 9, 9, 9, 70, 1, 2, 3, 4, 5],
               ctlSent := [90, 88], toCtl := [], toHmi := [] }
    ∧ observeSys traceDoorCycle
      = some { hmiPhase := some .SET_OR_REENTER, PhasesSwitch := 6,
               ctlPhase := some .CREDENTIAL_CHECK, g_error := 1, stored := [1, 2, 3, 4, 5],
               hmiSent := [83, 1, 2, 3, 4, 5, 43, 70, 9, 9, 9, 9, 9, 70, 1, 2, 3, 4, 5, 43],
               ctlSent := [90, 88, 97, 98, 99, 3], toCtl := [], toHmi := [] }
    ∧ observeSys traceMismatchAfterMatch
      = some { hmiPhase := some .SET_OR_REENTER, PhasesSwitch := 6,
               ctlPhase := some .CREDENTIAL_CHECK, g_error := 2, stored := [1, 2, 3, 4, 5],
               hmiSent := [83, 1, 2, 3, 4, 5, 43, 70, 9, 9, 9, 9, 9, 70, 1, 2, 3, 4, 5, 43,
                 70, 9, 9, 9, 9, 9],
               ctlSent := [90, 88, 97, 98, 99, 3, 90], toCtl := [], toHmi := [] }
    ∧ observeSys traceSecondInRow
      = some { hmiPhase := some .LOCKOUT, PhasesSwitch := 5,
               ctlPhase := some .ALARM, g_error := 0, stored := [1, 2, 3, 4, 5],
               hmiSent := [83, 1, 2, 3, 4, 5, 43, 70, 9, 9, 9, 9, 9, 70, 1, 2, 3, 4, 5, 43,
                 70, 9, 9, 9, 9, 9, 70, 9, 9, 9, 9, 9],
               ctlSent := [90, 88, 97, 98, 99, 3, 90, 100], toCtl := [9, 9, 9, 9],
               toHmi := [] } := by
  refine ⟨?_, ?_, ?_, ?_⟩ <;> decide

/-- C21: `phaseOne` from an entry count of 0, over any turns of its entry
loop that read the five digits `d0 .. d4` (other key values between them are
skipped), followed by the submit key. In verify mode (`PhasesSwitch = 6`) the
HMI sends `'F', d0, d1, d2, d3, d4` and nothing else, blocks while the link
is empty, drops bytes that are no outcome byte, and on the outcome byte
returns with the entry count 0: still in SET_OR_REENTER (`PhasesSwitch = 6`)
for `'Z'`, in DOOR_STATUS (4) for `'X'`, in LOCKOUT (5) for the alarm byte
`'d'`. In initial-setup mode (`PhasesSwitch = 1`) it sends nothing, receives
nothing, holds the five digits in `passSetArr` and returns in CONFIRM (2)
with the entry count 0. -/
theorem phaseOne_submitted_entry (h : HMI) (pre : List (Nat × Nat))
    (k d0 d1 d2 d3 d4 : Nat) (ks junk rx : List Nat)
    (h0 : h.initialPassLimit = 0) (hpre : turnDigits pre = [d0, d1, d2, d3])
    (hd4 : d4 ≤ 9) (hj : ∀ b ∈ junk, b ≠ BYTE_Z ∧ b ≠ BYTE_X ∧ b ≠ Alarm_BYTE) :
    (h.PhasesSwitch = 6 →
      (∃ h1, phaseOne h (turnKeys pre ++ k :: d4 :: KEY_EQ :: KEY_EQ :: ks)
                (junk ++ BYTE_Z :: rx) = some (h1, ks, rx)
          ∧ h1.tx = h.tx ++ [BYTE_F, d0, d1, d2, d3, d4]
          ∧ h1.PhasesSwitch = 6 ∧ hmiPhaseOf h1 = some .SET_OR_REENTER
          ∧ h1.initialPassLimit = 0)
      ∧ (∃ h1, phaseOne h (turnKeys pre ++ k :: d4 :: KEY_EQ :: KEY_EQ :: ks)
                (junk ++ BYTE_X :: rx) = some (h1, ks, rx)
          ∧ h1.tx = h.tx ++ [BYTE_F, d0, d1, d2, d3, d4]
          ∧ h1.PhasesSwitch = 4 ∧ hmiPhaseOf h1 = some .DOOR_STATUS
          ∧ h1.initialPassLimit = 0)
      ∧ (∃ h1, phaseOne h (turnKeys pre ++ k :: d4 :: KEY_EQ :: KEY_EQ :: ks)
                (junk ++ Alarm_BYTE :: rx) = some (h1, ks, rx)
          ∧ h1.tx = h.tx ++ [BYTE_F, d0, d1, d2, d3, d4]
          ∧ h1.PhasesSwitch = 5 ∧ hmiPhaseOf h1 = some .LOCKOUT
          ∧ h1.initialPassLimit = 0)
      ∧ phaseOne h (turnKeys pre ++ k :: d4 :: KEY_EQ :: KEY_EQ :: ks) junk = none)
    ∧ (h.PhasesSwitch = 1 →
      ∃ h1, phaseOne h (turnKeys pre ++ k :: d4 :: KEY_EQ :: KEY_EQ :: ks) rx
                = some (h1, ks, rx)
          ∧ h1.tx = h.tx
          ∧ h1.PhasesSwitch = 2 ∧ hmiPhaseOf h1 = some .CONFIRM
          ∧ h1.initialPassLimit = 0
          ∧ hmiDigits h1 = [d0, d1, d2, d3, d4]) := by
  constructor
  · intro hp
    have he := phaseOneEntry_verify_five h pre k d0 d1 d2 d3 d4 ks h0 hpre hd4 hp
    have hzx : BYTE_X ≠ BYTE_Z := by decide
    have haz : Alarm_BYTE ≠ BYTE_Z := by decide
    have hax : Alarm_BYTE ≠ BYTE_X := by decide
    refine ⟨?_, ?_, ?_, ?_⟩
    · refine ⟨{ h with passSetArr := writeDigits h.passSetArr 0 [d0, d1, d2, d3, d4]
                       initialPassLimit := 0
                       tx := h.tx ++ [BYTE_F, d0, d1, d2, d3, d4] }, ?_, rfl, hp, ?_, rfl⟩
      · simp only [phaseOne, he, phaseOneAwait, awaitOutcome_skip junk _ _ hj, awaitOutcome,
          if_true]
      · simp [hmiPhaseOf, hp]
    · refine ⟨{ h with passSetArr := writeDigits h.passSetArr 0 [d0, d1, d2, d3, d4]
                       initialPassLimit := 0
                       tx := h.tx ++ [BYTE_F, d0, d1, d2, d3, d4]
                       PhasesSwitch := 4 }, ?_, rfl, rfl, rfl, rfl⟩
      simp only [phaseOne, he, phaseOneAwait, awaitOutcome_skip junk _ _ hj, awaitOutcome,
        if_neg hzx, if_true]
    · refine ⟨{ h with passSetArr := writeDigits h.passSetArr 0 [d0, d1, d2, d3, d4]
                       initialPassLimit := 0
                       tx := h.tx ++ [BYTE_F, d0, d1, d2, d3, d4]
                       PhasesSwitch := 5 }, ?_, rfl, rfl, rfl, rfl⟩
      simp only [phaseOne, he, phaseOneAwait, awaitOutcome_skip junk _ _ hj, awaitOutcome,
        if_neg haz, if_neg hax, if_true]
    · have hn : awaitOutcome junk
          { h with passSetArr := writeDigits h.passSetArr 0 [d0, d1, d2, d3, d4]
                   initialPassLimit := 5
                   tx := h.tx ++ [BYTE_F, d0, d1, d2, d3, d4] } = none := by
        have := awaitOutcome_skip junk []
          { h with passSetArr := writeDigits h.passSetArr 0 [d0, d1, d2, d3, d4]
                   initialPassLimit := 5
                   tx := h.tx ++ [BYTE_F, d0, d1, d2, d3, d4] } hj
        rw [List.append_nil] at this
        rw [this]
        rfl
      simp only [phaseOne, he, phaseOneAwait, hn]
  · intro hp
    have hp6 : h.PhasesSwitch ≠ 6 := by rw [hp]; decide
    refine ⟨_, phaseOne_setup_five h pre k d0 d1 d2 d3 d4 ks rx h0 hpre hd4 hp6,
      rfl, rfl, rfl, rfl, ?_⟩
    exact hmiDigits_writeDigits h h.passSetArr 0 2 d0 d1 d2 d3 d4

/-- Witness for C21: the keys 1, 2, 3, 4, 5, each read by the loop
condition and by the loop body, with the key `'+'` read in between, then the
submit key; one stray byte before the outcome byte. The verify branch is
taken from `sampleVerifyHMI`, the initial-setup branch from `hmiBoot`. -/
theorem phaseOne_submitted_entry_witness :
    ((∃ h1, phaseOne sampleVerifyHMI [1, 1, 2, 2, 43, 43, 3, 3, 4, 4, 5, 5, 61, 61, 7]
                ([0] ++ BYTE_Z :: [8]) = some (h1, [7], [8])
          ∧ h1.tx = sampleVerifyHMI.tx ++ [BYTE_F, 1, 2, 3, 4, 5]
          ∧ h1.PhasesSwitch = 6 ∧ hmiPhaseOf h1 = some .SET_OR_REENTER
          ∧ h1.initialPassLimit = 0)
      ∧ (∃ h1, phaseOne sampleVerifyHMI [1, 1, 2, 2, 43, 43, 3, 3, 4, 4, 5, 5, 61, 61, 7]
                ([0] ++ BYTE_X :: [8]) = some (h1, [7], [8])
          ∧ h1.tx = sampleVerifyHMI.tx ++ [BYTE_F, 1, 2, 3, 4, 5]
          ∧ h1.PhasesSwitch = 4 ∧ hmiPhaseOf h1 = some .DOOR_STATUS
          ∧ h1.initialPassLimit = 0)
      ∧ (∃ h1, phaseOne sampleVerifyHMI [1, 1, 2, 2, 43, 43, 3, 3, 4, 4, 5, 5, 61, 61, 7]
                ([0] ++ Alarm_BYTE :: [8]) = some (h1, [7], [8])
          ∧ h1.tx = sampleVerifyHMI.tx ++ [BYTE_F, 1, 2, 3, 4, 5]
          ∧ h1.PhasesSwitch = 5 ∧ hmiPhaseOf h1 = some .LOCKOUT
          ∧ h1.initialPassLimit = 0)
      ∧ phaseOne sampleVerifyHMI [1, 1, 2, 2, 43, 43, 3, 3, 4, 4, 5, 5, 61, 61, 7] [0]
          = none)
    ∧ (∃ h1, phaseOne hmiBoot [1, 1, 2, 2, 43, 43, 3, 3, 4, 4, 5, 5, 61, 61, 7] [8]
                = some (h1, [7], [8])
          ∧ h1.tx = hmiBoot.tx
          ∧ h1.PhasesSwitch = 2 ∧ hmiPhaseOf h1 = some .CONFIRM
          ∧ h1.initialPassLimit = 0
          ∧ hmiDigits h1 = [1, 2, 3, 4, 5]) :=
  ⟨(phaseOne_submitted_entry sampleVerifyHMI [(1, 1), (2, 2), (43, 43), (3, 3), (4, 4)]
      5 1 2 3 4 5 [7] [0] [8] rfl rfl (by decide) (by decide)).1 rfl,
   (phaseOne_submitted_entry hmiBoot [(1, 1), (2, 2), (43, 43), (3, 3), (4, 4)]
      5 1 2 3 4 5 [7] [0] [8] rfl rfl (by decide) (by decide)).2 rfl⟩

/-- C22: `phaseTwo` over any turns of its entry loop that read the five
digits `q0 .. q4` (other key values between them are skipped), followed by
the submit key, for every first entry `p0 .. p4` held in `passSetArr`. If
the second entry equals the first in every position the HMI sends
`'S', p0, p1, p2, p3, p4` and nothing else and moves to MENU
(`PhasesSwitch = 3`); if they differ in some position it sends nothing and
returns to SET_OR_REENTER with `PhasesSwitch = 1`. Either way the call
returns, and the first entry is still held. -/
theorem phaseTwo_submitted_entry (h : HMI) (pre : List (Nat × Nat))
    (k p0 p1 p2 p3 p4 q0 q1 q2 q3 q4 : Nat) (ks : List Nat)
    (hp : hmiDigits h = [p0, p1, p2, p3, p4])
    (hpre : turnDigits pre = [q0, q1, q2, q3]) (hq4 : q4 ≤ 9) :
    ∃ h1, phaseTwo h (turnKeys pre ++ k :: q4 :: KEY_EQ :: KEY_EQ :: ks) = some (h1, ks)
      ∧ hmiDigits h1 = [p0, p1, p2, p3, p4]
      ∧ ([q0, q1, q2, q3, q4] = [p0, p1, p2, p3, p4] →
          h1.tx = h.tx ++ [BYTE_S, p0, p1, p2, p3, p4]
          ∧ h1.PhasesSwitch = 3 ∧ hmiPhaseOf h1 = some .MENU)
      ∧ ([q0, q1, q2, q3, q4] ≠ [p0, p1, p2, p3, p4] →
          h1.tx = h.tx
          ∧ h1.PhasesSwitch = 1 ∧ hmiPhaseOf h1 = some .SET_OR_REENTER) := by
  have hf := phaseTwo_five h pre k q0 q1 q2 q3 q4 ks hpre hq4
  by_cases he : hmiDigits h = [q0, q1, q2, q3, q4]
  · rw [if_pos he] at hf
    refine ⟨_, hf, hp, fun _ => ⟨?_, rfl, rfl⟩, fun hne => absurd (hp.symm.trans he).symm hne⟩
    show h.tx ++ BYTE_S :: hmiDigits h = _
    rw [hp]
  · rw [if_neg he] at hf
    refine ⟨_, hf, hp, fun heq => absurd (hp.trans heq.symm) he, fun _ => ⟨rfl, rfl, rfl⟩⟩

/-- Witness for C22: the first entry 1, 2, 3, 4, 5 and the second entry
1, 2, 3, 4, 5, with the key `'-'` read in between. -/
theorem phaseTwo_submitted_entry_witness :
    ∃ h1, phaseTwo sampleConfirmHMI [1, 1, 2, 2, 45, 45, 3, 3, 4, 4, 5, 5, 61, 61, 7]
        = some (h1, [7])
      ∧ hmiDigits h1 = [1, 2, 3, 4, 5]
      ∧ ([1, 2, 3, 4, 5] = [1, 2, 3, 4, 5] →
          h1.tx = sampleConfirmHMI.tx ++ [BYTE_S, 1, 2, 3, 4, 5]
          ∧ h1.PhasesSwitch = 3 ∧ hmiPhaseOf h1 = some .MENU)
      ∧ ([1, 2, 3, 4, 5] ≠ [1, 2, 3, 4, 5] →
          h1.tx = sampleConfirmHMI.tx
          ∧ h1.PhasesSwitch = 1 ∧ hmiPhaseOf h1 = some .SET_OR_REENTER) :=
  phaseTwo_submitted_entry sampleConfirmHMI [(1, 1), (2, 2), (45, 45), (3, 3), (4, 4)]
    5 1 2 3 4 5 1 2 3 4 5 [7] rfl rfl (by decide)

/-- C23, counterexample: from MENU, with the plus key read, `phaseThree`
sends `'+'` and leaves `PhasesSwitch = 6`, which the main loop dispatches to
`phaseOne`: the phase is SET_OR_REENTER, not DOOR_STATUS (4). -/
theorem menu_plus_is_not_door_status :
    ∃ h1, hmiIteration sampleMenuHMI [KEY_PLUS] [] = some (h1, [], [])
      ∧ h1.tx = [KEY_PLUS]
      ∧ h1.PhasesSwitch = 6
      ∧ h1.PhasesSwitch ≠ 4
      ∧ hmiPhaseOf h1 = some .SET_OR_REENTER
      ∧ hmiPhaseOf h1 ≠ some .DOOR_STATUS :=
  ⟨{ sampleMenuHMI with PhasesSwitch := 6, tx := [KEY_PLUS] }, rfl, rfl, rfl, by decide,
    rfl, by decide⟩

/-- C23, amended: in MENU, when the key read is the plus key, the pass of
the main loop reads that one key and returns; the HMI has sent the byte
`'+'` and nothing else and is in SET_OR_REENTER in verify mode
(`PhasesSwitch = 6`), the entry buffers and the entry count as they were.
DOOR_STATUS is entered from there by the next submitted entry of five
digits, which is sent with `'F'`, when the outcome byte `'X'` arrives. And
only so: for every HMI state, a pass of the main loop that ends in
DOOR_STATUS without having started there started in verify mode, sent
exactly `'F'` and the five cells of `passSetArr`, and consumed the link up to
and including an `'X'`, the bytes before it being no outcome byte; and every
run of passes from the state after the plus key that ends in DOOR_STATUS has
received an `'X'` and has sent, after the `'+'`, an `'F'` followed by five
bytes, which are digits when the cells of `passSetArr` held digits. -/
theorem menu_plus_enters_verify_mode (h : HMI) (ks : List Nat) (rx : List Nat)
    (pre : List (Nat × Nat)) (k d0 d1 d2 d3 d4 : Nat) (ks1 rx1 : List Nat)
    (hm : hmiPhaseOf h = some .MENU) (h0 : h.initialPassLimit = 0)
    (hpre : turnDigits pre = [d0, d1, d2, d3]) (hd4 : d4 ≤ 9) :
    ∃ h1, hmiIteration h (KEY_PLUS :: ks) rx = some (h1, ks, rx)
      ∧ h1 = { h with PhasesSwitch := 6, tx := h.tx ++ [KEY_PLUS] }
      ∧ hmiPhaseOf h1 = some .SET_OR_REENTER
      ∧ (∃ h2, hmiIteration h1 (turnKeys pre ++ k :: d4 :: KEY_EQ :: KEY_EQ :: ks1)
                (BYTE_X :: rx1) = some (h2, ks1, rx1)
          ∧ h2.tx = h.tx ++ [KEY_PLUS, BYTE_F, d0, d1, d2, d3, d4]
          ∧ hmiPhaseOf h2 = some .DOOR_STATUS)
      ∧ (∀ (g g1 : HMI) (keys2 rx2 ks2 rx3 : List Nat),
          hmiIteration g keys2 rx2 = some (g1, ks2, rx3) →
          hmiPhaseOf g ≠ some .DOOR_STATUS → hmiPhaseOf g1 = some .DOOR_STATUS →
          g.PhasesSwitch = 6
          ∧ g1.tx = g.tx ++ BYTE_F :: hmiDigits g1
          ∧ ((∀ i, g.passSetArr i ≤ 9) → ∀ b ∈ hmiDigits g1, b ≤ 9)
          ∧ ∃ junk, rx2 = junk ++ BYTE_X :: rx3
              ∧ ∀ x ∈ junk, x ≠ BYTE_Z ∧ x ≠ BYTE_X ∧ x ≠ Alarm_BYTE)
      ∧ (∀ (n : Nat) (keys2 rx2 : List Nat) (hN : HMI) (ksN rxN : List Nat),
          hmiRun n (h1, keys2, rx2) = some (hN, ksN, rxN) →
          hmiPhaseOf hN = some .DOOR_STATUS →
          ∃ consumed sent ds later, rx2 = consumed ++ rxN ∧ BYTE_X ∈ consumed
            ∧ hN.tx = h.tx ++ [KEY_PLUS] ++ (sent ++ BYTE_F :: (ds ++ later))
            ∧ ds.length = 5
            ∧ ((∀ i, h.passSetArr i ≤ 9) → ∀ b ∈ ds, b ≤ 9)) := by
  have h3 : h.PhasesSwitch = 3 := (hmiPhaseOf_inv h).2.2.1 hm
  have hps4 : ∀ g : HMI, hmiPhaseOf g ≠ some .DOOR_STATUS → g.PhasesSwitch ≠ 4 := by
    intro g hne h4
    apply hne
    simp [hmiPhaseOf, h4]
  refine ⟨{ h with PhasesSwitch := 6, tx := h.tx ++ [KEY_PLUS] }, ?_, rfl, rfl, ?_, ?_, ?_⟩
  · rw [hmiIteration_three h _ rx h3]
    simp [phaseThree, hmiSendByte]
  · have he := phaseOneEntry_verify_five { h with PhasesSwitch := 6, tx := h.tx ++ [KEY_PLUS] }
      pre k d0 d1 d2 d3 d4 ks1 h0 hpre hd4 rfl
    have hzx : BYTE_X ≠ BYTE_Z := by decide
    refine ⟨{ h with passSetArr := writeDigits h.passSetArr 0 [d0, d1, d2, d3, d4]
                     initialPassLimit := 0
                     tx := h.tx ++ [KEY_PLUS] ++ [BYTE_F, d0, d1, d2, d3, d4]
                     PhasesSwitch := 4 }, ?_, ?_, rfl⟩
    · rw [hmiIteration_one _ _ _ (Or.inr rfl)]
      simp only [phaseOne, he, phaseOneAwait, awaitOutcome, if_neg hzx, if_true]
    · simp
  · intro g g1 keys2 rx2 ks2 rx3 hc hne hd
    have h4 : g1.PhasesSwitch = 4 := (hmiPhaseOf_inv g1).2.2.2.1 hd
    obtain ⟨consumed, m, erx, etx, hcells, hp⟩ := hmiIteration_trace g g1 keys2 rx2 ks2 rx3 hc
    obtain ⟨h6, hmsg, junk, hcon, hj⟩ := hp h4 (hps4 g hne)
    refine ⟨h6, by rw [etx, hmsg], ?_, junk, ?_, hj⟩
    · intro hdig b hb
      exact (isDigitMessage_hmiDigits g1 (hcells hdig)).2 b hb
    · rw [erx, hcon]; simp
  · intro n keys2 rx2 hN ksN rxN hr hd
    have h4 : hN.PhasesSwitch = 4 := (hmiPhaseOf_inv hN).2.2.2.1 hd
    obtain ⟨consumed, m, erx, etx, _, hp⟩ := hmiRun_trace n
      ({ h with PhasesSwitch := 6, tx := h.tx ++ [KEY_PLUS] }, keys2, rx2) (hN, ksN, rxN) hr
    have hne6 : (6 : Nat) ≠ 4 := by decide
    obtain ⟨hx, sent, ds, later, hmsg, hlen, hdig⟩ := hp h4 hne6
    exact ⟨consumed, sent, ds, later, erx, hx, by rw [etx, hmsg], hlen, hdig⟩

/-- Witness for C23 (amended): from `sampleMenuHMI`, the plus key and then
the keys 1, 2, 3, 4, 5 and the submit key, with `'X'` as the outcome. -/
theorem menu_plus_enters_verify_mode_witness :
    ∃ h1, hmiIteration sampleMenuHMI (KEY_PLUS :: [9]) [] = some (h1, [9], [])
      ∧ h1 = { sampleMenuHMI with PhasesSwitch := 6, tx := sampleMenuHMI.tx ++ [KEY_PLUS] }
      ∧ hmiPhaseOf h1 = some .SET_OR_REENTER
      ∧ (∃ h2, hmiIteration h1 (turnKeys [(1, 1), (2, 2), (3, 3), (4, 4)]
                  ++ 5 :: 5 :: KEY_EQ :: KEY_EQ :: []) (BYTE_X :: [])
                = some (h2, [], [])
          ∧ h2.tx = sampleMenuHMI.tx ++ [KEY_PLUS, BYTE_F, 1, 2, 3, 4, 5]
          ∧ hmiPhaseOf h2 = some .DOOR_STATUS)
      ∧ (∀ (g g1 : HMI) (keys2 rx2 ks2 rx3 : List Nat),
          hmiIteration g keys2 rx2 = some (g1, ks2, rx3) →
          hmiPhaseOf g ≠ some .DOOR_STATUS → hmiPhaseOf g1 = some .DOOR_STATUS →
          g.PhasesSwitch = 6
          ∧ g1.tx = g.tx ++ BYTE_F :: hmiDigits g1
          ∧ ((∀ i, g.passSetArr i ≤ 9) → ∀ b ∈ hmiDigits g1, b ≤ 9)
          ∧ ∃ junk, rx2 = junk ++ BYTE_X :: rx3
              ∧ ∀ x ∈ junk, x ≠ BYTE_Z ∧ x ≠ BYTE_X ∧ x ≠ Alarm_BYTE)
      ∧ (∀ (n : Nat) (keys2 rx2 : List Nat) (hN : HMI) (ksN rxN : List Nat),
          hmiRun n (h1, keys2, rx2) = some (hN, ksN, rxN) →
          hmiPhaseOf hN = some .DOOR_STATUS →
          ∃ consumed sent ds later, rx2 = consumed ++ rxN ∧ BYTE_X ∈ consumed
            ∧ hN.tx = sampleMenuHMI.tx ++ [KEY_PLUS] ++ (sent ++ BYTE_F :: (ds ++ later))
            ∧ ds.length = 5
            ∧ ((∀ i, sampleMenuHMI.passSetArr i ≤ 9) → ∀ b ∈ ds, b ≤ 9)) :=
  menu_plus_enters_verify_mode sampleMenuHMI [9] [] [(1, 1), (2, 2), (3, 3), (4, 4)]
    5 1 2 3 4 5 [] [] rfl rfl rfl (by decide)

/-- C24, counterexample: from MENU, with the minus key read, `phaseThree`
sends `'-'` and leaves `PhasesSwitch = 1`, not 6; the next submitted entry
(the keys 1, 2, 3, 4, 5 and the submit key) takes the initial-setup path:
after the two passes of the main loop the only byte sent is `'-'`, no `'F'`,
and the HMI is in CONFIRM with nothing to receive. -/
theorem menu_minus_is_not_verify_mode :
    (∃ h1, hmiIteration sampleMenuHMI [KEY_MINUS, KEY_MINUS] [] = some (h1, [], [])
      ∧ h1.tx = [KEY_MINUS]
      ∧ h1.PhasesSwitch = 1
      ∧ h1.PhasesSwitch ≠ 6)
    ∧ ∃ h2, hmiRun 2 (sampleMenuHMI,
          [KEY_MINUS, KEY_MINUS, 1, 1, 2, 2, 3, 3, 4, 4, 5, 5, KEY_EQ, KEY_EQ], [])
        = some (h2, [], [])
      ∧ h2.tx = [KEY_MINUS]
      ∧ BYTE_F ∉ h2.tx
      ∧ h2.PhasesSwitch = 2
      ∧ hmiPhaseOf h2 = some .CONFIRM :=
  ⟨⟨{ sampleMenuHMI with PhasesSwitch := 1, tx := [KEY_MINUS] }, rfl, rfl, rfl, by decide⟩,
    ⟨{ sampleMenuHMI with
        PhasesSwitch := 2
        tx := [KEY_MINUS]
        passSetArr := writeDigits sampleMenuHMI.passSetArr 0 [1, 2, 3, 4, 5] },
      rfl, rfl, by decide, rfl, rfl⟩⟩

/-- C24, amended: in MENU, when the first read of the keypad is not the plus
key and the second read is the minus key, the pass of the main loop reads
those two key values and returns; the HMI has sent the byte `'-'` and
nothing else and is in SET_OR_REENTER in initial-setup mode
(`PhasesSwitch = 1`), the entry buffers and the entry count as they were.
The next submitted entry of five digits takes the initial-setup path: the
pass sends nothing, receives nothing and ends in CONFIRM holding the five
digits. -/
theorem menu_minus_enters_setup_mode (h : HMI) (k1 : Nat) (ks : List Nat) (rx : List Nat)
    (pre : List (Nat × Nat)) (k d0 d1 d2 d3 d4 : Nat) (ks1 : List Nat)
    (hm : hmiPhaseOf h = some .MENU) (hk1 : k1 ≠ KEY_PLUS) (h0 : h.initialPassLimit = 0)
    (hpre : turnDigits pre = [d0, d1, d2, d3]) (hd4 : d4 ≤ 9) :
    ∃ h1, hmiIteration h (k1 :: KEY_MINUS :: ks) rx = some (h1, ks, rx)
      ∧ h1 = { h with PhasesSwitch := 1, tx := h.tx ++ [KEY_MINUS] }
      ∧ hmiPhaseOf h1 = some .SET_OR_REENTER
      ∧ ∃ h2, hmiIteration h1 (turnKeys pre ++ k :: d4 :: KEY_EQ :: KEY_EQ :: ks1) rx
                = some (h2, ks1, rx)
          ∧ h2.tx = h.tx ++ [KEY_MINUS]
          ∧ h2.PhasesSwitch = 2
          ∧ hmiPhaseOf h2 = some .CONFIRM
          ∧ hmiDigits h2 = [d0, d1, d2, d3, d4] := by
  have h3 : h.PhasesSwitch = 3 := (hmiPhaseOf_inv h).2.2.1 hm
  refine ⟨{ h with PhasesSwitch := 1, tx := h.tx ++ [KEY_MINUS] }, ?_, rfl, rfl, ?_⟩
  · rw [hmiIteration_three h _ rx h3]
    simp [phaseThree, hmiSendByte, hk1]
  · have hs := phaseOne_setup_five { h with PhasesSwitch := 1, tx := h.tx ++ [KEY_MINUS] }
      pre k d0 d1 d2 d3 d4 ks1 rx h0 hpre hd4 (by simp)
    refine ⟨{ h with passSetArr := writeDigits h.passSetArr 0 [d0, d1, d2, d3, d4]
                     initialPassLimit := 0
                     tx := h.tx ++ [KEY_MINUS]
                     PhasesSwitch := 2 }, ?_, rfl, rfl, rfl, ?_⟩
    · rw [hmiIteration_one _ _ _ (Or.inl rfl)]
      exact hs
    · exact hmiDigits_writeDigits { h with tx := h.tx ++ [KEY_MINUS] } h.passSetArr 0 2
        d0 d1 d2 d3 d4

/-- Witness for C24 (amended): from `sampleMenuHMI`, the minus key read
twice and then the keys 1, 2, 3, 4, 5 and the submit key. -/
theorem menu_minus_enters_setup_mode_witness :
    ∃ h1, hmiIteration sampleMenuHMI (KEY_MINUS :: KEY_MINUS :: [9]) [] = some (h1, [9], [])
      ∧ h1 = { sampleMenuHMI with PhasesSwitch := 1, tx := sampleMenuHMI.tx ++ [KEY_MINUS] }
      ∧ hmiPhaseOf h1 = some .SET_OR_REENTER
      ∧ ∃ h2, hmiIteration h1 (turnKeys [(1, 1), (2, 2), (3, 3), (4, 4)]
                  ++ 5 :: 5 :: KEY_EQ :: KEY_EQ :: []) []
                = some (h2, [], [])
          ∧ h2.tx = sampleMenuHMI.tx ++ [KEY_MINUS]
          ∧ h2.PhasesSwitch = 2
          ∧ hmiPhaseOf h2 = some .CONFIRM
          ∧ hmiDigits h2 = [1, 2, 3, 4, 5] :=
  menu_minus_enters_setup_mode sampleMenuHMI KEY_MINUS [9] [] [(1, 1), (2, 2), (3, 3), (4, 4)]
    5 1 2 3 4 5 [] rfl (by decide) rfl rfl (by decide)

/-- C25: in DOOR_STATUS (`PhasesSwitch = 4`) a pass of the main loop runs
`phaseFour`, which blocks while the link is empty and otherwise receives
exactly one byte `b`, reads no key and sends nothing: for `'a'`, `'b'` and
`'c'` the state is unchanged, so the HMI stays in DOOR_STATUS; for every
other byte, among them the cycle-complete byte 3 and the alarm byte `'d'`,
`PhasesSwitch` becomes 3 and the HMI is in MENU. -/
theorem phaseFour_one_byte (h : HMI) (keys : List Nat) (b : Nat) (rx : List Nat)
    (hp : hmiPhaseOf h = some .DOOR_STATUS) :
    hmiIteration h keys [] = none
    ∧ ∃ h1, hmiIteration h keys (b :: rx) = some (h1, keys, rx)
      ∧ h1.tx = h.tx
      ∧ (b = OPEN_BYTE ∨ b = WAIT_BYTE ∨ b = CLOSE_BYTE →
          h1 = h ∧ hmiPhaseOf h1 = some .DOOR_STATUS)
      ∧ (¬ (b = OPEN_BYTE ∨ b = WAIT_BYTE ∨ b = CLOSE_BYTE) →
          h1 = { h with PhasesSwitch := 3 } ∧ hmiPhaseOf h1 = some .MENU)
      ∧ (b = doorState.Done.toByte ∨ b = Alarm_BYTE → hmiPhaseOf h1 = some .MENU) := by
  have h4 : h.PhasesSwitch = 4 := (hmiPhaseOf_inv h).2.2.2.1 hp
  refine ⟨by rw [hmiIteration_four h _ _ h4]; rfl, ?_⟩
  rw [hmiIteration_four h _ _ h4]
  by_cases ha : b = OPEN_BYTE
  · refine ⟨h, by simp [phaseFour, ha], rfl, fun _ => ⟨rfl, hp⟩, fun hn => absurd (Or.inl ha) hn,
      ?_⟩
    intro hb
    rw [ha] at hb
    exact absurd hb (by decide)
  · by_cases hb : b = WAIT_BYTE
    · refine ⟨h, by simp [phaseFour, ha, hb], rfl, fun _ => ⟨rfl, hp⟩,
        fun hn => absurd (Or.inr (Or.inl hb)) hn, ?_⟩
      intro hd
      rw [hb] at hd
      exact absurd hd (by decide)
    · by_cases hc : b = CLOSE_BYTE
      · refine ⟨h, ?_, rfl, fun _ => ⟨rfl, hp⟩, fun hn => absurd (Or.inr (Or.inr hc)) hn, ?_⟩
        · simp only [phaseFour, if_neg ha, if_neg hb, if_pos hc]
        · intro hd
          rw [hc] at hd
          exact absurd hd (by decide)
      · refine ⟨{ h with PhasesSwitch := 3 }, ?_, rfl, ?_, fun _ => ⟨rfl, rfl⟩, fun _ => rfl⟩
        · simp only [phaseFour, if_neg ha, if_neg hb, if_neg hc]
        · intro hor
          rcases hor with e | e | e
          · exact absurd e ha
          · exact absurd e hb
          · exact absurd e hc

/-- Witness for C25: the alarm byte `'d'` received in DOOR_STATUS. -/
theorem phaseFour_one_byte_witness :
    hmiIteration sampleDoorStatusHMI [5] [] = none
    ∧ ∃ h1, hmiIteration sampleDoorStatusHMI [5] (100 :: [97]) = some (h1, [5], [97])
      ∧ h1.tx = sampleDoorStatusHMI.tx
      ∧ (100 = OPEN_BYTE ∨ 100 = WAIT_BYTE ∨ 100 = CLOSE_BYTE →
          h1 = sampleDoorStatusHMI ∧ hmiPhaseOf h1 = some .DOOR_STATUS)
      ∧ (¬ (100 = OPEN_BYTE ∨ 100 = WAIT_BYTE ∨ 100 = CLOSE_BYTE) →
          h1 = { sampleDoorStatusHMI with PhasesSwitch := 3 }
          ∧ hmiPhaseOf h1 = some .MENU)
      ∧ (100 = doorState.Done.toByte ∨ 100 = Alarm_BYTE → hmiPhaseOf h1 = some .MENU) :=
  phaseFour_one_byte sampleDoorStatusHMI [5] 100 [97] rfl

/-- C26: in LOCKOUT (`PhasesSwitch = 5`) a pass of the main loop runs
`phaseFive`, which blocks while the link is empty and otherwise receives
exactly one byte `b`, reads no key, sends nothing and inverts the indicator
bit once: for the opening code `'a'` `PhasesSwitch` becomes 3 and the HMI is
in MENU; for every other byte the HMI remains in LOCKOUT. -/
theorem phaseFive_one_byte (h : HMI) (keys : List Nat) (b : Nat) (rx : List Nat)
    (hp : hmiPhaseOf h = some .LOCKOUT) :
    hmiIteration h keys [] = none
    ∧ ∃ h1, hmiIteration h keys (b :: rx) = some (h1, keys, rx)
      ∧ h1.tx = h.tx
      ∧ h1.portA0 = !h.portA0
      ∧ (b = OPEN_BYTE →
          h1 = { h with portA0 := !h.portA0, PhasesSwitch := 3 }
          ∧ hmiPhaseOf h1 = some .MENU)
      ∧ (b ≠ OPEN_BYTE →
          h1 = { h with portA0 := !h.portA0 } ∧ hmiPhaseOf h1 = some .LOCKOUT) := by
  have h5 : h.PhasesSwitch = 5 := (hmiPhaseOf_inv h).2.2.2.2 hp
  refine ⟨by rw [hmiIteration_five h _ _ h5]; rfl, ?_⟩
  rw [hmiIteration_five h _ _ h5]
  by_cases ha : b = OPEN_BYTE
  · refine ⟨{ h with portA0 := !h.portA0, PhasesSwitch := 3 }, ?_, rfl, rfl,
      fun _ => ⟨rfl, rfl⟩, fun hn => absurd ha hn⟩
    simp only [phaseFive, TOGGLE_BIT_PORTA0, if_pos ha]
  · refine ⟨{ h with portA0 := !h.portA0 }, ?_, rfl, rfl, fun e => absurd e ha,
      fun _ => ⟨rfl, ?_⟩⟩
    · simp only [phaseFive, TOGGLE_BIT_PORTA0, if_neg ha]
    · simp [hmiPhaseOf, h5]

/-- Witness for C26: the opening code `'a'` received in LOCKOUT. -/
theorem phaseFive_one_byte_witness :
    hmiIteration sampleLockoutHMI [5] [] = none
    ∧ ∃ h1, hmiIteration sampleLockoutHMI [5] (97 :: [98]) = some (h1, [5], [98])
      ∧ h1.tx = sampleLockoutHMI.tx
      ∧ h1.portA0 = !sampleLockoutHMI.portA0
      ∧ (97 = OPEN_BYTE →
          h1 = { sampleLockoutHMI with portA0 := !sampleLockoutHMI.portA0, PhasesSwitch := 3 }
          ∧ hmiPhaseOf h1 = some .MENU)
      ∧ (97 ≠ OPEN_BYTE →
          h1 = { sampleLockoutHMI with portA0 := !sampleLockoutHMI.portA0 }
          ∧ hmiPhaseOf h1 = some .LOCKOUT) :=
  phaseFive_one_byte sampleLockoutHMI [5] 97 [98] rfl

/-- C27: at every state `h` the HMI node reaches from reset, over every
sequence of key values and inbound bytes and any number of passes of its
main loop: the persistent entry count is at most 5, every cell of the two
entry buffers holds a value that is at most 9, and the cells from index 5
on were never written. From such a state, for every key sequence, the entry
loop of `phaseOne` ends with the entry count exactly 5 and the entry loop of
`phaseTwo` (from its local count 0) with the count exactly 5, so the submit
key is accepted only with five digits buffered; each loop leaves every cell
of its buffer either as it was or, at an index below 5, holding a value that
is at most 9. Every pass of the main loop sends nothing, `'+'`, `'-'`, or
`'F'` or `'S'` followed by exactly five bytes that are each at most 9. -/
theorem entry_buffers_bounded (n : Nat) (keys rx : List Nat) (h : HMI) (ks rx1 : List Nat)
    (hreach : hmiRun n (hmiBoot, keys, rx) = some (h, ks, rx1)) :
    h.initialPassLimit ≤ 5
    ∧ (∀ i, h.passSetArr i ≤ 9 ∧ h.passCompareArr i ≤ 9)
    ∧ (∀ i, 5 ≤ i → h.passSetArr i = hmiBoot.passSetArr i
        ∧ h.passCompareArr i = hmiBoot.passCompareArr i)
    ∧ (∀ keys1 h1 rest, phaseOneLoop keys1 h = some (h1, rest) →
        h1.initialPassLimit = 5
        ∧ ∀ i, h1.passSetArr i = h.passSetArr i ∨ (i < 5 ∧ h1.passSetArr i ≤ 9))
    ∧ (∀ keys1 h1 passLimit rest, phaseTwoLoop keys1 0 h = some (h1, passLimit, rest) →
        passLimit = 5
        ∧ ∀ i, h1.passCompareArr i = h.passCompareArr i ∨ (i < 5 ∧ h1.passCompareArr i ≤ 9))
    ∧ (∀ keys1 rx2 h1 ks1 rx3, hmiIteration h keys1 rx2 = some (h1, ks1, rx3) →
        ∃ m, h1.tx = h.tx ++ m
          ∧ (m = [] ∨ m = [KEY_PLUS] ∨ m = [KEY_MINUS]
            ∨ ∃ ds, (ds.length = 5 ∧ ∀ b ∈ ds, b ≤ 9)
                ∧ (m = BYTE_F :: ds ∨ m = BYTE_S :: ds))) := by
  obtain ⟨hinv, hfr⟩ := hmiRun_inv n (hmiBoot, keys, rx) (h, ks, rx1) hmiBoot_HMIInv hreach
  refine ⟨hinv.1, fun i => ⟨hinv.2.1 i, hinv.2.2 i⟩, hfr, ?_, ?_, ?_⟩
  · intro keys1 h1 rest hl
    obtain ⟨_, _, g3, g4⟩ := phaseOneLoop_shape keys1 h h1 rest hl
    exact ⟨g3 hinv.1, g4⟩
  · intro keys1 h1 passLimit rest hl
    obtain ⟨_, _, g3, g4⟩ := phaseTwoLoop_shape keys1 0 h h1 passLimit rest hl
    exact ⟨g3 (Nat.zero_le 5), g4⟩
  · intro keys1 rx2 h1 ks1 rx3 hc
    exact (hmiIteration_step h h1 keys1 rx2 ks1 rx3 hinv hc).2.1

/-- Witness for C27: the state after the entry 1, 2, 3, 4, 5 was set and
confirmed from reset, in two passes of the main loop. -/
theorem entry_buffers_bounded_witness :
    sampleStoredHMI.initialPassLimit ≤ 5
    ∧ (∀ i, sampleStoredHMI.passSetArr i ≤ 9 ∧ sampleStoredHMI.passCompareArr i ≤ 9)
    ∧ (∀ i, 5 ≤ i → sampleStoredHMI.passSetArr i = hmiBoot.passSetArr i
        ∧ sampleStoredHMI.passCompareArr i = hmiBoot.passCompareArr i)
    ∧ (∀ keys1 h1 rest, phaseOneLoop keys1 sampleStoredHMI = some (h1, rest) →
        h1.initialPassLimit = 5
        ∧ ∀ i, h1.passSetArr i = sampleStoredHMI.passSetArr i
            ∨ (i < 5 ∧ h1.passSetArr i ≤ 9))
    ∧ (∀ keys1 h1 passLimit rest,
        phaseTwoLoop keys1 0 sampleStoredHMI = some (h1, passLimit, rest) →
        passLimit = 5
        ∧ ∀ i, h1.passCompareArr i = sampleStoredHMI.passCompareArr i
            ∨ (i < 5 ∧ h1.passCompareArr i ≤ 9))
    ∧ (∀ keys1 rx2 h1 ks1 rx3,
        hmiIteration sampleStoredHMI keys1 rx2 = some (h1, ks1, rx3) →
        ∃ m, h1.tx = sampleStoredHMI.tx ++ m
          ∧ (m = [] ∨ m = [KEY_PLUS] ∨ m = [KEY_MINUS]
            ∨ ∃ ds, (ds.length = 5 ∧ ∀ b ∈ ds, b ≤ 9)
                ∧ (m = BYTE_F :: ds ∨ m = BYTE_S :: ds))) :=
  entry_buffers_bounded 2
    [1, 1, 2, 2, 3, 3, 4, 4, 5, 5, 61, 61, 1, 1, 2, 2, 3, 3, 4, 4, 5, 5, 61, 61, 43] [100]
    sampleStoredHMI [43] [100] rfl

/-- C28: `UART_receiveString` over a buffer filled with 7, evaluated at the
cells 0, 1, 255 and 256. On 255 bytes `'A'` followed by `'#'` and one more
byte the call does what the claim says: the bytes are stored from offset 0,
cell 255 holds `'\0'` in place of the `'#'`, and the link is consumed up to
and including the `'#'`. On 256 bytes `'A'` followed by `'#'` the link is
consumed the same way, but the `uint8` index has wrapped: the `'#'` was
stored at offset 0 and replaced by `'\0'` there, so cell 0 holds 0 and not
`'A'`, and cell 256, where the terminator of the 256 bytes belongs, still
holds 7. -/
theorem receiveString_index_wraps :
    receiveSummary
        (UART_receiveString (List.replicate 255 65 ++ [BYTE_HASH, 1]) (fun _ => 7))
      = some (65, 65, 0, 7, [1])
    ∧ receiveSummary
        (UART_receiveString (List.replicate 256 65 ++ [BYTE_HASH, 1]) (fun _ => 7))
      = some (0, 65, 65, 7, [1]) := by
  refine ⟨?_, ?_⟩ <;> decide

/-- C29: for every program state type, every content of the three callback
pointers and every state. Each of the six interrupt handlers of Timer.c
applies the callback registered for its timer exactly once (the state after
the handler is `f s`) and leaves the state as it is when the pointer is
`NULL_PTR`. `Timer_setCallBack(a_ptr, id)` replaces the pointer of timer
`id` only: the pointers of the other two timers are as before, and an `id`
outside the enum changes nothing. With `timerCallBackRuntime` registered for
`Timer_1` after reset, as `main` of the Control node does, a Timer 1
interrupt is one call of `timerCallBackRuntime` and an interrupt of Timer 0
or Timer 2 changes nothing. -/
theorem timer_callbacks_dispatch (σ : Type) (t : Timers σ) (s : σ) (f : σ → σ)
    (a_ptr : Option (σ → σ)) (id : Nat) (c : Control) :
    (t.g_CallBackTimer0 = some f → TIMER0_OVF_vect t s = f s ∧ TIMER0_COMP_vect t s = f s)
    ∧ (t.g_CallBackTimer1 = some f → TIMER1_OVF_vect t s = f s ∧ TIMER1_COMPA_vect t s = f s)
    ∧ (t.g_CallBackTimer2 = some f → TIMER2_OVF_vect t s = f s ∧ TIMER2_COMP_vect t s = f s)
    ∧ (t.g_CallBackTimer0 = none → TIMER0_OVF_vect t s = s ∧ TIMER0_COMP_vect t s = s)
    ∧ (t.g_CallBackTimer1 = none → TIMER1_OVF_vect t s = s ∧ TIMER1_COMPA_vect t s = s)
    ∧ (t.g_CallBackTimer2 = none → TIMER2_OVF_vect t s = s ∧ TIMER2_COMP_vect t s = s)
    ∧ Timer_setCallBack a_ptr Timer_0 t = { t with g_CallBackTimer0 := a_ptr }
    ∧ Timer_setCallBack a_ptr Timer_1 t = { t with g_CallBackTimer1 := a_ptr }
    ∧ Timer_setCallBack a_ptr Timer_2 t = { t with g_CallBackTimer2 := a_ptr }
    ∧ (id ≠ Timer_0 → (Timer_setCallBack a_ptr id t).g_CallBackTimer0 = t.g_CallBackTimer0)
    ∧ (id ≠ Timer_1 → (Timer_setCallBack a_ptr id t).g_CallBackTimer1 = t.g_CallBackTimer1)
    ∧ (id ≠ Timer_2 → (Timer_setCallBack a_ptr id t).g_CallBackTimer2 = t.g_CallBackTimer2)
    ∧ (id ≠ Timer_0 → id ≠ Timer_1 → id ≠ Timer_2 → Timer_setCallBack a_ptr id t = t)
    ∧ TIMER1_COMPA_vect
          (Timer_setCallBack (some timerCallBackRuntime) Timer_1 (Timers.reset Control)) c
        = timerCallBackRuntime c
    ∧ TIMER0_OVF_vect
          (Timer_setCallBack (some timerCallBackRuntime) Timer_1 (Timers.reset Control)) c = c
    ∧ TIMER2_COMP_vect
          (Timer_setCallBack (some timerCallBackRuntime) Timer_1 (Timers.reset Control)) c
        = c := by
  refine ⟨?_, ?_, ?_, ?_, ?_, ?_, rfl, rfl, rfl, ?_, ?_, ?_, ?_, rfl, rfl, rfl⟩
  · intro h; simp [TIMER0_OVF_vect, TIMER0_COMP_vect, h]
  · intro h; simp [TIMER1_OVF_vect, TIMER1_COMPA_vect, h]
  · intro h; simp [TIMER2_OVF_vect, TIMER2_COMP_vect, h]
  · intro h; simp [TIMER0_OVF_vect, TIMER0_COMP_vect, h]
  · intro h; simp [TIMER1_OVF_vect, TIMER1_COMPA_vect, h]
  · intro h; simp [TIMER2_OVF_vect, TIMER2_COMP_vect, h]
  · intro h
    unfold Timer_setCallBack
    rw [if_neg h]
    split_ifs <;> rfl
  · intro h
    unfold Timer_setCallBack
    rw [if_neg h]
    split_ifs <;> rfl
  · intro h
    unfold Timer_setCallBack
    rw [if_neg h]
    split_ifs <;> rfl
  · intro h0 h1 h2
    unfold Timer_setCallBack
    rw [if_neg h0, if_neg h1, if_neg h2]

/-- C30: at every state the Control node reaches from reset, over any store
content, any bytes on the link and any sequence of ticks and main-loop
passes with any sensor answers and any read-fault patterns, the error count
`g_error` is 0, 1 or 2; in particular the `uint8` increment of the next
mismatch does not wrap. -/
theorem error_count_bounded (mem : Nat → Nat) (rx0 : List Nat) (es : List Event)
    (c : Control) (rx : List Nat) (h : run es (boot mem, rx0) = some (c, rx)) :
    (c.g_error = 0 ∨ c.g_error = 1 ∨ c.g_error = 2)
    ∧ (c.g_error + 1) % 256 = c.g_error + 1 := by
  have hb : c.g_error ≤ 2 :=
    run_g_error es (boot mem, rx0) (c, rx) (Nat.zero_le 2) h
  refine ⟨by omega, Nat.mod_eq_of_lt (by omega)⟩

/-- Witness for C30: two mismatching verifies, the first with a faulting
read, and a tick in between. -/
theorem error_count_bounded_witness :
    (sampleTwoMismatches.g_error = 0 ∨ sampleTwoMismatches.g_error = 1
      ∨ sampleTwoMismatches.g_error = 2)
    ∧ (sampleTwoMismatches.g_error + 1) % 256 = sampleTwoMismatches.g_error + 1 :=
  error_count_bounded (fun a => a) [70, 9, 70, 8]
    [.iter (fun _ => true) 0, .tick, .iter noFault 1] sampleTwoMismatches [] rfl

/-- C31: at every state the Control node reaches from reset, over any store
content, any bytes on the link and any sequence of ticks and main-loop
passes: the alarm flag is 0xFF if and only if the phase is ALARM (and it is
0 otherwise); in ALARM the error count is 0; and outside the door phase
(`phaseSwitches ≠ 2`, that is in CREDENTIAL_CHECK and in ALARM) the door
state of `doorHandler` is `OPENING_DOOR`, its byte-sent flag is clear and
the timer context is `OPENING_DOOR` or `Done`. -/
theorem boundary_state_consistent (mem : Nat → Nat) (rx0 : List Nat) (es : List Event)
    (c : Control) (rx : List Nat) (h : run es (boot mem, rx0) = some (c, rx)) :
    (c.alarmState = 255 ↔ phaseOf c = some .ALARM)
    ∧ (phaseOf c ≠ some .ALARM → c.alarmState = 0)
    ∧ (phaseOf c = some .ALARM → c.g_error = 0)
    ∧ (c.phaseSwitches ≠ 2 →
        (phaseOf c = some .CREDENTIAL_CHECK ∨ phaseOf c = some .ALARM)
        ∧ c.motorState = .OPENING_DOOR
        ∧ c.doorByteSent = 0
        ∧ (c.timerState = .OPENING_DOOR ∨ c.timerState = .Done)) := by
  obtain ⟨hP, _, h3, hD⟩ := reachable_BoundaryInv mem rx0 es c rx h
  obtain ⟨hA, hT⟩ := run_AlarmInv es (boot mem, rx0) (c, rx) (boot_AlarmInv mem) h
  have hne : phaseOf c ≠ some .ALARM → c.alarmState = 0 := by
    intro hn
    apply hA
    intro hp
    exact hn (phaseOf_alarm c hp)
  refine ⟨⟨?_, fun hp => (h3 (phaseOf_alarm_inv c hp)).2⟩, hne,
    fun hp => (h3 (phaseOf_alarm_inv c hp)).1, ?_⟩
  · intro ha
    by_contra hn
    have := hne hn
    rw [ha] at this
    exact absurd this (by decide)
  · intro hp
    refine ⟨?_, hP.2.1 hp, hD hp, hT hp⟩
    rcases hP.1 with e | e | e
    · exact Or.inl (phaseOf_credential c e)
    · exact absurd e hp
    · exact Or.inr (phaseOf_alarm c e)

/-- Witness for C31: the state right after the third of three mismatching
verifies from reset. -/
theorem boundary_state_consistent_witness :
    (sampleAlarmState.alarmState = 255 ↔ phaseOf sampleAlarmState = some .ALARM)
    ∧ (phaseOf sampleAlarmState ≠ some .ALARM → sampleAlarmState.alarmState = 0)
    ∧ (phaseOf sampleAlarmState = some .ALARM → sampleAlarmState.g_error = 0)
    ∧ (sampleAlarmState.phaseSwitches ≠ 2 →
        (phaseOf sampleAlarmState = some .CREDENTIAL_CHECK
          ∨ phaseOf sampleAlarmState = some .ALARM)
        ∧ sampleAlarmState.motorState = .OPENING_DOOR
        ∧ sampleAlarmState.doorByteSent = 0
        ∧ (sampleAlarmState.timerState = .OPENING_DOOR
          ∨ sampleAlarmState.timerState = .Done)) :=
  boundary_state_consistent (fun a => a) threeWrong (passes 11 noFault 1)
    sampleAlarmState [9, 9, 9, 9] rfl

/-- C32: Control in CREDENTIAL_CHECK with a byte `b` other than `'F'` and
`'S'` first on the link. `passStoreCheck` returns having received that one
byte and left the state exactly as it was, for every read-fault pattern:
nothing sent, the store, the compare byte and the diagnostic pin untouched,
phase, error count, alarm flag and elapsed counter unchanged. A run of such
bytes is taken off the link one byte per pass of the main loop, which only
clears the interrupt bit. The keys `'+'` and `'-'` and every digit value
0..9 are such bytes. After a Verify request whose five digits differ from
the stored credential, the pass returns at the first differing digit with
the later digits still on the link; none of them is `'F'` or `'S'`, and
while Control is in CREDENTIAL_CHECK they are dropped one per pass without
any further change of state. -/
theorem stray_request_bytes_dropped (fault : Nat → Bool) (pir : Nat) (c : Control)
    (b : Nat) (l rest m rest1 : List Nat)
    (hp : phaseOf c = some .CREDENTIAL_CHECK)
    (hb : b ≠ BYTE_F ∧ b ≠ BYTE_S) (hl : ∀ x ∈ l, x ≠ BYTE_F ∧ x ≠ BYTE_S)
    (hm : isDigitMessage m) (hne : m ≠ credential c) :
    passStoreCheck fault c (b :: rest) = some (c, rest)
    ∧ run (passes (l.length + 1) fault pir) (c, b :: (l ++ rest))
        = some ({ c with iBit := false }, rest)
    ∧ (∀ d, d ≤ 9 ∨ d = KEY_PLUS ∨ d = KEY_MINUS → d ≠ BYTE_F ∧ d ≠ BYTE_S)
    ∧ ∃ k c1, k < 5
        ∧ step (.iter noFault pir) (c, BYTE_F :: (m ++ rest1))
            = some (c1, m.drop (k + 1) ++ rest1)
        ∧ (∀ x ∈ m.drop (k + 1), x ≠ BYTE_F ∧ x ≠ BYTE_S)
        ∧ (phaseOf c1 = some .CREDENTIAL_CHECK →
            run (passes (m.drop (k + 1)).length fault pir) (c1, m.drop (k + 1) ++ rest1)
              = some (c1, rest1)) := by
  have hp1 : c.phaseSwitches = 1 := phaseOf_credential_inv c hp
  refine ⟨passStoreCheck_other fault c b rest hb.1 hb.2, ?_, ?_, ?_⟩
  · have hstep : step (.iter fault pir) (c, b :: (l ++ rest))
        = some ({ c with iBit := false }, l ++ rest) := by
      simp only [step, mainIteration]
      rw [if_pos hp1]
      exact passStoreCheck_other fault _ b _ hb.1 hb.2
    rw [passes_succ, run_cons _ _ _ _ hstep]
    exact run_passes_other fault pir l { c with iBit := false } rest hp1 rfl hl
  · intro d hd
    simp only [BYTE_F, BYTE_S, KEY_PLUS, KEY_MINUS] at hd ⊢
    omega
  · obtain ⟨cb, k, hk, hv⟩ := passStoreCheck_verify_mismatch { c with iBit := false } m rest1
      hm.1 (isDigitMessage_nonBlank m hm) hne
    have hdrop := isDigitMessage_drop_other m hm (k + 1)
    refine ⟨k, mismatchBranch { c with iBit := false, compareByte := cb }, hk, ?_, hdrop, ?_⟩
    · simp only [step, mainIteration]
      rw [if_pos hp1]
      exact hv
    · intro hc1
      have hq := phaseOf_credential_inv _ hc1
      have hi : (mismatchBranch { c with iBit := false, compareByte := cb }).iBit = false := by
        rcases mismatchBranch_shape { c with iBit := false, compareByte := cb } with
          ⟨_, e⟩ | ⟨_, e⟩ <;> rw [e]
      exact run_passes_other fault pir (m.drop (k + 1)) _ rest1 hq hi hdrop

/-- Witness for C32: from reset over the store holding 1, 2, 3, 4, 5, the
bytes `'+'`, `'-'` and 9 on the link, and the Verify message 9, 9, 9, 9,
9. -/
theorem stray_request_bytes_dropped_witness :
    passStoreCheck (fun _ => true) (boot fun a => a) (43 :: [70])
        = some (boot fun a => a, [70])
    ∧ run (passes ([45, 9].length + 1) (fun _ => true) 0)
          (boot fun a => a, 43 :: ([45, 9] ++ [70]))
        = some ({ (boot fun a => a) with iBit := false }, [70])
    ∧ (∀ d, d ≤ 9 ∨ d = KEY_PLUS ∨ d = KEY_MINUS → d ≠ BYTE_F ∧ d ≠ BYTE_S)
    ∧ ∃ k c1, k < 5
        ∧ step (.iter noFault 0) (boot fun a => a, BYTE_F :: ([9, 9, 9, 9, 9] ++ [70]))
            = some (c1, [9, 9, 9, 9, 9].drop (k + 1) ++ [70])
        ∧ (∀ x ∈ [9, 9, 9, 9, 9].drop (k + 1), x ≠ BYTE_F ∧ x ≠ BYTE_S)
        ∧ (phaseOf c1 = some .CREDENTIAL_CHECK →
            run (passes ([9, 9, 9, 9, 9].drop (k + 1)).length (fun _ => true) 0)
                (c1, [9, 9, 9, 9, 9].drop (k + 1) ++ [70])
              = some (c1, [70])) :=
  stray_request_bytes_dropped (fun _ => true) 0 (boot fun a => a) 43 [45, 9] [70]
    [9, 9, 9, 9, 9] [70] rfl (by decide) (by decide) ⟨rfl, by decide⟩ (by decide)

/-- C33: a Verify request, for every read-fault pattern, every state and
every content of the link. Whenever `passStoreCheck` returns from it, the
store holds at every address what it held before, and exactly one outcome
byte was sent: `'X'` (success), `'Z'` (mismatch) or `'d'` (alarm). It does
return whenever the link holds at least five non-blank bytes after the
`'F'`. -/
theorem verify_never_writes_store (fault : Nat → Bool) (c : Control) (rx : List Nat) :
    (∀ c1 rest, passStoreCheck fault c (BYTE_F :: rx) = some (c1, rest) →
      c1.eeprom = c.eeprom
      ∧ (∀ a, c1.eeprom a = c.eeprom a)
      ∧ credential c1 = credential c
      ∧ (c1.tx = c.tx ++ [BYTE_X] ∨ c1.tx = c.tx ++ [BYTE_Z]
          ∨ c1.tx = c.tx ++ [Alarm_Byte]))
    ∧ (5 ≤ (nonBlank rx).length →
      ∃ c1 rest, passStoreCheck fault c (BYTE_F :: rx) = some (c1, rest)
        ∧ c1.eeprom = c.eeprom) := by
  constructor
  · intro c1 rest h
    obtain ⟨he, ht⟩ := passStoreCheck_verify_frame fault c c1 rx rest h
    refine ⟨he, fun a => by rw [he], ?_, ht⟩
    simp [credential, he]
  · intro hlen
    obtain ⟨r, hr⟩ := verifyLoop_returns fault rx 0 c (by omega)
    obtain ⟨c2, flag, rest2⟩ := r
    have hF := passStoreCheck_F fault c rx
    rw [hr] at hF
    by_cases hfl : flag = 0
    · simp only [hfl, if_true] at hF
      exact ⟨_, _, hF, (passStoreCheck_verify_frame fault c _ rx _ hF).1⟩
    · simp only [hfl, if_false] at hF
      exact ⟨_, _, hF, (passStoreCheck_verify_frame fault c _ rx _ hF).1⟩

/-- C34: the HMI in MENU with the entry count 0, Control in CREDENTIAL_CHECK
with any store content and any error count, nothing on the link towards
Control. The minus key and two submitted entries of the same five digits
`d0 .. d4` take the HMI through three passes of its main loop, in which it
receives nothing and sends exactly `'-'`, `'S'`, `d0 .. d4`: no `'F'` is
sent and no outcome byte is awaited. Two passes of the Control main loop
then drop the `'-'` and store the digits: the stored credential is
`d0 .. d4` whatever it was before, Control has sent nothing, and its phase
and error count are as they were. -/
theorem credential_change_without_verify (h : HMI) (c : Control) (k1 ka kb : Nat)
    (pre1 pre2 : List (Nat × Nat)) (d0 d1 d2 d3 d4 : Nat) (ks toHmi : List Nat)
    (fault : Nat → Bool) (pir : Nat)
    (hm : hmiPhaseOf h = some .MENU) (h0 : h.initialPassLimit = 0) (hk1 : k1 ≠ KEY_PLUS)
    (hpre1 : turnDigits pre1 = [d0, d1, d2, d3]) (hpre2 : turnDigits pre2 = [d0, d1, d2, d3])
    (hd4 : d4 ≤ 9) (hc : phaseOf c = some .CREDENTIAL_CHECK) :
    ∃ s1, hmiPasses 3
          (k1 :: KEY_MINUS :: (turnKeys pre1 ++ ka :: d4 :: KEY_EQ :: KEY_EQ ::
            (turnKeys pre2 ++ kb :: d4 :: KEY_EQ :: KEY_EQ :: ks)))
          { hmi := h, ctl := c, toCtl := [], toHmi := toHmi } = some (s1, ks)
      ∧ s1.toCtl = [KEY_MINUS, BYTE_S, d0, d1, d2, d3, d4]
      ∧ BYTE_F ∉ s1.toCtl
      ∧ s1.toHmi = toHmi
      ∧ hmiPhaseOf s1.hmi = some .MENU
      ∧ ∃ s2, ctlRun (passes 2 fault pir) s1 = some s2
        ∧ credential s2.ctl = [d0, d1, d2, d3, d4]
        ∧ s2.toCtl = []
        ∧ s2.ctl.tx = c.tx
        ∧ s2.toHmi = toHmi
        ∧ s2.ctl.g_error = c.g_error
        ∧ phaseOf s2.ctl = some .CREDENTIAL_CHECK := by
  have h3 : h.PhasesSwitch = 3 := (hmiPhaseOf_inv h).2.2.1 hm
  have hp1 : c.phaseSwitches = 1 := phaseOf_credential_inv c hc
  have hle := turnDigits_le pre1
  rw [hpre1] at hle
  have g0 : d0 ≤ 9 := hle d0 (by simp)
  have g1 : d1 ≤ 9 := hle d1 (by simp)
  have g2 : d2 ≤ 9 := hle d2 (by simp)
  have g3 : d3 ≤ 9 := hle d3 (by simp)
  have hrun := hmiRun_change_credential h k1 ka kb pre1 pre2 d0 d1 d2 d3 d4 ks toHmi
    h3 h0 hk1 hpre1 hpre2 hd4
  have hpass := hmiPasses_of_run 3 _ { hmi := h, ctl := c, toCtl := [], toHmi := toHmi } _ ks
    toHmi [KEY_MINUS, BYTE_S, d0, d1, d2, d3, d4] hrun rfl
  obtain ⟨mem, hr, hmem⟩ := run_minus_then_store fault pir c d0 d1 d2 d3 d4 [] hp1
    g0 g1 g2 g3 hd4
  refine ⟨_, hpass, rfl, ?_, rfl, rfl, ?_⟩
  · intro hin
    simp only [List.nil_append, List.mem_cons, List.mem_singleton, List.not_mem_nil,
      or_false] at hin
    have hF : BYTE_F = 70 := rfl
    have hM : KEY_MINUS = 45 := rfl
    have hS : BYTE_S = 83 := rfl
    rw [hF, hM, hS] at hin
    omega
  · have hcr := ctlRun_of_run (passes 2 fault pir)
      { hmi := { h with
                  passSetArr := writeDigits h.passSetArr 0 [d0, d1, d2, d3, d4]
                  passCompareArr := writeDigits h.passCompareArr 0 [d0, d1, d2, d3, d4]
                  initialPassLimit := 0
                  tx := h.tx ++ [KEY_MINUS, BYTE_S, d0, d1, d2, d3, d4]
                  PhasesSwitch := 3 }
        ctl := c
        toCtl := [] ++ [KEY_MINUS, BYTE_S, d0, d1, d2, d3, d4]
        toHmi := toHmi }
      { c with iBit := false, eeprom := mem } [] []
      (by rw [List.append_nil] at hr; exact hr) (by simp)
    refine ⟨_, hcr, hmem, rfl, rfl, by simp, rfl, ?_⟩
    simp [phaseOf, hp1]

/-- Witness for C34: the HMI in MENU after reset values, Control over the
store holding 1, 2, 3, 4, 5 with an error count of 2 (the state after two
mismatching verifies); the new digits are 9, 8, 7, 6, 5. -/
theorem credential_change_without_verify_witness :
    ∃ s1, hmiPasses 3
          (45 :: KEY_MINUS :: (turnKeys [(9, 9), (8, 8), (7, 7), (6, 6)]
            ++ 5 :: 5 :: KEY_EQ :: KEY_EQ ::
            (turnKeys [(9, 9), (8, 8), (7, 7), (6, 6)] ++ 5 :: 5 :: KEY_EQ :: KEY_EQ :: [])))
          { hmi := sampleMenuHMI, ctl := sampleTwoMismatches, toCtl := [], toHmi := [] }
        = some (s1, [])
      ∧ s1.toCtl = [KEY_MINUS, BYTE_S, 9, 8, 7, 6, 5]
      ∧ BYTE_F ∉ s1.toCtl
      ∧ s1.toHmi = []
      ∧ hmiPhaseOf s1.hmi = some .MENU
      ∧ ∃ s2, ctlRun (passes 2 noFault 0) s1 = some s2
        ∧ credential s2.ctl = [9, 8, 7, 6, 5]
        ∧ s2.toCtl = []
        ∧ s2.ctl.tx = sampleTwoMismatches.tx
        ∧ s2.toHmi = []
        ∧ s2.ctl.g_error = sampleTwoMismatches.g_error
        ∧ phaseOf s2.ctl = some .CREDENTIAL_CHECK :=
  credential_change_without_verify sampleMenuHMI sampleTwoMismatches 45 5 5
    [(9, 9), (8, 8), (7, 7), (6, 6)] [(9, 9), (8, 8), (7, 7), (6, 6)] 9 8 7 6 5 [] []
    noFault 0 rfl rfl (by decide) rfl rfl (by decide) rfl

/-- C35: the cycle-complete byte is 3, the numeric value of `Done`, and
differs from `'a'`, `'b'` and `'c'`. Take any state the Control node reaches
from reset in CREDENTIAL_CHECK, a step from it that enters DOOR_OPENING, and
then any events during which the node stays in the door phase until the
last event, with an HMI in DOOR_STATUS on the other end of the link. Once
the HMI has received, one byte per pass of its main loop, every byte Control
has sent since the entry, the HMI is in MENU if and only if Control is back
in CREDENTIAL_CHECK, and in DOOR_STATUS if and only if Control is still in
the door phase. When Control is back in CREDENTIAL_CHECK the bytes were
exactly `'a'`, `'b'`, `'c'`, 3, and the HMI is still in DOOR_STATUS after
each of the first three. -/
theorem door_cycle_ends_together (mem : Nat → Nat) (rx0 : List Nat) (es0 : List Event)
    (c0 : Control) (rxa : List Nat) (e : Event) (c : Control) (rx : List Nat)
    (es : List Event) (c1 : Control) (rx1 : List Nat) (h : HMI) (keys : List Nat)
    (hreach : run es0 (boot mem, rx0) = some (c0, rxa))
    (hc0 : phaseOf c0 = some .CREDENTIAL_CHECK)
    (hstep : step e (c0, rxa) = some (c, rx))
    (hc : phaseOf c = some .DOOR_OPENING)
    (hin : staysInDoorPhase es (c, rx) = true)
    (hrun : run es (c, rx) = some (c1, rx1))
    (hh : hmiPhaseOf h = some .DOOR_STATUS) :
    doorState.Done.toByte = 3
    ∧ doorState.Done.toByte ≠ OPEN_BYTE ∧ doorState.Done.toByte ≠ WAIT_BYTE
    ∧ doorState.Done.toByte ≠ CLOSE_BYTE
    ∧ ∃ s2 s3, ctlRun es { hmi := h, ctl := c, toCtl := rx, toHmi := [] } = some s2
      ∧ s2.ctl = c1
      ∧ c1.tx = c.tx ++ s2.toHmi
      ∧ hmiPasses s2.toHmi.length keys s2 = some (s3, keys)
      ∧ s3.toHmi = []
      ∧ (hmiPhaseOf s3.hmi = some .MENU ↔ phaseOf c1 = some .CREDENTIAL_CHECK)
      ∧ (hmiPhaseOf s3.hmi = some .DOOR_STATUS ↔ c1.phaseSwitches = 2)
      ∧ (phaseOf c1 = some .CREDENTIAL_CHECK →
          s2.toHmi = [OPEN_BYTE, WAIT_BYTE, CLOSE_BYTE, doorState.Done.toByte]
          ∧ ∀ n, n ≤ 3 → ∃ s, hmiPasses n keys s2 = some (s, keys)
              ∧ hmiPhaseOf s.hmi = some .DOOR_STATUS
              ∧ s.toHmi = s2.toHmi.drop n) := by
  refine ⟨rfl, by decide, by decide, by decide, ?_⟩
  obtain ⟨hP, _, _, hD⟩ := reachable_BoundaryInv mem rx0 es0 c0 rxa hreach
  have hp1 := phaseOf_credential_inv c0 hc0
  have hp2 := phaseOf_door_opening_inv c hc
  obtain ⟨hb, hm⟩ := step_enter_door e c0 c rxa rx hstep hp1 hp2
  have hms : c.motorState = .OPENING_DOOR := by
    rw [hm]; exact hP.2.1 (by rw [hp1]; decide)
  have hbs : c.doorByteSent = 0 := by
    rw [hb]; exact hD (by rw [hp1]; decide)
  have hinv : DoorInv c.tx c := by
    refine ⟨hp2, by rw [hms]; decide, ?_⟩
    simp [doorSent, hms, hbs]
  have h4 : h.PhasesSwitch = 4 := (hmiPhaseOf_inv h).2.2.2.1 hh
  rcases run_DoorInv c.tx es c c1 rx rx1 hinv hin hrun with hA | hB
  · -- Control is still in the door phase
    obtain ⟨q2, _, htx⟩ := hA
    have hcr := ctlRun_of_run es { hmi := h, ctl := c, toCtl := rx, toHmi := [] } c1 rx1
      (doorSent c1) hrun htx
    have hr := hmiRun_status (doorSent c1) h keys [] h4 (doorSent_status c1)
    rw [List.append_nil] at hr
    have hpass := hmiPasses_of_run (doorSent c1).length keys
      { hmi := h, ctl := c1, toCtl := rx1, toHmi := doorSent c1 } h keys [] [] hr
      (List.append_nil _).symm
    have hnc : phaseOf c1 ≠ some .CREDENTIAL_CHECK := by
      intro hcc
      have := phaseOf_credential_inv c1 hcc
      rw [q2] at this
      exact absurd this (by decide)
    refine ⟨{ hmi := h, ctl := c1, toCtl := rx1, toHmi := doorSent c1 }, _, hcr, rfl, htx,
      hpass, rfl, ?_, ?_, fun hcc => absurd hcc hnc⟩
    · constructor
      · intro hmn
        have : hmiPhaseOf h = some .MENU := hmn
        rw [hh] at this
        exact absurd this (by decide)
      · intro hcc
        exact absurd hcc hnc
    · exact ⟨fun _ => q2, fun _ => hh⟩
  · -- Control is back in the credential phase
    obtain ⟨q1, htx⟩ := hB
    have hcr := ctlRun_of_run es { hmi := h, ctl := c, toCtl := rx, toHmi := [] } c1 rx1
      [OPEN_BYTE, WAIT_BYTE, CLOSE_BYTE, doorState.Done.toByte] hrun htx
    have hr := hmiRun_cycle h keys [] h4
    have hpass := hmiPasses_of_run 4 keys
      { hmi := h, ctl := c1, toCtl := rx1,
        toHmi := [OPEN_BYTE, WAIT_BYTE, CLOSE_BYTE, doorState.Done.toByte] }
      { h with PhasesSwitch := 3 } keys [] [] hr (List.append_nil _).symm
    refine ⟨{ hmi := h, ctl := c1, toCtl := rx1,
              toHmi := [OPEN_BYTE, WAIT_BYTE, CLOSE_BYTE, doorState.Done.toByte] }, _, hcr,
      rfl, htx, hpass, rfl, ⟨fun _ => phaseOf_credential c1 q1, fun _ => rfl⟩, ?_, ?_⟩
    · constructor
      · intro hd
        have : hmiPhaseOf { h with PhasesSwitch := 3 } = some .DOOR_STATUS := hd
        exact absurd this (by simp [hmiPhaseOf])
      · intro q2
        rw [q1] at q2
        exact absurd q2 (by decide)
    · intro _
      refine ⟨rfl, ?_⟩
      intro n hn
      have key : ∀ (bs rest : List Nat),
          (∀ b ∈ bs, b = OPEN_BYTE ∨ b = WAIT_BYTE ∨ b = CLOSE_BYTE) →
          bs ++ rest = [OPEN_BYTE, WAIT_BYTE, CLOSE_BYTE, doorState.Done.toByte] →
          hmiPasses bs.length keys
              { hmi := h, ctl := c1, toCtl := rx1,
                toHmi := [OPEN_BYTE, WAIT_BYTE, CLOSE_BYTE, doorState.Done.toByte] }
            = some ({ hmi := h, ctl := c1, toCtl := rx1 ++ [], toHmi := rest }, keys) := by
        intro bs rest hbs' hsplit
        have hr' := hmiRun_status bs h keys rest h4 hbs'
        rw [hsplit] at hr'
        exact hmiPasses_of_run bs.length keys
          { hmi := h, ctl := c1, toCtl := rx1,
            toHmi := [OPEN_BYTE, WAIT_BYTE, CLOSE_BYTE, doorState.Done.toByte] }
          h keys rest [] hr' (List.append_nil _).symm
      interval_cases n
      · exact ⟨_, key [] _ (by simp) rfl, hh, rfl⟩
      · exact ⟨_, key [OPEN_BYTE] _ (by simp) rfl, hh, rfl⟩
      · exact ⟨_, key [OPEN_BYTE, WAIT_BYTE] _ (by simp) rfl, hh, rfl⟩
      · exact ⟨_, key [OPEN_BYTE, WAIT_BYTE, CLOSE_BYTE] _ (by simp) rfl, hh, rfl⟩

/-- Witness for C35: the first door cycle after reset, with the sensor clear
on the first poll, and the HMI in DOOR_STATUS. -/
theorem door_cycle_ends_together_witness :
    doorState.Done.toByte = 3
    ∧ doorState.Done.toByte ≠ OPEN_BYTE ∧ doorState.Done.toByte ≠ WAIT_BYTE
    ∧ doorState.Done.toByte ≠ CLOSE_BYTE
    ∧ ∃ s2 s3, ctlRun shortCycleEvents
          { hmi := sampleDoorStatusHMI, ctl := sampleDoorEntryState, toCtl := [], toHmi := [] }
        = some s2
      ∧ s2.ctl = sampleCycleEndState
      ∧ sampleCycleEndState.tx = sampleDoorEntryState.tx ++ s2.toHmi
      ∧ hmiPasses s2.toHmi.length [5] s2 = some (s3, [5])
      ∧ s3.toHmi = []
      ∧ (hmiPhaseOf s3.hmi = some .MENU ↔ phaseOf sampleCycleEndState = some .CREDENTIAL_CHECK)
      ∧ (hmiPhaseOf s3.hmi = some .DOOR_STATUS ↔ sampleCycleEndState.phaseSwitches = 2)
      ∧ (phaseOf sampleCycleEndState = some .CREDENTIAL_CHECK →
          s2.toHmi = [OPEN_BYTE, WAIT_BYTE, CLOSE_BYTE, doorState.Done.toByte]
          ∧ ∀ n, n ≤ 3 → ∃ s, hmiPasses n [5] s2 = some (s, [5])
              ∧ hmiPhaseOf s.hmi = some .DOOR_STATUS
              ∧ s.toHmi = s2.toHmi.drop n) :=
  door_cycle_ends_together (fun a => a) [70, 1, 2, 3, 4, 5] [] (boot fun a => a)
    [70, 1, 2, 3, 4, 5] (.iter noFault 1) sampleDoorEntryState [] shortCycleEvents
    sampleCycleEndState [] sampleDoorStatusHMI [5] rfl rfl rfl rfl (by decide) rfl rfl

end DoorLocker
